import Mathlib

/-!
Verification of the volumetric modeling core of `geometry/volume.hpp`.

The development shallowly embeds the C++ classes of the repository:
octree-backed `Volume_t`, flat `VolumeArray`, the georeferencing layer
`GeoVolume_t`, the directional iterator `Giterator_t`, the scalar-field
operations (`downscale`, `getQuads`, `isosurfaceAsMesh`) and the
Danielsson 4SED distance map `DistanceMap_t`.  Machine `int` becomes
`Int`, `double`/`float` become exact rationals `ℚ` (reals `ℝ` where a
square root is produced), `std::vector` storage becomes `List`.
-/

namespace LibGeometry

/-- `VolumeBase_t::Position_s` (volume.hpp:45): an integer voxel address. -/
structure Position where
  x : Int
  y : Int
  z : Int
deriving DecidableEq, Repr

/-- `VolumeBase_t::Displacement_s` (volume.hpp:78): an integer step vector. -/
structure Displacement where
  x : Int
  y : Int
  z : Int
deriving DecidableEq, Repr

/-- `Position_s::operator+(Displacement_s)` (volume.hpp:56). -/
def Position.add (p : Position) (d : Displacement) : Position :=
  ⟨p.x + d.x, p.y + d.y, p.z + d.z⟩

/-- `Displacement_s::operator*(int)` (volume.hpp:92). -/
def Displacement.scale (d : Displacement) (f : Int) : Displacement :=
  ⟨f * d.x, f * d.y, f * d.z⟩

/-- `VolumeBase_t::FPosition_s` (volume.hpp:98): a floating (here: exact
rational) world-space or fractional-grid coordinate. -/
structure FPosition where
  x : ℚ
  y : ℚ
  z : ℚ
deriving DecidableEq, Repr

/-! ### The octree node (`Volume_t<Value_t>::Node_s`, volume.hpp:295) -/

/-- `Volume_t::Node_s` (volume.hpp:295): a tagged variant, either
`SOLID` with a value or `GRAY` with 8 children indexed by octant. -/
inductive Node (α : Type) : Type where
  | solid (value : α)
  | gray (subnodes : Fin 8 → Node α)

/-- `Node_s::findOctant` (volume.hpp:880): octant flags are
`OCT_X = 4`, `OCT_Y = 2`, `OCT_Z = 1`; a flag is set when the coordinate
is at least half the node size. -/
def findOctant (nodeSize : Nat) (pos : Position) : Fin 8 :=
  ⟨(if ((nodeSize / 2 : Nat) : Int) ≤ pos.x then 4 else 0)
    + (if ((nodeSize / 2 : Nat) : Int) ≤ pos.y then 2 else 0)
    + (if ((nodeSize / 2 : Nat) : Int) ≤ pos.z then 1 else 0), by
      split <;> split <;> split <;> decide⟩

/-- `Node_s::toOctant` (volume.hpp:896): translate a position into
child-local coordinates of the given octant. -/
def toOctant (octant : Fin 8) (nodeSize : Nat) (pos : Position) : Position :=
  { x := if octant.val &&& 4 ≠ 0 then pos.x - ((nodeSize / 2 : Nat) : Int) else pos.x
    y := if octant.val &&& 2 ≠ 0 then pos.y - ((nodeSize / 2 : Nat) : Int) else pos.y
    z := if octant.val &&& 1 ≠ 0 then pos.z - ((nodeSize / 2 : Nat) : Int) else pos.z }

/-- `Node_s::get` (volume.hpp:922): a solid node returns its value, a gray
node recurses into the octant of the queried position. -/
def Node.get {α : Type} : Node α → Nat → Position → α
  | .solid v, _, _ => v
  | .gray ch, nodeSize, pos =>
      (ch (findOctant nodeSize pos)).get (nodeSize / 2)
        (toOctant (findOctant nodeSize pos) nodeSize pos)

/-- The per-child test of the collapse check in `Node_s::set`
(volume.hpp:967): `subnodes[i]->type == SOLID && subnodes[i]->value == value`. -/
def Node.isSolidOf {α : Type} [DecidableEq α] : Node α → α → Bool
  | .solid w, v => decide (w = v)
  | .gray _, _ => false

/-- The 8-child array after the recursive `set` into the selected octant
(volume.hpp:962). -/
def graySubUpdate {α : Type} (ch : Fin 8 → Node α) (oct : Fin 8)
    (newChild : Node α) : Fin 8 → Node α :=
  fun i => if i = oct then newChild else ch i

/-- The collapse check of `Node_s::set` (volume.hpp:966): if all 8
children are solid with the value just written, the node becomes solid. -/
def grayCollapse {α : Type} [DecidableEq α] (sub2 : Fin 8 → Node α) (v : α) :
    Node α :=
  if ∀ i : Fin 8, (sub2 i).isSolidOf v then .solid v else .gray sub2

/-- `Node_s::set` (volume.hpp:933).  A solid node with the same value is a
no-op; at node size 1 it is overwritten; otherwise it splits into 8 solid
children and proceeds as a gray node: recurse into the octant of the
position, then collapse if all 8 children are solid with the new value.
(The `nodeSize = 0` guard is unreachable from the `Volume_t` interface,
whose root size is at least 1; it only makes the recursion total.) -/
def Node.set {α : Type} [DecidableEq α] (n : Node α) (nodeSize : Nat)
    (pos : Position) (v : α) : Node α :=
  if hsz : nodeSize = 0 then n
  else
    match n with
    | .solid w =>
        if w = v then .solid w
        else if nodeSize = 1 then .solid v
        else
          let sub : Fin 8 → Node α := fun _ => .solid w
          let oct := findOctant nodeSize pos
          grayCollapse
            (graySubUpdate sub oct
              ((sub oct).set (nodeSize / 2) (toOctant oct nodeSize pos) v)) v
    | .gray ch =>
        let oct := findOctant nodeSize pos
        grayCollapse
          (graySubUpdate ch oct
            ((ch oct).set (nodeSize / 2) (toOctant oct nodeSize pos) v)) v
termination_by nodeSize
decreasing_by all_goals exact Nat.div_lt_self (Nat.pos_of_ne_zero hsz) (by omega)

/-! ### The octree volume (`Volume_t<Value_t>`, volume.hpp:260) -/

/-- `Volume_t` (volume.hpp:260): an octree root with a power-of-two root
size, the logical extents and the out-of-range value. -/
structure Volume (α : Type) where
  root : Node α
  rootSize : Nat
  sizeX : Int
  sizeY : Int
  sizeZ : Int
  initValue : α

/-- `Volume_t::Volume_t` (volume.hpp:823): a solid root and a root size of
`2 ^ ⌈log2 (max sizeX sizeY sizeZ)⌉` (the source computes this power with
floating `exp`/`log`/`round`; `Nat.clog 2` is its exact value). -/
def Volume.make (α : Type) (sizeX sizeY sizeZ : Int) (initValue : α) :
    Volume α :=
  { root := .solid initValue
    rootSize := 2 ^ Nat.clog 2 (max sizeX (max sizeY sizeZ)).toNat
    sizeX := sizeX
    sizeY := sizeY
    sizeZ := sizeZ
    initValue := initValue }

/-- `Volume_t::get` (volume.hpp:860): out-of-range returns `initValue`,
otherwise walk the tree from the root. -/
def Volume.get {α : Type} (V : Volume α) (i j k : Int) : α :=
  if i < 0 ∨ V.sizeX ≤ i ∨ j < 0 ∨ V.sizeY ≤ j ∨ k < 0 ∨ V.sizeZ ≤ k then
    V.initValue
  else V.root.get V.rootSize ⟨i, j, k⟩

/-- `Volume_t::set` (volume.hpp:869): out-of-range is a silent no-op,
otherwise mutate the tree from the root. -/
def Volume.set {α : Type} [DecidableEq α] (V : Volume α) (i j k : Int)
    (value : α) : Volume α :=
  if i < 0 ∨ V.sizeX ≤ i ∨ j < 0 ∨ V.sizeY ≤ j ∨ k < 0 ∨ V.sizeZ ≤ k then V
  else { V with root := V.root.set V.rootSize ⟨i, j, k⟩ value }

/-! ### The flat array volume (`VolumeArray<Value_t>`, volume.hpp:234) -/

/-- `VolumeArray` (volume.hpp:234): extents, the out-of-range value and a
flat buffer of `sizeX·sizeY·sizeZ` cells. -/
structure VolumeArray (α : Type) where
  sizeX : Int
  sizeY : Int
  sizeZ : Int
  initValue : α
  data : List α

/-- `VolumeArray::VolumeArray` (volume.hpp:798): the buffer is filled with
`initValue`. -/
def VolumeArray.make (α : Type) (sizeX sizeY sizeZ : Int) (initValue : α) :
    VolumeArray α :=
  ⟨sizeX, sizeY, sizeZ, initValue,
    List.replicate (sizeX * sizeY * sizeZ).toNat initValue⟩

/-- The flat buffer index `k + j·sizeZ + i·sizeZ·sizeY` (volume.hpp:811). -/
def VolumeArray.index {α : Type} (A : VolumeArray α) (i j k : Int) : Nat :=
  (k + j * A.sizeZ + i * A.sizeZ * A.sizeY).toNat

/-- `VolumeArray::get` (volume.hpp:807). -/
def VolumeArray.get {α : Type} (A : VolumeArray α) (i j k : Int) : α :=
  if i < 0 ∨ A.sizeX ≤ i ∨ j < 0 ∨ A.sizeY ≤ j ∨ k < 0 ∨ A.sizeZ ≤ k then
    A.initValue
  else A.data.getD (A.index i j k) A.initValue

/-- `VolumeArray::set` (volume.hpp:814). -/
def VolumeArray.set {α : Type} (A : VolumeArray α) (i j k : Int) (value : α) :
    VolumeArray α :=
  if i < 0 ∨ A.sizeX ≤ i ∨ j < 0 ∨ A.sizeY ≤ j ∨ k < 0 ∨ A.sizeZ ≤ k then A
  else { A with data := A.data.set (A.index i j k) value }

/-! ### Octant geometry -/

/-- Membership of a position in the cube of a node of the given size. -/
def inCube (s : Nat) (p : Position) : Prop :=
  0 ≤ p.x ∧ p.x < (s : Int) ∧ 0 ≤ p.y ∧ p.y < (s : Int) ∧ 0 ≤ p.z ∧ p.z < (s : Int)

theorem pow_succ_div_two (h : Nat) : (2 : Nat) ^ (h + 1) / 2 = 2 ^ h := by
  rw [pow_succ]
  exact Nat.mul_div_cancel _ (by norm_num)

theorem findOctant_spec (s : Nat) (p : Position) :
    ((findOctant s p).val &&& 4 ≠ 0 ↔ ((s / 2 : Nat) : Int) ≤ p.x)
      ∧ ((findOctant s p).val &&& 2 ≠ 0 ↔ ((s / 2 : Nat) : Int) ≤ p.y)
      ∧ ((findOctant s p).val &&& 1 ≠ 0 ↔ ((s / 2 : Nat) : Int) ≤ p.z) := by
  by_cases cx : ((s / 2 : Nat) : Int) ≤ p.x <;>
    by_cases cy : ((s / 2 : Nat) : Int) ≤ p.y <;>
      by_cases cz : ((s / 2 : Nat) : Int) ≤ p.z <;>
        simp only [findOctant, cx, cy, cz] <;> decide

theorem toOctant_findOctant_x (s : Nat) (p : Position) :
    (toOctant (findOctant s p) s p).x =
      if ((s / 2 : Nat) : Int) ≤ p.x then p.x - ((s / 2 : Nat) : Int) else p.x := by
  have hs := (findOctant_spec s p).1
  show (if (findOctant s p).val &&& 4 ≠ 0
      then p.x - ((s / 2 : Nat) : Int) else p.x) = _
  by_cases hx : ((s / 2 : Nat) : Int) ≤ p.x
  · rw [if_pos (hs.mpr hx), if_pos hx]
  · rw [if_neg (fun hc => hx (hs.mp hc)), if_neg hx]

theorem toOctant_findOctant_y (s : Nat) (p : Position) :
    (toOctant (findOctant s p) s p).y =
      if ((s / 2 : Nat) : Int) ≤ p.y then p.y - ((s / 2 : Nat) : Int) else p.y := by
  have hs := (findOctant_spec s p).2.1
  show (if (findOctant s p).val &&& 2 ≠ 0
      then p.y - ((s / 2 : Nat) : Int) else p.y) = _
  by_cases hy : ((s / 2 : Nat) : Int) ≤ p.y
  · rw [if_pos (hs.mpr hy), if_pos hy]
  · rw [if_neg (fun hc => hy (hs.mp hc)), if_neg hy]

theorem toOctant_findOctant_z (s : Nat) (p : Position) :
    (toOctant (findOctant s p) s p).z =
      if ((s / 2 : Nat) : Int) ≤ p.z then p.z - ((s / 2 : Nat) : Int) else p.z := by
  have hs := (findOctant_spec s p).2.2
  show (if (findOctant s p).val &&& 1 ≠ 0
      then p.z - ((s / 2 : Nat) : Int) else p.z) = _
  by_cases hz : ((s / 2 : Nat) : Int) ≤ p.z
  · rw [if_pos (hs.mpr hz), if_pos hz]
  · rw [if_neg (fun hc => hz (hs.mp hc)), if_neg hz]

/-- A position in a cube of size `2^(h+1)` lands, after octant translation,
in the child cube of size `2^h`. -/
theorem inCube_toOctant (h : Nat) (p : Position)
    (hp : inCube (2 ^ (h + 1)) p) :
    inCube (2 ^ h) (toOctant (findOctant (2 ^ (h + 1)) p) (2 ^ (h + 1)) p) := by
  obtain ⟨hx0, hx1, hy0, hy1, hz0, hz1⟩ := hp
  have hhalf : (2 : Nat) ^ (h + 1) / 2 = 2 ^ h := pow_succ_div_two h
  have htwo : ((2 ^ (h + 1) : Nat) : Int) = 2 * ((2 ^ h : Nat) : Int) := by
    push_cast [pow_succ]; ring
  have hx := toOctant_findOctant_x (2 ^ (h + 1)) p
  have hy := toOctant_findOctant_y (2 ^ (h + 1)) p
  have hz := toOctant_findOctant_z (2 ^ (h + 1)) p
  rw [hhalf] at hx hy hz
  refine ⟨?_, ?_, ?_, ?_, ?_, ?_⟩ <;>
    first
      | (rw [hx]; split <;> omega)
      | (rw [hy]; split <;> omega)
      | (rw [hz]; split <;> omega)

/-- Octant decomposition is injective: equal octants and equal child-local
coordinates force equal positions. -/
theorem octant_inj (s : Nat) (p q : Position)
    (hoct : findOctant s p = findOctant s q)
    (hto : toOctant (findOctant s p) s p = toOctant (findOctant s q) s q) :
    p = q := by
  have hpx := toOctant_findOctant_x s p
  have hqx := toOctant_findOctant_x s q
  have hpy := toOctant_findOctant_y s p
  have hqy := toOctant_findOctant_y s q
  have hpz := toOctant_findOctant_z s p
  have hqz := toOctant_findOctant_z s q
  have hbx := (findOctant_spec s p).1
  have hby := (findOctant_spec s p).2.1
  have hbz := (findOctant_spec s p).2.2
  have hbx2 := (findOctant_spec s q).1
  have hby2 := (findOctant_spec s q).2.1
  have hbz2 := (findOctant_spec s q).2.2
  rw [hoct] at hbx hby hbz
  have ex : (((s / 2 : Nat) : Int) ≤ p.x) ↔ (((s / 2 : Nat) : Int) ≤ q.x) :=
    ⟨fun hh => hbx2.mp (hbx.mpr hh), fun hh => hbx.mp (hbx2.mpr hh)⟩
  have ey : (((s / 2 : Nat) : Int) ≤ p.y) ↔ (((s / 2 : Nat) : Int) ≤ q.y) :=
    ⟨fun hh => hby2.mp (hby.mpr hh), fun hh => hby.mp (hby2.mpr hh)⟩
  have ez : (((s / 2 : Nat) : Int) ≤ p.z) ↔ (((s / 2 : Nat) : Int) ≤ q.z) :=
    ⟨fun hh => hbz2.mp (hbz.mpr hh), fun hh => hbz.mp (hbz2.mpr hh)⟩
  have hx : (toOctant (findOctant s p) s p).x = (toOctant (findOctant s q) s q).x := by
    rw [hto]
  have hy : (toOctant (findOctant s p) s p).y = (toOctant (findOctant s q) s q).y := by
    rw [hto]
  have hz : (toOctant (findOctant s p) s p).z = (toOctant (findOctant s q) s q).z := by
    rw [hto]
  rw [hpx, hqx] at hx
  rw [hpy, hqy] at hy
  rw [hpz, hqz] at hz
  have : p.x = q.x := by rcases ex with ⟨e1, e2⟩; split at hx <;> split at hx <;> omega
  have : p.y = q.y := by rcases ey with ⟨e1, e2⟩; split at hy <;> split at hy <;> omega
  have : p.z = q.z := by rcases ez with ⟨e1, e2⟩; split at hz <;> split at hz <;> omega
  cases p; cases q; simp_all

/-! ### Behaviour of `Node_s::set` -/

/-- Trees produced by `Volume_t` never contain a gray node at height 0
(`Node_s::set` only splits when `nodeSize != 1`). -/
def Node.wf {α : Type} : Node α → Nat → Prop
  | .solid _, _ => True
  | .gray ch, h => 1 ≤ h ∧ ∀ i, (ch i).wf (h - 1)

theorem Node.set_solid_unfold {α : Type} [DecidableEq α] (w v : α) (s : Nat)
    (hs : s ≠ 0) (pos : Position) :
    Node.set (.solid w) s pos v =
      (if w = v then .solid w
       else if s = 1 then .solid v
       else
         grayCollapse
           (graySubUpdate (fun _ => .solid w) (findOctant s pos)
             ((Node.solid w).set (s / 2) (toOctant (findOctant s pos) s pos) v))
           v) := by
  rw [Node.set]
  simp [hs]

theorem Node.set_gray_unfold {α : Type} [DecidableEq α] (ch : Fin 8 → Node α)
    (v : α) (s : Nat) (hs : s ≠ 0) (pos : Position) :
    Node.set (.gray ch) s pos v =
      grayCollapse
        (graySubUpdate ch (findOctant s pos)
          ((ch (findOctant s pos)).set (s / 2)
            (toOctant (findOctant s pos) s pos) v))
        v := by
  rw [Node.set]
  simp [hs]

theorem Node.isSolidOf_iff {α : Type} [DecidableEq α] (n : Node α) (v : α) :
    n.isSolidOf v = true ↔ n = .solid v := by
  cases n with
  | solid w => simp [Node.isSolidOf]
  | gray ch => simp [Node.isSolidOf]

theorem Node.get_solid {α : Type} (w : α) (s : Nat) (p : Position) :
    (Node.solid w).get s p = w := rfl

theorem Node.get_gray {α : Type} (ch : Fin 8 → Node α) (s : Nat) (p : Position) :
    (Node.gray ch).get s p =
      (ch (findOctant s p)).get (s / 2) (toOctant (findOctant s p) s p) := rfl

theorem inCube_one {p : Position} (hp : inCube (2 ^ 0) p) : p = ⟨0, 0, 0⟩ := by
  obtain ⟨h1, h2, h3, h4, h5, h6⟩ := hp
  simp only [pow_zero, Nat.cast_one] at h2 h4 h6
  cases p
  simp_all
  omega

theorem two_pow_succ_ne_one (h : Nat) : (2 : Nat) ^ (h + 1) ≠ 1 := by
  have : (2 : Nat) ^ (h + 1) = 2 ^ h * 2 := pow_succ 2 h
  have h2 : 1 ≤ (2 : Nat) ^ h := Nat.one_le_two_pow
  omega

/-- `Node_s::set` preserves well-formedness. -/
theorem Node.wf_set {α : Type} [DecidableEq α] :
    ∀ (h : Nat) (n : Node α), n.wf h → ∀ (pos : Position) (v : α),
      (n.set (2 ^ h) pos v).wf h := by
  intro h
  induction h with
  | zero =>
    intro n hn pos v
    cases n with
    | solid w =>
      rw [Node.set_solid_unfold _ _ _ (by norm_num) pos]
      by_cases hwv : w = v
      · simp [hwv, Node.wf]
      · simp [hwv, Node.wf]
    | gray ch => exact absurd hn.1 (by norm_num)
  | succ h ih =>
    intro n hn pos v
    have hne : (2 : Nat) ^ (h + 1) ≠ 0 := (Nat.pos_of_ne_zero (by positivity)).ne'
    have hne1 : (2 : Nat) ^ (h + 1) ≠ 1 := two_pow_succ_ne_one h
    have hdiv : (2 : Nat) ^ (h + 1) / 2 = 2 ^ h := pow_succ_div_two h
    cases n with
    | solid w =>
      rw [Node.set_solid_unfold _ _ _ hne pos]
      by_cases hwv : w = v
      · simp [hwv, Node.wf]
      · rw [if_neg hwv, if_neg hne1]
        unfold grayCollapse
        split
        · exact trivial
        · refine ⟨by omega, fun i => ?_⟩
          unfold graySubUpdate
          split
          · rw [hdiv]
            simpa using ih (.solid w) trivial _ v
          · exact trivial
    | gray ch =>
      rw [Node.set_gray_unfold _ _ _ hne pos]
      unfold grayCollapse
      split
      · exact trivial
      · refine ⟨by omega, fun i => ?_⟩
        unfold graySubUpdate
        split
        · rw [hdiv]
          simpa using ih _ (by simpa using hn.2 (findOctant (2 ^ (h + 1)) pos)) _ v
        · simpa using hn.2 i

/-- The central behavioural lemma for `Node_s::set` (volume.hpp:933): on a
well-formed node it updates exactly the addressed voxel, as observed
through `Node_s::get`. -/
theorem Node.get_set {α : Type} [DecidableEq α] :
    ∀ (h : Nat) (n : Node α), n.wf h →
      ∀ (pos pos2 : Position), inCube (2 ^ h) pos → inCube (2 ^ h) pos2 →
        ∀ (v : α),
          (n.set (2 ^ h) pos v).get (2 ^ h) pos2 =
            if pos2 = pos then v else n.get (2 ^ h) pos2 := by
  intro h
  induction h with
  | zero =>
    intro n hn pos pos2 hpos hpos2 v
    have h1 : pos = ⟨0, 0, 0⟩ := inCube_one hpos
    have h2 : pos2 = ⟨0, 0, 0⟩ := inCube_one hpos2
    subst h1; subst h2
    cases n with
    | solid w =>
      rw [Node.set_solid_unfold _ _ _ (by norm_num) _]
      by_cases hwv : w = v
      · simp [hwv, Node.get_solid]
      · simp [hwv, Node.get_solid]
    | gray ch => exact absurd hn.1 (by norm_num)
  | succ h ih =>
    intro n hn pos pos2 hpos hpos2 v
    have hne : (2 : Nat) ^ (h + 1) ≠ 0 := (Nat.pos_of_ne_zero (by positivity)).ne'
    have hne1 : (2 : Nat) ^ (h + 1) ≠ 1 := two_pow_succ_ne_one h
    have hdiv : (2 : Nat) ^ (h + 1) / 2 = 2 ^ h := pow_succ_div_two h
    have htpos := inCube_toOctant h pos hpos
    have htpos2 := inCube_toOctant h pos2 hpos2
    set oct := findOctant (2 ^ (h + 1)) pos with hoct
    set oct2 := findOctant (2 ^ (h + 1)) pos2 with hoct2
    set tpos := toOctant oct (2 ^ (h + 1)) pos with htposdef
    set tpos2 := toOctant oct2 (2 ^ (h + 1)) pos2 with htpos2def
    have hsplitword : ∀ (base : Fin 8 → Node α), (∀ i, (base i).wf h) →
        (grayCollapse (graySubUpdate base oct
            ((base oct).set (2 ^ h) tpos v)) v).get (2 ^ (h + 1)) pos2 =
          if pos2 = pos then v else (base oct2).get (2 ^ h) tpos2 := by
      intro base hbase
      have hchild := ih (base oct) (hbase oct) tpos tpos2 htpos htpos2 v
      unfold grayCollapse
      split
      · next hfull =>
        rw [Node.get_solid]
        by_cases heq : pos2 = pos
        · rw [if_pos heq]
        · rw [if_neg heq]
          by_cases hocteq : oct2 = oct
          · have hchildsolid :
                (base oct).set (2 ^ h) tpos v = Node.solid v := by
              have := hfull oct
              rw [graySubUpdate, if_pos rfl] at this
              exact (Node.isSolidOf_iff _ _).mp this
            have htne : tpos2 ≠ tpos := fun hc =>
              heq (octant_inj (2 ^ (h + 1)) pos2 pos hocteq hc)
            have : (Node.solid v).get (2 ^ h) tpos2 = v := rfl
            rw [hocteq]
            rw [← hchildsolid, hchild, if_neg htne] at this
            exact this.symm
          · have := hfull oct2
            rw [graySubUpdate, if_neg hocteq] at this
            rw [(Node.isSolidOf_iff _ _).mp this, Node.get_solid]
      · next hfull =>
        rw [Node.get_gray, hdiv]
        rw [show findOctant (2 ^ (h + 1)) pos2 = oct2 from rfl]
        rw [show toOctant oct2 (2 ^ (h + 1)) pos2 = tpos2 from rfl]
        by_cases hocteq : oct2 = oct
        · rw [graySubUpdate, if_pos hocteq, hocteq, hchild]
          by_cases heq : pos2 = pos
          · have htpose : tpos2 = tpos := by
              rw [htpos2def, htposdef, hocteq, heq]
            rw [if_pos htpose, if_pos heq]
          · have htne : tpos2 ≠ tpos := fun hc =>
              heq (octant_inj (2 ^ (h + 1)) pos2 pos hocteq hc)
            rw [if_neg htne, if_neg heq]
        · have heq : pos2 ≠ pos := by
            intro hc
            exact hocteq (by rw [hoct, hoct2, hc])
          rw [graySubUpdate, if_neg hocteq, if_neg heq]
    cases n with
    | solid w =>
      rw [Node.set_solid_unfold _ _ _ hne pos]
      by_cases hwv : w = v
      · subst hwv
        rw [if_pos rfl, Node.get_solid]
        split <;> rfl
      · rw [if_neg hwv, if_neg hne1, ← htposdef, ← hoct, hdiv]
        rw [hsplitword (fun _ => .solid w) (fun _ => trivial)]
        simp only [Node.get_solid]
    | gray ch =>
      rw [Node.set_gray_unfold _ _ _ hne pos, ← htposdef, ← hoct, hdiv]
      rw [hsplitword ch (fun i => by simpa using hn.2 i)]
      rw [Node.get_gray, hdiv]

/-! ### `Volume_t` level behaviour -/

/-- Invariant of every reachable `Volume_t`: the root size is a power of two
bounding all three extents and the tree is well formed. -/
def Volume.WF {α : Type} (V : Volume α) : Prop :=
  ∃ h, V.rootSize = 2 ^ h ∧ V.root.wf h ∧
    V.sizeX ≤ ((2 ^ h : Nat) : Int) ∧ V.sizeY ≤ ((2 ^ h : Nat) : Int) ∧
    V.sizeZ ≤ ((2 ^ h : Nat) : Int)

theorem Volume.make_WF {α : Type} (X Y Z : Int) (init : α) :
    (Volume.make α X Y Z init).WF := by
  have hb : ∀ W : Int, W ≤ max X (max Y Z) →
      W ≤ ((2 ^ Nat.clog 2 (max X (max Y Z)).toNat : Nat) : Int) := by
    intro W hW
    calc W ≤ max X (max Y Z) := hW
      _ ≤ (((max X (max Y Z)).toNat : Nat) : Int) := Int.self_le_toNat _
      _ ≤ ((2 ^ Nat.clog 2 (max X (max Y Z)).toNat : Nat) : Int) := by
          exact_mod_cast Nat.le_pow_clog (by norm_num) _
  exact ⟨Nat.clog 2 (max X (max Y Z)).toNat, rfl, trivial,
    hb X (le_max_left _ _),
    hb Y (le_trans (le_max_left _ _) (le_max_right _ _)),
    hb Z (le_trans (le_max_right _ _) (le_max_right _ _))⟩

theorem Volume.set_sizeX {α : Type} [DecidableEq α] (V : Volume α)
    (i j k : Int) (v : α) : (V.set i j k v).sizeX = V.sizeX := by
  rw [Volume.set]; split <;> rfl

theorem Volume.set_sizeY {α : Type} [DecidableEq α] (V : Volume α)
    (i j k : Int) (v : α) : (V.set i j k v).sizeY = V.sizeY := by
  rw [Volume.set]; split <;> rfl

theorem Volume.set_sizeZ {α : Type} [DecidableEq α] (V : Volume α)
    (i j k : Int) (v : α) : (V.set i j k v).sizeZ = V.sizeZ := by
  rw [Volume.set]; split <;> rfl

theorem Volume.set_initValue {α : Type} [DecidableEq α] (V : Volume α)
    (i j k : Int) (v : α) : (V.set i j k v).initValue = V.initValue := by
  rw [Volume.set]; split <;> rfl

theorem Volume.WF_set {α : Type} [DecidableEq α] (V : Volume α) (hV : V.WF)
    (i j k : Int) (v : α) : (V.set i j k v).WF := by
  obtain ⟨h, h1, h2, h3, h4, h5⟩ := hV
  rw [Volume.set]
  split
  · exact ⟨h, h1, h2, h3, h4, h5⟩
  · refine ⟨h, h1, ?_, h3, h4, h5⟩
    show (V.root.set V.rootSize ⟨i, j, k⟩ v).wf h
    rw [h1]
    exact Node.wf_set h _ h2 _ _

/-- `Volume_t::set` followed by `Volume_t::get`: an in-range write changes
exactly the addressed voxel; an out-of-range write changes nothing. -/
theorem Volume.get_set_eq {α : Type} [DecidableEq α] (V : Volume α)
    (hV : V.WF) (i j k i2 j2 k2 : Int) (v : α) :
    (V.set i j k v).get i2 j2 k2 =
      if (0 ≤ i ∧ i < V.sizeX ∧ 0 ≤ j ∧ j < V.sizeY ∧ 0 ≤ k ∧ k < V.sizeZ)
          ∧ i2 = i ∧ j2 = j ∧ k2 = k
      then v else V.get i2 j2 k2 := by
  obtain ⟨h, h1, h2, h3, h4, h5⟩ := hV
  by_cases hin : i < 0 ∨ V.sizeX ≤ i ∨ j < 0 ∨ V.sizeY ≤ j ∨ k < 0 ∨ V.sizeZ ≤ k
  · rw [show V.set i j k v = V from by rw [Volume.set, if_pos hin]]
    rw [if_neg (by intro hc; rcases hc with ⟨hc1, _⟩; omega)]
  · have hset : V.set i j k v =
        { V with root := V.root.set V.rootSize ⟨i, j, k⟩ v } := by
      rw [Volume.set, if_neg hin]
    rw [hset]
    by_cases hout2 : i2 < 0 ∨ V.sizeX ≤ i2 ∨ j2 < 0 ∨ V.sizeY ≤ j2
        ∨ k2 < 0 ∨ V.sizeZ ≤ k2
    · rw [show Volume.get { V with root := V.root.set V.rootSize ⟨i, j, k⟩ v } i2 j2 k2
          = V.initValue from by rw [Volume.get]; exact if_pos hout2]
      rw [if_neg (by intro hc; rcases hc with ⟨_, hc2, hc3, hc4⟩; omega)]
      rw [Volume.get, if_pos hout2]
    · have hget : Volume.get { V with root := V.root.set V.rootSize ⟨i, j, k⟩ v } i2 j2 k2
          = (V.root.set V.rootSize ⟨i, j, k⟩ v).get V.rootSize ⟨i2, j2, k2⟩ := by
        rw [Volume.get]; exact if_neg hout2
      rw [hget, h1]
      have hc1 : inCube (2 ^ h) ⟨i, j, k⟩ := by
        simp only [inCube]
        omega
      have hc2 : inCube (2 ^ h) ⟨i2, j2, k2⟩ := by
        simp only [inCube]
        omega
      rw [Node.get_set h V.root h2 _ _ hc1 hc2 v]
      have hposiff : (Position.mk i2 j2 k2 = Position.mk i j k)
          ↔ (i2 = i ∧ j2 = j ∧ k2 = k) := by
        constructor
        · intro he; injection he with a b c; exact ⟨a, b, c⟩
        · rintro ⟨a, b, c⟩; rw [a, b, c]
      by_cases heq : i2 = i ∧ j2 = j ∧ k2 = k
      · rw [if_pos (hposiff.mpr heq), if_pos ⟨by omega, heq⟩]
      · rw [if_neg (fun hc => heq (hposiff.mp hc)),
          if_neg (fun hc => heq hc.2), Volume.get, if_neg hout2, h1]

/-! ### `VolumeArray` level behaviour -/

/-- Invariant of `VolumeArray`: the buffer has `sizeX·sizeY·sizeZ` cells. -/
def VolumeArray.WF {α : Type} (A : VolumeArray α) : Prop :=
  A.data.length = (A.sizeX * A.sizeY * A.sizeZ).toNat

theorem VolumeArray.make_WF_arr {α : Type} (X Y Z : Int) (init : α) :
    (VolumeArray.make α X Y Z init).WF := by
  simp [VolumeArray.make, VolumeArray.WF]

theorem VolumeArray.index_lt {α : Type} (A : VolumeArray α) (i j k : Int)
    (hi : 0 ≤ i ∧ i < A.sizeX) (hj : 0 ≤ j ∧ j < A.sizeY)
    (hk : 0 ≤ k ∧ k < A.sizeZ) :
    A.index i j k < (A.sizeX * A.sizeY * A.sizeZ).toNat := by
  have h1 : 0 ≤ k + j * A.sizeZ + i * A.sizeZ * A.sizeY := by
    have := mul_nonneg hj.1 (by omega : (0:Int) ≤ A.sizeZ)
    have := mul_nonneg (mul_nonneg hi.1 (by omega : (0:Int) ≤ A.sizeZ)) (by omega : (0:Int) ≤ A.sizeY)
    omega
  have h2 : k + j * A.sizeZ + i * A.sizeZ * A.sizeY < A.sizeX * A.sizeY * A.sizeZ := by
    have hbj : j * A.sizeZ ≤ (A.sizeY - 1) * A.sizeZ :=
      mul_le_mul_of_nonneg_right (by omega) (by omega)
    have hbi : i * A.sizeZ * A.sizeY ≤ (A.sizeX - 1) * A.sizeZ * A.sizeY := by
      have := mul_le_mul_of_nonneg_right
        (mul_le_mul_of_nonneg_right (show i ≤ A.sizeX - 1 by omega)
          (show (0:Int) ≤ A.sizeZ by omega))
        (show (0:Int) ≤ A.sizeY by omega)
      exact this
    nlinarith [hk.2, hbj, hbi]
  unfold VolumeArray.index
  omega

theorem VolumeArray.index_inj {α : Type} (A : VolumeArray α) (i j k i2 j2 k2 : Int)
    (hi : 0 ≤ i ∧ i < A.sizeX) (hj : 0 ≤ j ∧ j < A.sizeY)
    (hk : 0 ≤ k ∧ k < A.sizeZ)
    (hi2 : 0 ≤ i2 ∧ i2 < A.sizeX) (hj2 : 0 ≤ j2 ∧ j2 < A.sizeY)
    (hk2 : 0 ≤ k2 ∧ k2 < A.sizeZ)
    (he : A.index i j k = A.index i2 j2 k2) : i = i2 ∧ j = j2 ∧ k = k2 := by
  have h1 : 0 ≤ k + j * A.sizeZ + i * A.sizeZ * A.sizeY := by
    have := mul_nonneg hj.1 (by omega : (0:Int) ≤ A.sizeZ)
    have := mul_nonneg (mul_nonneg hi.1 (by omega : (0:Int) ≤ A.sizeZ)) (by omega : (0:Int) ≤ A.sizeY)
    omega
  have h2 : 0 ≤ k2 + j2 * A.sizeZ + i2 * A.sizeZ * A.sizeY := by
    have := mul_nonneg hj2.1 (by omega : (0:Int) ≤ A.sizeZ)
    have := mul_nonneg (mul_nonneg hi2.1 (by omega : (0:Int) ≤ A.sizeZ)) (by omega : (0:Int) ≤ A.sizeY)
    omega
  have hee : k + j * A.sizeZ + i * A.sizeZ * A.sizeY
      = k2 + j2 * A.sizeZ + i2 * A.sizeZ * A.sizeY := by
    unfold VolumeArray.index at he
    omega
  have hZ : (0:Int) < A.sizeZ := by omega
  have hY : (0:Int) < A.sizeY := by omega
  have hform : k + A.sizeZ * (j + i * A.sizeY) = k2 + A.sizeZ * (j2 + i2 * A.sizeY) := by
    ring_nf
    ring_nf at hee
    linarith
  have hkk : k = k2 := by
    have hmod : k % A.sizeZ = k2 % A.sizeZ := by
      have e1 : (k + A.sizeZ * (j + i * A.sizeY)) % A.sizeZ = k % A.sizeZ :=
        Int.add_mul_emod_self_left ..
      have e2 : (k2 + A.sizeZ * (j2 + i2 * A.sizeY)) % A.sizeZ = k2 % A.sizeZ :=
        Int.add_mul_emod_self_left ..
      rw [← e1, ← e2, hform]
    rwa [Int.emod_eq_of_lt hk.1 hk.2, Int.emod_eq_of_lt hk2.1 hk2.2] at hmod
  have hrest : j + i * A.sizeY = j2 + i2 * A.sizeY := by
    have : A.sizeZ * (j + i * A.sizeY) = A.sizeZ * (j2 + i2 * A.sizeY) := by omega
    exact mul_left_cancel₀ (by omega) this
  have hjj : j = j2 := by
    have hmod : j % A.sizeY = j2 % A.sizeY := by
      have e1 : (j + A.sizeY * i) % A.sizeY = j % A.sizeY :=
        Int.add_mul_emod_self_left ..
      have e2 : (j2 + A.sizeY * i2) % A.sizeY = j2 % A.sizeY :=
        Int.add_mul_emod_self_left ..
      rw [← e1, ← e2]
      have : j + A.sizeY * i = j2 + A.sizeY * i2 := by
        have := hrest; ring_nf at this ⊢; linarith
      rw [this]
    rwa [Int.emod_eq_of_lt hj.1 hj.2, Int.emod_eq_of_lt hj2.1 hj2.2] at hmod
  have hii : i = i2 := by
    have brest : i * A.sizeY = i2 * A.sizeY := by omega
    exact mul_right_cancel₀ (by omega) brest
  exact ⟨hii, hjj, hkk⟩

theorem VolumeArray.set_sizes {α : Type} (A : VolumeArray α) (i j k : Int)
    (v : α) : (A.set i j k v).sizeX = A.sizeX ∧ (A.set i j k v).sizeY = A.sizeY
      ∧ (A.set i j k v).sizeZ = A.sizeZ
      ∧ (A.set i j k v).initValue = A.initValue := by
  rw [VolumeArray.set]; split <;> exact ⟨rfl, rfl, rfl, rfl⟩

theorem VolumeArray.WF_set_arr {α : Type} (A : VolumeArray α) (hA : A.WF)
    (i j k : Int) (v : α) : (A.set i j k v).WF := by
  rw [VolumeArray.set]
  split
  · exact hA
  · simpa [VolumeArray.WF] using hA

/-- `VolumeArray::set` followed by `VolumeArray::get`, in the same shape as
`Volume.get_set_eq`. -/
theorem VolumeArray.get_set_eq_arr {α : Type} (A : VolumeArray α) (hA : A.WF)
    (i j k i2 j2 k2 : Int) (v : α) :
    (A.set i j k v).get i2 j2 k2 =
      if (0 ≤ i ∧ i < A.sizeX ∧ 0 ≤ j ∧ j < A.sizeY ∧ 0 ≤ k ∧ k < A.sizeZ)
          ∧ i2 = i ∧ j2 = j ∧ k2 = k
      then v else A.get i2 j2 k2 := by
  by_cases hin : i < 0 ∨ A.sizeX ≤ i ∨ j < 0 ∨ A.sizeY ≤ j ∨ k < 0 ∨ A.sizeZ ≤ k
  · rw [show A.set i j k v = A from by rw [VolumeArray.set, if_pos hin]]
    rw [if_neg (by intro hc; rcases hc with ⟨hc1, _⟩; omega)]
  · have hset : A.set i j k v = { A with data := A.data.set (A.index i j k) v } := by
      rw [VolumeArray.set, if_neg hin]
    rw [hset]
    by_cases hout2 : i2 < 0 ∨ A.sizeX ≤ i2 ∨ j2 < 0 ∨ A.sizeY ≤ j2
        ∨ k2 < 0 ∨ A.sizeZ ≤ k2
    · rw [show VolumeArray.get { A with data := A.data.set (A.index i j k) v } i2 j2 k2
          = A.initValue from by rw [VolumeArray.get]; exact if_pos hout2]
      rw [if_neg (by intro hc; rcases hc with ⟨_, hc2, hc3, hc4⟩; omega)]
      rw [VolumeArray.get, if_pos hout2]
    · have hget : VolumeArray.get { A with data := A.data.set (A.index i j k) v } i2 j2 k2
          = (A.data.set (A.index i j k) v).getD (A.index i2 j2 k2) A.initValue := by
        rw [VolumeArray.get]
        exact if_neg hout2
      rw [hget]
      have hix : A.index i j k < A.data.length := by
        rw [hA]
        exact A.index_lt i j k ⟨by omega, by omega⟩ ⟨by omega, by omega⟩ ⟨by omega, by omega⟩
      have hix2 : A.index i2 j2 k2 < A.data.length := by
        rw [hA]
        exact A.index_lt i2 j2 k2 ⟨by omega, by omega⟩ ⟨by omega, by omega⟩ ⟨by omega, by omega⟩
      by_cases heq : i2 = i ∧ j2 = j ∧ k2 = k
      · rcases heq with ⟨e1, e2, e3⟩
        subst e1; subst e2; subst e3
        rw [if_pos ⟨by omega, rfl, rfl, rfl⟩]
        rw [List.getD_eq_getElem?_getD, List.getElem?_set_self (by omega)]
        simp
      · have hne : A.index i2 j2 k2 ≠ A.index i j k := by
          intro hc
          have := A.index_inj i2 j2 k2 i j k
            ⟨by omega, by omega⟩ ⟨by omega, by omega⟩ ⟨by omega, by omega⟩
            ⟨by omega, by omega⟩ ⟨by omega, by omega⟩ ⟨by omega, by omega⟩ hc
          exact heq this
        rw [if_neg (fun hc => heq hc.2)]
        rw [List.getD_eq_getElem?_getD, List.getElem?_set_ne (fun hc => hne hc.symm)]
        rw [VolumeArray.get, if_neg hout2, List.getD_eq_getElem?_getD]

/-! ### Sequences of `set` operations on both backends -/

/-- A sequence of `set(i,j,k,value)` calls applied to an octree volume. -/
def Volume.applyOps {α : Type} [DecidableEq α] (V : Volume α)
    (ops : List (Int × Int × Int × α)) : Volume α :=
  ops.foldl (fun W op => W.set op.1 op.2.1 op.2.2.1 op.2.2.2) V

/-- A sequence of `set(i,j,k,value)` calls applied to a flat array volume. -/
def VolumeArray.applyOps {α : Type} (A : VolumeArray α)
    (ops : List (Int × Int × Int × α)) : VolumeArray α :=
  ops.foldl (fun B op => B.set op.1 op.2.1 op.2.2.1 op.2.2.2) A

theorem Volume.applyOps_fields {α : Type} [DecidableEq α] :
    ∀ (ops : List (Int × Int × Int × α)) (V : Volume α),
      (V.applyOps ops).sizeX = V.sizeX ∧ (V.applyOps ops).sizeY = V.sizeY
        ∧ (V.applyOps ops).sizeZ = V.sizeZ
        ∧ (V.applyOps ops).initValue = V.initValue := by
  intro ops
  induction ops with
  | nil => exact fun V => ⟨rfl, rfl, rfl, rfl⟩
  | cons op ops ih =>
    intro V
    obtain ⟨a, b, c, d⟩ := ih (V.set op.1 op.2.1 op.2.2.1 op.2.2.2)
    refine ⟨?_, ?_, ?_, ?_⟩
    · show ((V.set op.1 op.2.1 op.2.2.1 op.2.2.2).applyOps ops).sizeX = _
      rw [a, Volume.set_sizeX]
    · show ((V.set op.1 op.2.1 op.2.2.1 op.2.2.2).applyOps ops).sizeY = _
      rw [b, Volume.set_sizeY]
    · show ((V.set op.1 op.2.1 op.2.2.1 op.2.2.2).applyOps ops).sizeZ = _
      rw [c, Volume.set_sizeZ]
    · show ((V.set op.1 op.2.1 op.2.2.1 op.2.2.2).applyOps ops).initValue = _
      rw [d, Volume.set_initValue]

theorem Volume.applyOps_WF {α : Type} [DecidableEq α] :
    ∀ (ops : List (Int × Int × Int × α)) (V : Volume α), V.WF →
      (V.applyOps ops).WF := by
  intro ops
  induction ops with
  | nil => exact fun V hV => hV
  | cons op ops ih =>
    intro V hV
    rw [Volume.applyOps, List.foldl_cons]
    exact ih _ (V.WF_set hV _ _ _ _)

theorem VolumeArray.applyOps_fields_arr {α : Type} :
    ∀ (ops : List (Int × Int × Int × α)) (A : VolumeArray α),
      (A.applyOps ops).sizeX = A.sizeX ∧ (A.applyOps ops).sizeY = A.sizeY
        ∧ (A.applyOps ops).sizeZ = A.sizeZ
        ∧ (A.applyOps ops).initValue = A.initValue := by
  intro ops
  induction ops with
  | nil => exact fun A => ⟨rfl, rfl, rfl, rfl⟩
  | cons op ops ih =>
    intro A
    obtain ⟨a, b, c, d⟩ := ih (A.set op.1 op.2.1 op.2.2.1 op.2.2.2)
    obtain ⟨e1, e2, e3, e4⟩ := A.set_sizes op.1 op.2.1 op.2.2.1 op.2.2.2
    refine ⟨?_, ?_, ?_, ?_⟩
    · show ((A.set op.1 op.2.1 op.2.2.1 op.2.2.2).applyOps ops).sizeX = _
      rw [a, e1]
    · show ((A.set op.1 op.2.1 op.2.2.1 op.2.2.2).applyOps ops).sizeY = _
      rw [b, e2]
    · show ((A.set op.1 op.2.1 op.2.2.1 op.2.2.2).applyOps ops).sizeZ = _
      rw [c, e3]
    · show ((A.set op.1 op.2.1 op.2.2.1 op.2.2.2).applyOps ops).initValue = _
      rw [d, e4]

theorem getD_replicate_self {α : Type} (n m : Nat) (a : α) :
    (List.replicate n a).getD m a = a := by
  rw [List.getD_eq_getElem?_getD]
  rcases Nat.lt_or_ge m n with hm | hm
  · rw [List.getElem?_replicate, if_pos hm]
    rfl
  · rw [List.getElem?_eq_none (by simpa using hm)]
    rfl

/-- The two freshly constructed backends agree pointwise. -/
theorem make_get_agree {α : Type} (X Y Z : Int) (init : α) (i j k : Int) :
    (Volume.make α X Y Z init).get i j k
      = (VolumeArray.make α X Y Z init).get i j k := by
  rw [Volume.get, VolumeArray.get]
  split
  · rw [if_pos (by assumption)]
    rfl
  · rw [if_neg (by assumption)]
    show init = _
    rw [show (VolumeArray.make α X Y Z init).data
        = List.replicate (X * Y * Z).toNat init from rfl]
    rw [show (VolumeArray.make α X Y Z init).initValue = init from rfl]
    rw [getD_replicate_self]

/-- Stepwise equivalence of the two backends under identical `set` sequences. -/
theorem applyOps_pointwise {α : Type} [DecidableEq α] :
    ∀ (ops : List (Int × Int × Int × α)) (V : Volume α) (A : VolumeArray α),
      V.WF → A.WF → V.sizeX = A.sizeX → V.sizeY = A.sizeY → V.sizeZ = A.sizeZ →
      (∀ i j k, V.get i j k = A.get i j k) →
      ∀ i j k, (V.applyOps ops).get i j k = (A.applyOps ops).get i j k := by
  intro ops
  induction ops with
  | nil => exact fun V A _ _ _ _ _ hp => hp
  | cons op ops ih =>
    intro V A hV hA e1 e2 e3 hp i j k
    rw [Volume.applyOps, VolumeArray.applyOps, List.foldl_cons, List.foldl_cons]
    refine ih _ _ (V.WF_set hV _ _ _ _) (A.WF_set_arr hA _ _ _ _) ?_ ?_ ?_ ?_ i j k
    · rw [Volume.set_sizeX, (A.set_sizes _ _ _ _).1, e1]
    · rw [Volume.set_sizeY, (A.set_sizes _ _ _ _).2.1, e2]
    · rw [Volume.set_sizeZ, (A.set_sizes _ _ _ _).2.2.1, e3]
    · intro i2 j2 k2
      rw [V.get_set_eq hV, A.get_set_eq_arr hA, e1, e2, e3]
      split
      · rfl
      · exact hp i2 j2 k2

/-- C1 (octree/array refinement): for every sequence of `set` operations
applied identically to an octree `Volume_t` and a `VolumeArray` constructed
with the same extents and `initValue`, every subsequent `get` — in-range or
out-of-range — returns the same value from both backends, and out-of-range
coordinates return `initValue`. -/
theorem C1_octree_array_equiv {α : Type} [DecidableEq α]
    (X Y Z : Int) (init : α) (ops : List (Int × Int × Int × α)) (i j k : Int) :
    ((Volume.make α X Y Z init).applyOps ops).get i j k
        = ((VolumeArray.make α X Y Z init).applyOps ops).get i j k
      ∧ ((i < 0 ∨ X ≤ i ∨ j < 0 ∨ Y ≤ j ∨ k < 0 ∨ Z ≤ k) →
          ((Volume.make α X Y Z init).applyOps ops).get i j k = init) := by
  constructor
  · exact applyOps_pointwise ops _ _ (Volume.make_WF X Y Z init)
      (VolumeArray.make_WF_arr X Y Z init) rfl rfl rfl
      (make_get_agree X Y Z init) i j k
  · intro hoor
    obtain ⟨a, b, c, d⟩ := Volume.applyOps_fields ops (Volume.make α X Y Z init)
    rw [Volume.get, if_pos (by rw [a, b, c]; exact hoor), d]
    rfl

/-- C2: out-of-range `get` returns `initValue` and out-of-range `set` is a
silent no-op (observed through `get` at every coordinate), on both the
octree and the array backend, for arbitrary states of either backend. -/
theorem C2_out_of_range_policy {α : Type} [DecidableEq α]
    (V : Volume α) (A : VolumeArray α) (i j k : Int) (v : α)
    (hV : i < 0 ∨ V.sizeX ≤ i ∨ j < 0 ∨ V.sizeY ≤ j ∨ k < 0 ∨ V.sizeZ ≤ k)
    (hA : i < 0 ∨ A.sizeX ≤ i ∨ j < 0 ∨ A.sizeY ≤ j ∨ k < 0 ∨ A.sizeZ ≤ k) :
    V.get i j k = V.initValue ∧ A.get i j k = A.initValue
      ∧ (∀ i2 j2 k2, (V.set i j k v).get i2 j2 k2 = V.get i2 j2 k2)
      ∧ (∀ i2 j2 k2, (A.set i j k v).get i2 j2 k2 = A.get i2 j2 k2) := by
  refine ⟨by rw [Volume.get, if_pos hV], by rw [VolumeArray.get, if_pos hA],
    fun i2 j2 k2 => ?_, fun i2 j2 k2 => ?_⟩
  · rw [show V.set i j k v = V from by rw [Volume.set, if_pos hV]]
  · rw [show A.set i j k v = A from by rw [VolumeArray.set, if_pos hA]]

/-- Witness for `C2_out_of_range_policy` at a concrete out-of-range input. -/
theorem C2_out_of_range_policy_witness :
    (Volume.make Int 2 2 2 7).get 5 0 0 = 7
      ∧ (VolumeArray.make Int 2 2 2 7).get 5 0 0 = 7
      ∧ (∀ i2 j2 k2,
          ((Volume.make Int 2 2 2 7).set 5 0 0 9).get i2 j2 k2
            = (Volume.make Int 2 2 2 7).get i2 j2 k2)
      ∧ (∀ i2 j2 k2,
          ((VolumeArray.make Int 2 2 2 7).set 5 0 0 9).get i2 j2 k2
            = (VolumeArray.make Int 2 2 2 7).get i2 j2 k2) :=
  C2_out_of_range_policy (Volume.make Int 2 2 2 7)
    (VolumeArray.make Int 2 2 2 7) 5 0 0 9
    (by right; left; decide) (by right; left; decide)

/-! ### The collapse invariant (claim C3) -/

/-- No gray node has all 8 children simultaneously solid with one common
value, anywhere in the tree. -/
def Node.collapsed {α : Type} : Node α → Prop
  | .solid _ => True
  | .gray ch => (¬ ∃ w, ∀ i, ch i = .solid w) ∧ ∀ i, (ch i).collapsed

/-- `Node_s::set` preserves the collapse invariant. -/
theorem Node.collapsed_set {α : Type} [DecidableEq α] :
    ∀ (h : Nat) (n : Node α), n.wf h → n.collapsed →
      ∀ (pos : Position), inCube (2 ^ h) pos → ∀ (v : α),
        (n.set (2 ^ h) pos v).collapsed := by
  intro h
  induction h with
  | zero =>
    intro n hn hc pos hpos v
    cases n with
    | solid w =>
      rw [Node.set_solid_unfold _ _ _ (by norm_num) _]
      by_cases hwv : w = v
      · simp [hwv, Node.collapsed]
      · simp [hwv, Node.collapsed]
    | gray ch => exact absurd hn.1 (by norm_num)
  | succ h ih =>
    intro n hn hc pos hpos v
    have hne : (2 : Nat) ^ (h + 1) ≠ 0 := (Nat.pos_of_ne_zero (by positivity)).ne'
    have hne1 : (2 : Nat) ^ (h + 1) ≠ 1 := two_pow_succ_ne_one h
    have hdiv : (2 : Nat) ^ (h + 1) / 2 = 2 ^ h := pow_succ_div_two h
    have htpos := inCube_toOctant h pos hpos
    set oct := findOctant (2 ^ (h + 1)) pos with hoct
    set tpos := toOctant oct (2 ^ (h + 1)) pos with htposdef
    cases n with
    | solid w =>
      rw [Node.set_solid_unfold _ _ _ hne pos]
      by_cases hwv : w = v
      · simp [hwv, Node.collapsed]
      · rw [if_neg hwv, if_neg hne1, ← hoct, ← htposdef, hdiv]
        unfold grayCollapse
        split
        · exact trivial
        · refine ⟨?_, fun i => ?_⟩
          · rintro ⟨w2, hw2⟩
            obtain ⟨i0, hi0⟩ := exists_ne oct
            have h1 := hw2 i0
            rw [graySubUpdate, if_neg hi0] at h1
            injection h1 with hw
            have h2 := hw2 oct
            rw [graySubUpdate, if_pos rfl] at h2
            have h3 := Node.get_set h (.solid w) trivial tpos tpos htpos htpos v
            rw [if_pos rfl, h2, Node.get_solid] at h3
            exact hwv (by rw [hw, h3])
          · rw [graySubUpdate]
            split
            · exact ih (.solid w) trivial trivial tpos htpos v
            · exact trivial
    | gray ch =>
      rw [Node.set_gray_unfold _ _ _ hne pos, ← hoct, ← htposdef, hdiv]
      unfold grayCollapse
      split
      · exact trivial
      · next hfull =>
        refine ⟨?_, fun i => ?_⟩
        · rintro ⟨w2, hw2⟩
          have h2 := hw2 oct
          rw [graySubUpdate, if_pos rfl] at h2
          have h3 := Node.get_set h (ch oct) (by simpa using hn.2 oct)
            tpos tpos htpos htpos v
          rw [if_pos rfl, h2, Node.get_solid] at h3
          refine hfull fun i => ?_
          rw [(hw2 i), h3]
          simp [Node.isSolidOf]
        · rw [graySubUpdate]
          split
          · exact ih (ch oct) (by simpa using hn.2 oct)
              (hc.2 oct) tpos htpos v
          · exact hc.2 i

/-- `Volume_t::set` preserves the collapse invariant of the tree. -/
theorem Volume.collapsed_set_vol {α : Type} [DecidableEq α] (V : Volume α)
    (hV : V.WF) (hc : V.root.collapsed) (i j k : Int) (v : α) :
    (V.set i j k v).root.collapsed := by
  obtain ⟨h, h1, h2, h3, h4, h5⟩ := hV
  rw [Volume.set]
  split
  · exact hc
  · show (V.root.set V.rootSize ⟨i, j, k⟩ v).collapsed
    rw [h1]
    exact Node.collapsed_set h V.root h2 hc ⟨i, j, k⟩
      (by simp only [inCube]; omega) v

/-- C3: every octree reachable from construction by any sequence of `set`
operations satisfies the collapse invariant: no gray node has all 8
children simultaneously solid with an identical value. -/
theorem C3_collapse_invariant {α : Type} [DecidableEq α]
    (X Y Z : Int) (init : α) (ops : List (Int × Int × Int × α)) :
    ((Volume.make α X Y Z init).applyOps ops).root.collapsed := by
  suffices hgen : ∀ (ops : List (Int × Int × Int × α)) (V : Volume α),
      V.WF → V.root.collapsed → (V.applyOps ops).root.collapsed by
    exact hgen ops _ (Volume.make_WF X Y Z init) trivial
  intro ops
  induction ops with
  | nil => exact fun V _ hc => hc
  | cons op ops ih =>
    intro V hV hc
    rw [Volume.applyOps, List.foldl_cons]
    exact ih _ (V.WF_set hV _ _ _ _) (V.collapsed_set_vol hV hc _ _ _ _)

/-! ### The georeferencing layer (`GeoVolume_t`, volume.hpp:339) -/

/-- The generic container concept of volume.hpp:214-230, the shape required
of `Container_t` by the `GeoVolume_t`/`ScalarField_t` templates. -/
class VolumeContainer (C : Type) (α : outParam Type) where
  cmake : Int → Int → Int → α → C
  cget : C → Int → Int → Int → α
  cset : C → Int → Int → Int → α → C
  csizeX : C → Int
  csizeY : C → Int
  csizeZ : C → Int

instance volumeContainerOctree {α : Type} [DecidableEq α] :
    VolumeContainer (Volume α) α where
  cmake := Volume.make α
  cget := Volume.get
  cset := Volume.set
  csizeX := Volume.sizeX
  csizeY := Volume.sizeY
  csizeZ := Volume.sizeZ

instance volumeContainerArray {α : Type} :
    VolumeContainer (VolumeArray α) α where
  cmake := VolumeArray.make α
  cget := VolumeArray.get
  cset := VolumeArray.set
  csizeX := VolumeArray.sizeX
  csizeY := VolumeArray.sizeY
  csizeZ := VolumeArray.sizeZ

/-- `GeoVolume_t` (volume.hpp:339): a container plus world-space bounds and
a voxel size. -/
structure GeoVolume (C : Type) where
  container : C
  lower : FPosition
  upper : FPosition
  voxelSize : ℚ

/-- `GeoVolume_t::GeoVolume_t` (volume.hpp:984): the container is sized by
`ceil((upper-lower)/voxelSize)` per axis, and the upper corner is then
corrected so the extents are an exact multiple of the voxel size. -/
def GeoVolume.make (C : Type) {α : Type} [VolumeContainer C α]
    (lower upper : FPosition) (voxelSize : ℚ) (initValue : α) : GeoVolume C :=
  let cont : C := VolumeContainer.cmake
    ⌈(upper.x - lower.x) / voxelSize⌉
    ⌈(upper.y - lower.y) / voxelSize⌉
    ⌈(upper.z - lower.z) / voxelSize⌉ initValue
  { container := cont
    lower := lower
    upper :=
      ⟨lower.x + (VolumeContainer.csizeX (α := α) cont : ℚ) * voxelSize,
        lower.y + (VolumeContainer.csizeY (α := α) cont : ℚ) * voxelSize,
        lower.z + (VolumeContainer.csizeZ (α := α) cont : ℚ) * voxelSize⟩
    voxelSize := voxelSize }

/-- `GeoVolume_t::get` (volume.hpp:1001). -/
def GeoVolume.get {C : Type} {α : Type} [VolumeContainer C α]
    (g : GeoVolume C) (i j k : Int) : α :=
  VolumeContainer.cget g.container i j k

/-- `GeoVolume_t::set` (volume.hpp:1006). -/
def GeoVolume.set {C : Type} {α : Type} [VolumeContainer C α]
    (g : GeoVolume C) (i j k : Int) (v : α) : GeoVolume C :=
  { g with container := VolumeContainer.cset g.container i j k v }

/-- `GeoVolume_t::geo2gridf` (volume.hpp:1075): fractional grid coordinates
with the voxel-center convention (`-0.5`). -/
def GeoVolume.geo2gridf {C : Type} {α : Type} [VolumeContainer C α]
    (g : GeoVolume C) (gpos : FPosition) : FPosition :=
  ⟨(gpos.x - g.lower.x) / (g.upper.x - g.lower.x)
      * (VolumeContainer.csizeX (α := α) g.container : ℚ) - 1/2,
    (gpos.y - g.lower.y) / (g.upper.y - g.lower.y)
      * (VolumeContainer.csizeY (α := α) g.container : ℚ) - 1/2,
    (gpos.z - g.lower.z) / (g.upper.z - g.lower.z)
      * (VolumeContainer.csizeZ (α := α) g.container : ℚ) - 1/2⟩

/-- C `round()` (round half away from zero), the nearest rounding used by
`geo2grid`. -/
def cRound (q : ℚ) : Int := if 0 ≤ q then ⌊q + 1/2⌋ else ⌈q - 1/2⌉

/-- `GeoVolume_t::geo2grid` (volume.hpp:1032): per-axis switch on the
rounding argument — `0` is `round`, `-1` is `round(floor(·))`, `1` is
`round(ceil(·))`.  The switch has no default branch and the result
`Position_s` is default-initialized to `(0,0,0)`, so any other rounding
argument leaves that component `0`. -/
def GeoVolume.geo2grid {C : Type} {α : Type} [VolumeContainer C α]
    (g : GeoVolume C) (gpos : FPosition)
    (roundingX roundingY roundingZ : Int) : Position :=
  let fpos := GeoVolume.geo2gridf (α := α) g gpos
  { x := if roundingX = 0 then cRound fpos.x
      else if roundingX = -1 then ⌊fpos.x⌋
      else if roundingX = 1 then ⌈fpos.x⌉
      else 0
    y := if roundingY = 0 then cRound fpos.y
      else if roundingY = -1 then ⌊fpos.y⌋
      else if roundingY = 1 then ⌈fpos.y⌉
      else 0
    z := if roundingZ = 0 then cRound fpos.z
      else if roundingZ = -1 then ⌊fpos.z⌋
      else if roundingZ = 1 then ⌈fpos.z⌉
      else 0 }

/-- `GeoVolume_t::grid2geo` for integer grid positions (volume.hpp:1088). -/
def GeoVolume.grid2geo {C : Type} {α : Type} [VolumeContainer C α]
    (g : GeoVolume C) (pos : Position) : FPosition :=
  ⟨g.lower.x + ((pos.x : ℚ) + 1/2)
      / (VolumeContainer.csizeX (α := α) g.container : ℚ)
      * (g.upper.x - g.lower.x),
    g.lower.y + ((pos.y : ℚ) + 1/2)
      / (VolumeContainer.csizeY (α := α) g.container : ℚ)
      * (g.upper.y - g.lower.y),
    g.lower.z + ((pos.z : ℚ) + 1/2)
      / (VolumeContainer.csizeZ (α := α) g.container : ℚ)
      * (g.upper.z - g.lower.z)⟩

/-- `GeoVolume_t::grid2geo` for fractional grid positions (volume.hpp:1100). -/
def GeoVolume.grid2geoF {C : Type} {α : Type} [VolumeContainer C α]
    (g : GeoVolume C) (pos : FPosition) : FPosition :=
  ⟨g.lower.x + (pos.x + 1/2)
      / (VolumeContainer.csizeX (α := α) g.container : ℚ)
      * (g.upper.x - g.lower.x),
    g.lower.y + (pos.y + 1/2)
      / (VolumeContainer.csizeY (α := α) g.container : ℚ)
      * (g.upper.y - g.lower.y),
    g.lower.z + (pos.z + 1/2)
      / (VolumeContainer.csizeZ (α := α) g.container : ℚ)
      * (g.upper.z - g.lower.z)⟩

/-! ### Claim C4: coordinate round-trip -/

theorem cRound_bounds (t : ℚ) (N : Int) (hN : 0 < N)
    (h1 : -(1/2 : ℚ) < t) (h2 : t < (N : ℚ) - 1/2) :
    0 ≤ cRound t ∧ cRound t < N := by
  unfold cRound
  split
  · next h0 =>
    constructor
    · exact Int.le_floor.mpr (by push_cast; linarith)
    · exact Int.floor_lt.mpr (by push_cast; linarith)
  · next h0 =>
    have ht0 : t < 0 := by linarith [not_le.mp h0]
    constructor
    · have : (-1 : Int) < ⌈t - 1/2⌉ := Int.lt_ceil.mpr (by push_cast; linarith)
      omega
    · have : ⌈t - 1/2⌉ ≤ 0 := Int.ceil_le.mpr (by push_cast; linarith)
      omega

/-- Single-axis core of the round-trip: with corrected extents
`upper - lower = N·voxelSize`, the nearest-rounded grid index of an
interior point is in range, and mapping any index back through the
`grid2geo` formula gives `lower + (index + 1/2)·voxelSize`. -/
theorem axis_roundtrip (lo p vs : ℚ) (N : Int) (hvs : 0 < vs) (hN : 0 < N)
    (h1 : lo < p) (h2 : p < lo + (N : ℚ) * vs) :
    (0 ≤ cRound ((p - lo) / ((lo + (N : ℚ) * vs) - lo) * (N : ℚ) - 1/2)
      ∧ cRound ((p - lo) / ((lo + (N : ℚ) * vs) - lo) * (N : ℚ) - 1/2) < N)
    ∧ ∀ q : Int,
        lo + ((q : ℚ) + 1/2) / (N : ℚ) * ((lo + (N : ℚ) * vs) - lo)
          = lo + ((q : ℚ) + 1/2) * vs := by
  have hNQ : (0 : ℚ) < (N : ℚ) := by exact_mod_cast hN
  have key : (p - lo) / ((lo + (N : ℚ) * vs) - lo) * (N : ℚ)
      = (p - lo) / vs := by
    have e : (lo + (N : ℚ) * vs) - lo = (N : ℚ) * vs := by ring
    rw [e]
    field_simp
    ring
  constructor
  · rw [key]
    refine cRound_bounds _ N hN ?_ ?_
    · have : 0 < (p - lo) / vs := div_pos (by linarith) hvs
      linarith
    · have : (p - lo) / vs < (N : ℚ) := (div_lt_iff hvs).mpr (by linarith)
      linarith
  · intro q
    have e : (lo + (N : ℚ) * vs) - lo = (N : ℚ) * vs := by ring
    rw [e]
    field_simp
    ring

/-- C4: for a `GeoVolume_t` built over the octree backend with positive
voxel size and nonempty extents, and a world point strictly inside the
corrected extents, `grid2geo(geo2grid(p))` with nearest rounding returns
the world-space center of `p`'s voxel, `lower + (index + 0.5)·voxelSize`
per axis, and the index is in range on every axis. -/
theorem C4_grid_roundtrip (lower upper0 : FPosition) (vs : ℚ) (init : ℚ)
    (p : FPosition) (hvs : 0 < vs)
    (hpx : (GeoVolume.make (Volume ℚ) lower upper0 vs init).lower.x < p.x
      ∧ p.x < (GeoVolume.make (Volume ℚ) lower upper0 vs init).upper.x)
    (hpy : (GeoVolume.make (Volume ℚ) lower upper0 vs init).lower.y < p.y
      ∧ p.y < (GeoVolume.make (Volume ℚ) lower upper0 vs init).upper.y)
    (hpz : (GeoVolume.make (Volume ℚ) lower upper0 vs init).lower.z < p.z
      ∧ p.z < (GeoVolume.make (Volume ℚ) lower upper0 vs init).upper.z) :
    (0 ≤ (GeoVolume.geo2grid (α := ℚ)
        (GeoVolume.make (Volume ℚ) lower upper0 vs init) p 0 0 0).x
      ∧ (GeoVolume.geo2grid (α := ℚ)
        (GeoVolume.make (Volume ℚ) lower upper0 vs init) p 0 0 0).x
          < VolumeContainer.csizeX (α := ℚ)
            (GeoVolume.make (Volume ℚ) lower upper0 vs init).container
      ∧ 0 ≤ (GeoVolume.geo2grid (α := ℚ)
        (GeoVolume.make (Volume ℚ) lower upper0 vs init) p 0 0 0).y
      ∧ (GeoVolume.geo2grid (α := ℚ)
        (GeoVolume.make (Volume ℚ) lower upper0 vs init) p 0 0 0).y
          < VolumeContainer.csizeY (α := ℚ)
            (GeoVolume.make (Volume ℚ) lower upper0 vs init).container
      ∧ 0 ≤ (GeoVolume.geo2grid (α := ℚ)
        (GeoVolume.make (Volume ℚ) lower upper0 vs init) p 0 0 0).z
      ∧ (GeoVolume.geo2grid (α := ℚ)
        (GeoVolume.make (Volume ℚ) lower upper0 vs init) p 0 0 0).z
          < VolumeContainer.csizeZ (α := ℚ)
            (GeoVolume.make (Volume ℚ) lower upper0 vs init).container)
    ∧ GeoVolume.grid2geo (α := ℚ) (GeoVolume.make (Volume ℚ) lower upper0 vs init)
        (GeoVolume.geo2grid (α := ℚ)
          (GeoVolume.make (Volume ℚ) lower upper0 vs init) p 0 0 0)
      = ⟨lower.x + (((GeoVolume.geo2grid (α := ℚ)
            (GeoVolume.make (Volume ℚ) lower upper0 vs init) p 0 0 0).x : ℚ)
            + 1/2) * vs,
          lower.y + (((GeoVolume.geo2grid (α := ℚ)
            (GeoVolume.make (Volume ℚ) lower upper0 vs init) p 0 0 0).y : ℚ)
            + 1/2) * vs,
          lower.z + (((GeoVolume.geo2grid (α := ℚ)
            (GeoVolume.make (Volume ℚ) lower upper0 vs init) p 0 0 0).z : ℚ)
            + 1/2) * vs⟩ := by
  set g := GeoVolume.make (Volume ℚ) lower upper0 vs init with hg
  set Nx : Int := ⌈(upper0.x - lower.x) / vs⌉ with hNx
  set Ny : Int := ⌈(upper0.y - lower.y) / vs⌉ with hNy
  set Nz : Int := ⌈(upper0.z - lower.z) / vs⌉ with hNz
  have hcx : VolumeContainer.csizeX (α := ℚ) g.container = Nx := rfl
  have hcy : VolumeContainer.csizeY (α := ℚ) g.container = Ny := rfl
  have hcz : VolumeContainer.csizeZ (α := ℚ) g.container = Nz := rfl
  have hlx : g.lower.x = lower.x := rfl
  have hly : g.lower.y = lower.y := rfl
  have hlz : g.lower.z = lower.z := rfl
  have hux : g.upper.x = lower.x + (Nx : ℚ) * vs := rfl
  have huy : g.upper.y = lower.y + (Ny : ℚ) * vs := rfl
  have huz : g.upper.z = lower.z + (Nz : ℚ) * vs := rfl
  have h1x : lower.x < p.x := by rw [← hlx]; exact hpx.1
  have h2x : p.x < lower.x + (Nx : ℚ) * vs := by rw [← hux]; exact hpx.2
  have h1y : lower.y < p.y := by rw [← hly]; exact hpy.1
  have h2y : p.y < lower.y + (Ny : ℚ) * vs := by rw [← huy]; exact hpy.2
  have h1z : lower.z < p.z := by rw [← hlz]; exact hpz.1
  have h2z : p.z < lower.z + (Nz : ℚ) * vs := by rw [← huz]; exact hpz.2
  have hNpos : ∀ N : Int, ∀ lo q : ℚ, lo < q → q < lo + (N : ℚ) * vs → 0 < N := by
    intro N lo q ha hb
    by_contra hle
    push_neg at hle
    have hc : (N : ℚ) ≤ 0 := by exact_mod_cast hle
    nlinarith
  have hNx0 : 0 < Nx := hNpos Nx lower.x p.x h1x h2x
  have hNy0 : 0 < Ny := hNpos Ny lower.y p.y h1y h2y
  have hNz0 : 0 < Nz := hNpos Nz lower.z p.z h1z h2z
  have axx := axis_roundtrip lower.x p.x vs Nx hvs hNx0 h1x h2x
  have axy := axis_roundtrip lower.y p.y vs Ny hvs hNy0 h1y h2y
  have axz := axis_roundtrip lower.z p.z vs Nz hvs hNz0 h1z h2z
  have hfx : (GeoVolume.geo2gridf (α := ℚ) g p).x
      = (p.x - lower.x) / ((lower.x + (Nx : ℚ) * vs) - lower.x) * (Nx : ℚ) - 1/2 := by
    show (p.x - g.lower.x) / (g.upper.x - g.lower.x)
        * (VolumeContainer.csizeX (α := ℚ) g.container : ℚ) - 1/2 = _
    rw [hlx, hux, hcx]
  have hfy : (GeoVolume.geo2gridf (α := ℚ) g p).y
      = (p.y - lower.y) / ((lower.y + (Ny : ℚ) * vs) - lower.y) * (Ny : ℚ) - 1/2 := by
    show (p.y - g.lower.y) / (g.upper.y - g.lower.y)
        * (VolumeContainer.csizeY (α := ℚ) g.container : ℚ) - 1/2 = _
    rw [hly, huy, hcy]
  have hfz : (GeoVolume.geo2gridf (α := ℚ) g p).z
      = (p.z - lower.z) / ((lower.z + (Nz : ℚ) * vs) - lower.z) * (Nz : ℚ) - 1/2 := by
    show (p.z - g.lower.z) / (g.upper.z - g.lower.z)
        * (VolumeContainer.csizeZ (α := ℚ) g.container : ℚ) - 1/2 = _
    rw [hlz, huz, hcz]
  have hqx : (GeoVolume.geo2grid (α := ℚ) g p 0 0 0).x
      = cRound ((GeoVolume.geo2gridf (α := ℚ) g p).x) := by
    simp [GeoVolume.geo2grid]
  have hqy : (GeoVolume.geo2grid (α := ℚ) g p 0 0 0).y
      = cRound ((GeoVolume.geo2gridf (α := ℚ) g p).y) := by
    simp [GeoVolume.geo2grid]
  have hqz : (GeoVolume.geo2grid (α := ℚ) g p 0 0 0).z
      = cRound ((GeoVolume.geo2gridf (α := ℚ) g p).z) := by
    simp [GeoVolume.geo2grid]
  refine ⟨⟨?_, ?_, ?_, ?_, ?_, ?_⟩, ?_⟩
  · rw [hqx, hfx]; exact (axx.1).1
  · rw [hqx, hfx, hcx]; exact (axx.1).2
  · rw [hqy, hfy]; exact (axy.1).1
  · rw [hqy, hfy, hcy]; exact (axy.1).2
  · rw [hqz, hfz]; exact (axz.1).1
  · rw [hqz, hfz, hcz]; exact (axz.1).2
  · show FPosition.mk
        (g.lower.x + (((GeoVolume.geo2grid (α := ℚ) g p 0 0 0).x : ℚ) + 1/2)
          / (VolumeContainer.csizeX (α := ℚ) g.container : ℚ)
          * (g.upper.x - g.lower.x))
        (g.lower.y + (((GeoVolume.geo2grid (α := ℚ) g p 0 0 0).y : ℚ) + 1/2)
          / (VolumeContainer.csizeY (α := ℚ) g.container : ℚ)
          * (g.upper.y - g.lower.y))
        (g.lower.z + (((GeoVolume.geo2grid (α := ℚ) g p 0 0 0).z : ℚ) + 1/2)
          / (VolumeContainer.csizeZ (α := ℚ) g.container : ℚ)
          * (g.upper.z - g.lower.z)) = _
    rw [hlx, hly, hlz, hux, huy, huz, hcx, hcy, hcz]
    rw [axx.2 (GeoVolume.geo2grid (α := ℚ) g p 0 0 0).x,
      axy.2 (GeoVolume.geo2grid (α := ℚ) g p 0 0 0).y,
      axz.2 (GeoVolume.geo2grid (α := ℚ) g p 0 0 0).z]

/-- Witness for `C4_grid_roundtrip`: grid 0..2 per axis, voxel size 1, the
interior point `(1, 1, 1)` maps to its voxel center. -/
theorem C4_grid_roundtrip_witness :
    (0 : ℚ) < 1 ∧
    GeoVolume.grid2geo (α := ℚ) (GeoVolume.make (Volume ℚ) ⟨0, 0, 0⟩ ⟨2, 2, 2⟩ 1 0)
        (GeoVolume.geo2grid (α := ℚ) (GeoVolume.make (Volume ℚ) ⟨0, 0, 0⟩ ⟨2, 2, 2⟩ 1 0)
          ⟨1, 1, 1⟩ 0 0 0)
      = ⟨(0 : ℚ) + (((GeoVolume.geo2grid (α := ℚ)
            (GeoVolume.make (Volume ℚ) ⟨0, 0, 0⟩ ⟨2, 2, 2⟩ 1 0)
            ⟨1, 1, 1⟩ 0 0 0).x : ℚ) + 1/2) * 1,
          (0 : ℚ) + (((GeoVolume.geo2grid (α := ℚ)
            (GeoVolume.make (Volume ℚ) ⟨0, 0, 0⟩ ⟨2, 2, 2⟩ 1 0)
            ⟨1, 1, 1⟩ 0 0 0).y : ℚ) + 1/2) * 1,
          (0 : ℚ) + (((GeoVolume.geo2grid (α := ℚ)
            (GeoVolume.make (Volume ℚ) ⟨0, 0, 0⟩ ⟨2, 2, 2⟩ 1 0)
            ⟨1, 1, 1⟩ 0 0 0).z : ℚ) + 1/2) * 1⟩ :=
  ⟨by simp,
    (C4_grid_roundtrip ⟨0, 0, 0⟩ ⟨2, 2, 2⟩ 1 0 ⟨1, 1, 1⟩ (by simp)
      ⟨by simp [GeoVolume.make],
        by simp [GeoVolume.make, VolumeContainer.csizeX, volumeContainerOctree,
          VolumeContainer.cmake, Volume.make]⟩
      ⟨by simp [GeoVolume.make],
        by simp [GeoVolume.make, VolumeContainer.csizeY, volumeContainerOctree,
          VolumeContainer.cmake, Volume.make]⟩
      ⟨by simp [GeoVolume.make],
        by simp [GeoVolume.make, VolumeContainer.csizeZ, volumeContainerOctree,
          VolumeContainer.cmake, Volume.make]⟩).2⟩

/-- C10: `geo2grid` with a per-axis rounding argument outside `{-1,0,1}`
returns `0` for that axis's component regardless of the input position,
because the rounding switch has no default branch and the result
`Position_s` is default-initialized to `(0,0,0)`. -/
theorem C10_geo2grid_default_zero {C : Type} {α : Type} [VolumeContainer C α]
    (g : GeoVolume C) (p : FPosition) (rx ry rz : Int) :
    (rx ≠ 0 → rx ≠ -1 → rx ≠ 1 →
        (GeoVolume.geo2grid (α := α) g p rx ry rz).x = 0)
      ∧ (ry ≠ 0 → ry ≠ -1 → ry ≠ 1 →
        (GeoVolume.geo2grid (α := α) g p rx ry rz).y = 0)
      ∧ (rz ≠ 0 → rz ≠ -1 → rz ≠ 1 →
        (GeoVolume.geo2grid (α := α) g p rx ry rz).z = 0) := by
  refine ⟨fun h1 h2 h3 => ?_, fun h1 h2 h3 => ?_, fun h1 h2 h3 => ?_⟩ <;>
    simp [GeoVolume.geo2grid, h1, h2, h3]

/-- Witness for `C10_geo2grid_default_zero` with rounding argument 2. -/
theorem C10_geo2grid_default_zero_witness :
    (GeoVolume.geo2grid (α := ℚ)
      (GeoVolume.make (Volume ℚ) ⟨0, 0, 0⟩ ⟨1, 1, 1⟩ 1 0) ⟨5, 5, 5⟩ 2 0 0).x = 0 :=
  (C10_geo2grid_default_zero
      (GeoVolume.make (Volume ℚ) ⟨0, 0, 0⟩ ⟨1, 1, 1⟩ 1 0) ⟨5, 5, 5⟩ 2 0 0).1
    (by decide) (by decide) (by decide)

/-! ### The directional iterator (`Giterator_t`, volume.hpp:142) -/

/-- `Giterator_t` (volume.hpp:142): a starting position and a displacement
(the container pointer is passed separately where needed). -/
structure Giter where
  pos : Position
  diff : Displacement
deriving DecidableEq, Repr

/-- The parametric clipping value `u` computed by `Giterator_t::gend`
(volume.hpp:711-756): start at `max(sizeX, sizeY, sizeZ)` and lower it at
each of the six bounding planes (each extended by a 0.5-voxel margin) hit
forward by the ray. -/
def gendU (sX sY sZ : Int) (b : Giter) : ℚ :=
  let u0 : ℚ := max (sX : ℚ) (max (sY : ℚ) (sZ : ℚ))
  let u1 : ℚ := if 0 < b.diff.x then
      (if ((sX : ℚ) + 1/2 - (b.pos.x : ℚ)) / (b.diff.x : ℚ) < u0
        then ((sX : ℚ) + 1/2 - (b.pos.x : ℚ)) / (b.diff.x : ℚ) else u0)
    else u0
  let u2 : ℚ := if b.diff.x < 0 then
      (if (-(3/2 : ℚ) - (b.pos.x : ℚ)) / (b.diff.x : ℚ) < u1
        then (-(3/2 : ℚ) - (b.pos.x : ℚ)) / (b.diff.x : ℚ) else u1)
    else u1
  let u3 : ℚ := if 0 < b.diff.y then
      (if ((sY : ℚ) + 1/2 - (b.pos.y : ℚ)) / (b.diff.y : ℚ) < u2
        then ((sY : ℚ) + 1/2 - (b.pos.y : ℚ)) / (b.diff.y : ℚ) else u2)
    else u2
  let u4 : ℚ := if b.diff.y < 0 then
      (if (-(3/2 : ℚ) - (b.pos.y : ℚ)) / (b.diff.y : ℚ) < u3
        then (-(3/2 : ℚ) - (b.pos.y : ℚ)) / (b.diff.y : ℚ) else u3)
    else u3
  let u5 : ℚ := if 0 < b.diff.z then
      (if ((sZ : ℚ) + 1/2 - (b.pos.z : ℚ)) / (b.diff.z : ℚ) < u4
        then ((sZ : ℚ) + 1/2 - (b.pos.z : ℚ)) / (b.diff.z : ℚ) else u4)
    else u4
  let u6 : ℚ := if b.diff.z < 0 then
      (if (-(3/2 : ℚ) - (b.pos.z : ℚ)) / (b.diff.z : ℚ) < u5
        then (-(3/2 : ℚ) - (b.pos.z : ℚ)) / (b.diff.z : ℚ) else u5)
    else u5
  u6

/-- `Giterator_t::gend` (volume.hpp:711): the end-of-line iterator, at
`begin.pos + floor(u)·diff`. -/
def Giter.gend (sX sY sZ : Int) (b : Giter) : Giter :=
  { pos := ⟨b.pos.x + ⌊gendU sX sY sZ b⌋ * b.diff.x,
      b.pos.y + ⌊gendU sX sY sZ b⌋ * b.diff.y,
      b.pos.z + ⌊gendU sX sY sZ b⌋ * b.diff.z⟩
    diff := b.diff }

/-- `Giterator_t::iteratorPositions` (volume.hpp:767): one start per line
orthogonal to each nonzero displacement axis, at coordinate `0` for a
positive component and `size-1` for a negative one. -/
def iteratorPositions (sX sY sZ : Int) (diff : Displacement) : List Position :=
  (if diff.x ≠ 0 then
      (List.range sY.toNat).flatMap (fun i : Nat =>
        (List.range sZ.toNat).map (fun j : Nat =>
          Position.mk (if 0 < diff.x then 0 else sX - 1) (i : Int) (j : Int)))
    else [])
  ++ (if diff.y ≠ 0 then
      (List.range sX.toNat).flatMap (fun i : Nat =>
        (List.range sZ.toNat).map (fun j : Nat =>
          Position.mk (i : Int) (if 0 < diff.y then 0 else sY - 1) (j : Int)))
    else [])
  ++ (if diff.z ≠ 0 then
      (List.range sX.toNat).flatMap (fun i : Nat =>
        (List.range sY.toNat).map (fun j : Nat =>
          Position.mk (i : Int) (j : Int) (if 0 < diff.z then 0 else sZ - 1)))
    else [])

/-- The `while (it != end) { visit; ++it; }` sweep along a line, with an
explicit fuel bound on the step count (the C++ loop is unbounded; the
instantiations in the claims terminate within the supplied fuel). -/
def lineVisits (fuel : Nat) (pos endPos : Position) (diff : Displacement) :
    List Position :=
  match fuel with
  | 0 => []
  | f + 1 =>
      if pos = endPos then []
      else pos :: lineVisits f (pos.add diff) endPos diff

/-- All voxels visited by sweeping every iterator start to its `gend`. -/
def sweepVisits (sX sY sZ : Int) (diff : Displacement) (fuel : Nat) :
    List Position :=
  (iteratorPositions sX sY sZ diff).flatMap
    (fun s => lineVisits fuel s ((Giter.gend sX sY sZ ⟨s, diff⟩).pos) diff)

/-- A displacement of unit length along exactly one axis. -/
def unitAxisDisp (d : Displacement) : Prop :=
  d = ⟨1, 0, 0⟩ ∨ d = ⟨-1, 0, 0⟩ ∨ d = ⟨0, 1, 0⟩ ∨ d = ⟨0, -1, 0⟩
    ∨ d = ⟨0, 0, 1⟩ ∨ d = ⟨0, 0, -1⟩

/-- The fueled sweep from `φ a` to `φ (a + n)` along a displacement that
steps `φ t` to `φ (t + 1)` visits exactly `φ a, …, φ (a + n - 1)`. -/
theorem lineVisits_phi (φ : Int → Position) (d : Displacement)
    (hstep : ∀ a : Int, (φ a).add d = φ (a + 1))
    (hinj : ∀ a b : Int, φ a = φ b → a = b) :
    ∀ (n fuel : Nat) (a : Int), n ≤ fuel →
      lineVisits fuel (φ a) (φ (a + (n : Int))) d
        = (List.range n).map (fun t : Nat => φ (a + (t : Int))) := by
  intro n
  induction n with
  | zero =>
    intro fuel a _
    have he : a + ((0 : Nat) : Int) = a := by push_cast; ring
    rw [he]
    cases fuel with
    | zero => rfl
    | succ f => rw [lineVisits, if_pos rfl]; rfl
  | succ n ih =>
    intro fuel a hfuel
    obtain ⟨f, rfl⟩ : ∃ f, fuel = f + 1 := ⟨fuel - 1, by omega⟩
    have hne : φ a ≠ φ (a + ((n + 1 : Nat) : Int)) := by
      intro hc
      have := hinj _ _ hc
      push_cast at this
      omega
    rw [lineVisits, if_neg hne, hstep]
    have he : a + ((n + 1 : Nat) : Int) = (a + 1) + ((n : Nat) : Int) := by
      push_cast; ring
    rw [he, ih f (a + 1) (by omega)]
    rw [List.range_succ_eq_map, List.map_cons, List.map_map]
    have h0 : φ (a + ((0 : Nat) : Int)) = φ a := by norm_num
    rw [h0]
    refine congrArg (φ a :: ·) (List.map_congr_left fun t _ => ?_)
    show φ (a + 1 + (t : Int)) = φ (a + ((t + 1 : Nat) : Int))
    push_cast
    ring_nf

/-- Floor of the clip parameter when the relevant plane hit is
`S + 1/2` and the initial value is an integer `M ≥ S`. -/
theorem floor_clip (S M : Int) (hS : S ≤ M) :
    ⌊(if (S : ℚ) + 1/2 < (M : ℚ) then (S : ℚ) + 1/2 else (M : ℚ))⌋ = S := by
  split
  · next h =>
    rw [add_comm, Int.floor_add_int]
    norm_num
  · next h =>
    push_neg at h
    have hMS : M ≤ S := by
      by_contra hc
      push_neg at hc
      have : (S : ℚ) + 1 ≤ (M : ℚ) := by exact_mod_cast hc
      linarith
    have : M = S := le_antisymm hMS hS
    rw [this, Int.floor_intCast]

theorem grid2_nodup (n1 n2 : Nat) (start : Nat → Nat → Position)
    (hsi : ∀ a b a2 b2, start a b = start a2 b2 → a = a2 ∧ b = b2) :
    ((List.range n1).flatMap
      (fun a => (List.range n2).map (fun b => start a b))).Nodup := by
  rw [List.nodup_flatMap]
  constructor
  · intro a _
    exact List.Nodup.map (fun b b2 hb => (hsi _ _ _ _ hb).2) (List.nodup_range _)
  · refine List.Pairwise.imp_of_mem ?_ (List.nodup_range n1)
    intro a a2 _ _ hne
    intro p hp1 hp2
    simp only [List.mem_map] at hp1 hp2
    obtain ⟨b, _, hb⟩ := hp1
    obtain ⟨b2, _, hb2⟩ := hp2
    exact hne ((hsi _ _ _ _ (hb.trans hb2.symm)).1)

/-- Structure of a full directional sweep: one line per orthogonal pair,
each line a range of positions; yields the line-length, no-duplication,
coverage and pairwise-disjointness conjuncts at once. -/
theorem sweep_master (L : List Position) (lineFn : Position → List Position)
    (n1 n2 n3 : Nat) (start : Nat → Nat → Position)
    (φ : Nat → Nat → Nat → Position)
    (hL : L = (List.range n1).flatMap
      (fun a => (List.range n2).map (fun b => start a b)))
    (hline : ∀ a b, lineFn (start a b) = (List.range n3).map (fun c => φ a b c))
    (hinj : ∀ a b c a2 b2 c2, φ a b c = φ a2 b2 c2 → a = a2 ∧ b = b2 ∧ c = c2)
    (hsi : ∀ a b a2 b2, start a b = start a2 b2 → a = a2 ∧ b = b2)
    (hstart : ∀ a b, ∀ c c2, φ a b c = φ a b c2 → c = c2) :
    (∀ s ∈ L, (lineFn s).length = n3)
    ∧ (L.flatMap lineFn).Nodup
    ∧ (∀ p, p ∈ L.flatMap lineFn
        ↔ ∃ a, a < n1 ∧ ∃ b, b < n2 ∧ ∃ c, c < n3 ∧ φ a b c = p)
    ∧ (∀ s1 ∈ L, ∀ s2 ∈ L, s1 ≠ s2 → List.Disjoint (lineFn s1) (lineFn s2)) := by
  have hmemL : ∀ s, s ∈ L ↔ ∃ a, a < n1 ∧ ∃ b, b < n2 ∧ start a b = s := by
    intro s
    rw [hL]
    simp [List.mem_flatMap, List.mem_map, List.mem_range]
  have hdisj : ∀ s1 ∈ L, ∀ s2 ∈ L, s1 ≠ s2 →
      List.Disjoint (lineFn s1) (lineFn s2) := by
    intro s1 hs1 s2 hs2 hne
    obtain ⟨a, _, b, _, rfl⟩ := (hmemL s1).mp hs1
    obtain ⟨a2, _, b2, _, rfl⟩ := (hmemL s2).mp hs2
    intro p hp1 hp2
    rw [hline, List.mem_map] at hp1 hp2
    obtain ⟨c, _, hc⟩ := hp1
    obtain ⟨c2, _, hc2⟩ := hp2
    obtain ⟨ha, hb, _⟩ := hinj _ _ _ _ _ _ (hc.trans hc2.symm)
    exact hne (by rw [ha, hb])
  refine ⟨?_, ?_, ?_, hdisj⟩
  · intro s hs
    obtain ⟨a, _, b, _, rfl⟩ := (hmemL s).mp hs
    rw [hline]
    simp
  · rw [List.nodup_flatMap]
    constructor
    · intro s hs
      obtain ⟨a, _, b, _, rfl⟩ := (hmemL s).mp hs
      rw [hline]
      exact List.Nodup.map (fun c c2 hc => hstart a b c c2 hc) (List.nodup_range _)
    · have hnodupL : L.Nodup := by
        rw [hL]; exact grid2_nodup n1 n2 start hsi
      exact List.Pairwise.imp_of_mem
        (fun {s1 s2} h1 h2 hne => hdisj s1 h1 s2 h2 hne) hnodupL
  · intro p
    constructor
    · intro hp
      rw [List.mem_flatMap] at hp
      obtain ⟨s, hs, hps⟩ := hp
      obtain ⟨a, ha, b, hb, rfl⟩ := (hmemL s).mp hs
      rw [hline, List.mem_map] at hps
      obtain ⟨c, hc, hcp⟩ := hps
      exact ⟨a, ha, b, hb, c, List.mem_range.mp hc, hcp⟩
    · rintro ⟨a, ha, b, hb, c, hc, rfl⟩
      rw [List.mem_flatMap]
      refine ⟨start a b, (hmemL _).mpr ⟨a, ha, b, hb, rfl⟩, ?_⟩
      rw [hline, List.mem_map]
      exact ⟨c, List.mem_range.mpr hc, rfl⟩

theorem floor_clip2 (S : Int) (u0 toss : ℚ) (h0 : (S : ℚ) ≤ u0)
    (ht : toss = (S : ℚ) + 1/2) :
    ⌊(if toss < u0 then toss else u0)⌋ = S := by
  split
  · next h =>
    rw [ht, add_comm, Int.floor_add_int]
    norm_num
  · next h =>
    push_neg at h
    rw [Int.floor_eq_iff]
    refine ⟨h0, ?_⟩
    rw [ht] at h
    push_cast
    linarith

theorem gendU_floor_px (sX sY sZ y z : Int) :
    ⌊gendU sX sY sZ ⟨⟨0, y, z⟩, ⟨1, 0, 0⟩⟩⌋ = sX := by
  have he : gendU sX sY sZ ⟨⟨0, y, z⟩, ⟨1, 0, 0⟩⟩
      = (if ((sX : ℚ) + 1/2 - ((0 : Int) : ℚ)) / ((1 : Int) : ℚ)
            < max (sX : ℚ) (max (sY : ℚ) (sZ : ℚ))
          then ((sX : ℚ) + 1/2 - ((0 : Int) : ℚ)) / ((1 : Int) : ℚ)
          else max (sX : ℚ) (max (sY : ℚ) (sZ : ℚ))) := rfl
  rw [he]
  exact floor_clip2 sX _ _ (le_max_left _ _) (by push_cast; ring)

theorem gendU_floor_mx (sX sY sZ y z : Int) :
    ⌊gendU sX sY sZ ⟨⟨sX - 1, y, z⟩, ⟨-1, 0, 0⟩⟩⌋ = sX := by
  have he : gendU sX sY sZ ⟨⟨sX - 1, y, z⟩, ⟨-1, 0, 0⟩⟩
      = (if (-(3/2 : ℚ) - ((sX - 1 : Int) : ℚ)) / ((-1 : Int) : ℚ)
            < max (sX : ℚ) (max (sY : ℚ) (sZ : ℚ))
          then (-(3/2 : ℚ) - ((sX - 1 : Int) : ℚ)) / ((-1 : Int) : ℚ)
          else max (sX : ℚ) (max (sY : ℚ) (sZ : ℚ))) := rfl
  rw [he]
  refine floor_clip2 sX _ _ (le_max_left _ _) ?_
  push_cast
  ring

theorem gendU_floor_py (sX sY sZ x z : Int) :
    ⌊gendU sX sY sZ ⟨⟨x, 0, z⟩, ⟨0, 1, 0⟩⟩⌋ = sY := by
  have he : gendU sX sY sZ ⟨⟨x, 0, z⟩, ⟨0, 1, 0⟩⟩
      = (if ((sY : ℚ) + 1/2 - ((0 : Int) : ℚ)) / ((1 : Int) : ℚ)
            < max (sX : ℚ) (max (sY : ℚ) (sZ : ℚ))
          then ((sY : ℚ) + 1/2 - ((0 : Int) : ℚ)) / ((1 : Int) : ℚ)
          else max (sX : ℚ) (max (sY : ℚ) (sZ : ℚ))) := rfl
  rw [he]
  exact floor_clip2 sY _ _ (le_trans (le_max_left _ _) (le_max_right _ _))
    (by push_cast; ring)

theorem gendU_floor_my (sX sY sZ x z : Int) :
    ⌊gendU sX sY sZ ⟨⟨x, sY - 1, z⟩, ⟨0, -1, 0⟩⟩⌋ = sY := by
  have he : gendU sX sY sZ ⟨⟨x, sY - 1, z⟩, ⟨0, -1, 0⟩⟩
      = (if (-(3/2 : ℚ) - ((sY - 1 : Int) : ℚ)) / ((-1 : Int) : ℚ)
            < max (sX : ℚ) (max (sY : ℚ) (sZ : ℚ))
          then (-(3/2 : ℚ) - ((sY - 1 : Int) : ℚ)) / ((-1 : Int) : ℚ)
          else max (sX : ℚ) (max (sY : ℚ) (sZ : ℚ))) := rfl
  rw [he]
  refine floor_clip2 sY _ _ (le_trans (le_max_left _ _) (le_max_right _ _)) ?_
  push_cast
  ring

theorem gendU_floor_pz (sX sY sZ x y : Int) :
    ⌊gendU sX sY sZ ⟨⟨x, y, 0⟩, ⟨0, 0, 1⟩⟩⌋ = sZ := by
  have he : gendU sX sY sZ ⟨⟨x, y, 0⟩, ⟨0, 0, 1⟩⟩
      = (if ((sZ : ℚ) + 1/2 - ((0 : Int) : ℚ)) / ((1 : Int) : ℚ)
            < max (sX : ℚ) (max (sY : ℚ) (sZ : ℚ))
          then ((sZ : ℚ) + 1/2 - ((0 : Int) : ℚ)) / ((1 : Int) : ℚ)
          else max (sX : ℚ) (max (sY : ℚ) (sZ : ℚ))) := rfl
  rw [he]
  exact floor_clip2 sZ _ _ (le_trans (le_max_right _ _) (le_max_right _ _))
    (by push_cast; ring)

theorem gendU_floor_mz (sX sY sZ x y : Int) :
    ⌊gendU sX sY sZ ⟨⟨x, y, sZ - 1⟩, ⟨0, 0, -1⟩⟩⌋ = sZ := by
  have he : gendU sX sY sZ ⟨⟨x, y, sZ - 1⟩, ⟨0, 0, -1⟩⟩
      = (if (-(3/2 : ℚ) - ((sZ - 1 : Int) : ℚ)) / ((-1 : Int) : ℚ)
            < max (sX : ℚ) (max (sY : ℚ) (sZ : ℚ))
          then (-(3/2 : ℚ) - ((sZ - 1 : Int) : ℚ)) / ((-1 : Int) : ℚ)
          else max (sX : ℚ) (max (sY : ℚ) (sZ : ℚ))) := rfl
  rw [he]
  refine floor_clip2 sZ _ _ (le_trans (le_max_right _ _) (le_max_right _ _)) ?_
  push_cast
  ring

theorem gend_pos_px (sX sY sZ y z : Int) :
    (Giter.gend sX sY sZ ⟨⟨0, y, z⟩, ⟨1, 0, 0⟩⟩).pos = ⟨sX, y, z⟩ := by
  show Position.mk (0 + ⌊gendU sX sY sZ ⟨⟨0, y, z⟩, ⟨1, 0, 0⟩⟩⌋ * 1)
      (y + ⌊gendU sX sY sZ ⟨⟨0, y, z⟩, ⟨1, 0, 0⟩⟩⌋ * 0)
      (z + ⌊gendU sX sY sZ ⟨⟨0, y, z⟩, ⟨1, 0, 0⟩⟩⌋ * 0) = _
  rw [gendU_floor_px]
  norm_num

theorem line_px (sX sY sZ : Int) (hX : 1 ≤ sX) (fuel : Nat)
    (hfuel : sX.toNat ≤ fuel) (a b : Int) :
    lineVisits fuel ⟨0, a, b⟩
        ((Giter.gend sX sY sZ ⟨⟨0, a, b⟩, ⟨1, 0, 0⟩⟩).pos) ⟨1, 0, 0⟩
      = (List.range sX.toNat).map (fun c : Nat => ⟨(c : Int), a, b⟩) := by
  rw [gend_pos_px]
  have hw := lineVisits_phi (fun t : Int => ⟨t, a, b⟩) ⟨1, 0, 0⟩
    (fun t => by simp [Position.add]) (fun t t2 h => by
      injection h)
    sX.toNat fuel 0 hfuel
  have he : (0 : Int) + (sX.toNat : Int) = sX := by omega
  rw [he] at hw
  rw [hw]
  refine List.map_congr_left fun t _ => ?_
  show Position.mk (0 + (t : Int)) a b = ⟨(t : Int), a, b⟩
  norm_num

theorem C5_case_px (sX sY sZ : Int) (hX : 1 ≤ sX) (hY : 1 ≤ sY) (hZ : 1 ≤ sZ)
    (fuel : Nat) (hfuel : sX.toNat ≤ fuel) :
    (∀ s ∈ iteratorPositions sX sY sZ ⟨1, 0, 0⟩,
        (lineVisits fuel s ((Giter.gend sX sY sZ ⟨s, ⟨1, 0, 0⟩⟩).pos)
          ⟨1, 0, 0⟩).length = sX.toNat)
    ∧ (sweepVisits sX sY sZ ⟨1, 0, 0⟩ fuel).Nodup
    ∧ (∀ p : Position, p ∈ sweepVisits sX sY sZ ⟨1, 0, 0⟩ fuel ↔
        (0 ≤ p.x ∧ p.x < sX ∧ 0 ≤ p.y ∧ p.y < sY ∧ 0 ≤ p.z ∧ p.z < sZ))
    ∧ (∀ s1 ∈ iteratorPositions sX sY sZ ⟨1, 0, 0⟩,
        ∀ s2 ∈ iteratorPositions sX sY sZ ⟨1, 0, 0⟩, s1 ≠ s2 →
          List.Disjoint
            (lineVisits fuel s1 ((Giter.gend sX sY sZ ⟨s1, ⟨1, 0, 0⟩⟩).pos)
              ⟨1, 0, 0⟩)
            (lineVisits fuel s2 ((Giter.gend sX sY sZ ⟨s2, ⟨1, 0, 0⟩⟩).pos)
              ⟨1, 0, 0⟩)) := by
  have hL : iteratorPositions sX sY sZ ⟨1, 0, 0⟩
      = (List.range sY.toNat).flatMap (fun a : Nat =>
          (List.range sZ.toNat).map (fun b : Nat =>
            Position.mk 0 (a : Int) (b : Int))) := by
    simp [iteratorPositions]
  have hm := sweep_master (iteratorPositions sX sY sZ ⟨1, 0, 0⟩)
    (fun s => lineVisits fuel s ((Giter.gend sX sY sZ ⟨s, ⟨1, 0, 0⟩⟩).pos)
      ⟨1, 0, 0⟩)
    sY.toNat sZ.toNat sX.toNat
    (fun a b => ⟨0, (a : Int), (b : Int)⟩)
    (fun a b c => ⟨(c : Int), (a : Int), (b : Int)⟩)
    hL
    (fun a b => line_px sX sY sZ hX fuel hfuel a b)
    (fun a b c a2 b2 c2 h => by
      injection h with h1 h2 h3
      exact ⟨by exact_mod_cast h2, by exact_mod_cast h3, by exact_mod_cast h1⟩)
    (fun a b a2 b2 h => by
      injection h with h1 h2 h3
      exact ⟨by exact_mod_cast h2, by exact_mod_cast h3⟩)
    (fun a b c c2 h => by
      injection h with h1 h2 h3
      exact_mod_cast h1)
  refine ⟨hm.1, hm.2.1, ?_, hm.2.2.2⟩
  intro p
  constructor
  · intro hp
    obtain ⟨a, ha, b, hb, c, hc, rfl⟩ := (hm.2.2.1 p).mp hp
    refine ⟨?_, ?_, ?_, ?_, ?_, ?_⟩ <;> simp <;> omega
  · rintro ⟨h1, h2, h3, h4, h5, h6⟩
    refine (hm.2.2.1 p).mpr
      ⟨p.y.toNat, by omega, p.z.toNat, by omega, p.x.toNat, by omega, ?_⟩
    cases p with
    | mk px py pz =>
      simp only [Position.mk.injEq] at h1 h2 h3 h4 h5 h6 ⊢
      refine ⟨by omega, by omega, by omega⟩

theorem gend_pos_mx (sX sY sZ y z : Int) :
    (Giter.gend sX sY sZ ⟨⟨sX - 1, y, z⟩, ⟨-1, 0, 0⟩⟩).pos = ⟨-1, y, z⟩ := by
  show Position.mk (sX - 1 + ⌊gendU sX sY sZ ⟨⟨sX - 1, y, z⟩, ⟨-1, 0, 0⟩⟩⌋ * -1)
      (y + ⌊gendU sX sY sZ ⟨⟨sX - 1, y, z⟩, ⟨-1, 0, 0⟩⟩⌋ * 0)
      (z + ⌊gendU sX sY sZ ⟨⟨sX - 1, y, z⟩, ⟨-1, 0, 0⟩⟩⌋ * 0) = _
  rw [gendU_floor_mx]
  simp only [Position.mk.injEq]
  omega

theorem line_mx (sX sY sZ : Int) (hX : 1 ≤ sX) (fuel : Nat)
    (hfuel : sX.toNat ≤ fuel) (a b : Int) :
    lineVisits fuel ⟨sX - 1, a, b⟩
        ((Giter.gend sX sY sZ ⟨⟨sX - 1, a, b⟩, ⟨-1, 0, 0⟩⟩).pos) ⟨-1, 0, 0⟩
      = (List.range sX.toNat).map (fun c : Nat => ⟨sX - 1 - (c : Int), a, b⟩) := by
  rw [gend_pos_mx]
  have hw := lineVisits_phi (fun t : Int => ⟨sX - 1 - t, a, b⟩) ⟨-1, 0, 0⟩
    (fun t => by
      simp only [Position.add, Position.mk.injEq]
      refine ⟨by ring, by ring, by ring⟩)
    (fun t t2 h => by injection h with h1 h2 h3; omega)
    sX.toNat fuel 0 hfuel
  have e0 : (0 : Int) + (sX.toNat : Int) = sX := by omega
  rw [e0] at hw
  simp only [] at hw
  have e1 : sX - 1 - (0 : Int) = sX - 1 := by ring
  have e2 : sX - 1 - sX = (-1 : Int) := by ring
  rw [e1, e2] at hw
  rw [hw]
  refine List.map_congr_left fun t _ => ?_
  show Position.mk (sX - 1 - (0 + (t : Int))) a b = ⟨sX - 1 - (t : Int), a, b⟩
  norm_num

theorem C5_case_mx (sX sY sZ : Int) (hX : 1 ≤ sX) (hY : 1 ≤ sY) (hZ : 1 ≤ sZ)
    (fuel : Nat) (hfuel : sX.toNat ≤ fuel) :
    (∀ s ∈ iteratorPositions sX sY sZ ⟨-1, 0, 0⟩,
        (lineVisits fuel s ((Giter.gend sX sY sZ ⟨s, ⟨-1, 0, 0⟩⟩).pos)
          ⟨-1, 0, 0⟩).length = sX.toNat)
    ∧ (sweepVisits sX sY sZ ⟨-1, 0, 0⟩ fuel).Nodup
    ∧ (∀ p : Position, p ∈ sweepVisits sX sY sZ ⟨-1, 0, 0⟩ fuel ↔
        (0 ≤ p.x ∧ p.x < sX ∧ 0 ≤ p.y ∧ p.y < sY ∧ 0 ≤ p.z ∧ p.z < sZ))
    ∧ (∀ s1 ∈ iteratorPositions sX sY sZ ⟨-1, 0, 0⟩,
        ∀ s2 ∈ iteratorPositions sX sY sZ ⟨-1, 0, 0⟩, s1 ≠ s2 →
          List.Disjoint
            (lineVisits fuel s1 ((Giter.gend sX sY sZ ⟨s1, ⟨-1, 0, 0⟩⟩).pos)
              ⟨-1, 0, 0⟩)
            (lineVisits fuel s2 ((Giter.gend sX sY sZ ⟨s2, ⟨-1, 0, 0⟩⟩).pos)
              ⟨-1, 0, 0⟩)) := by
  have hL : iteratorPositions sX sY sZ ⟨-1, 0, 0⟩
      = (List.range sY.toNat).flatMap (fun a : Nat =>
          (List.range sZ.toNat).map (fun b : Nat =>
            Position.mk (sX - 1) (a : Int) (b : Int))) := by
    simp [iteratorPositions]
  have hm := sweep_master (iteratorPositions sX sY sZ ⟨-1, 0, 0⟩)
    (fun s => lineVisits fuel s ((Giter.gend sX sY sZ ⟨s, ⟨-1, 0, 0⟩⟩).pos)
      ⟨-1, 0, 0⟩)
    sY.toNat sZ.toNat sX.toNat
    (fun a b => ⟨sX - 1, (a : Int), (b : Int)⟩)
    (fun a b c => ⟨sX - 1 - (c : Int), (a : Int), (b : Int)⟩)
    hL
    (fun a b => line_mx sX sY sZ hX fuel hfuel a b)
    (fun a b c a2 b2 c2 h => by
      injection h with h1 h2 h3
      refine ⟨by exact_mod_cast h2, by exact_mod_cast h3, by omega⟩)
    (fun a b a2 b2 h => by
      injection h with h1 h2 h3
      exact ⟨by exact_mod_cast h2, by exact_mod_cast h3⟩)
    (fun a b c c2 h => by
      injection h with h1 h2 h3
      omega)
  refine ⟨hm.1, hm.2.1, ?_, hm.2.2.2⟩
  intro p
  constructor
  · intro hp
    obtain ⟨a, ha, b, hb, c, hc, rfl⟩ := (hm.2.2.1 p).mp hp
    refine ⟨?_, ?_, ?_, ?_, ?_, ?_⟩ <;> simp <;> omega
  · rintro ⟨h1, h2, h3, h4, h5, h6⟩
    refine (hm.2.2.1 p).mpr
      ⟨p.y.toNat, by omega, p.z.toNat, by omega, (sX - 1 - p.x).toNat, by omega, ?_⟩
    cases p with
    | mk px py pz =>
      simp only [Position.mk.injEq] at h1 h2 h3 h4 h5 h6 ⊢
      refine ⟨by omega, by omega, by omega⟩

theorem gend_pos_py (sX sY sZ x z : Int) :
    (Giter.gend sX sY sZ ⟨⟨x, 0, z⟩, ⟨0, 1, 0⟩⟩).pos = ⟨x, sY, z⟩ := by
  show Position.mk (x + ⌊gendU sX sY sZ ⟨⟨x, 0, z⟩, ⟨0, 1, 0⟩⟩⌋ * 0)
      (0 + ⌊gendU sX sY sZ ⟨⟨x, 0, z⟩, ⟨0, 1, 0⟩⟩⌋ * 1)
      (z + ⌊gendU sX sY sZ ⟨⟨x, 0, z⟩, ⟨0, 1, 0⟩⟩⌋ * 0) = _
  rw [gendU_floor_py]
  norm_num

theorem line_py (sX sY sZ : Int) (hY : 1 ≤ sY) (fuel : Nat)
    (hfuel : sY.toNat ≤ fuel) (a b : Int) :
    lineVisits fuel ⟨a, 0, b⟩
        ((Giter.gend sX sY sZ ⟨⟨a, 0, b⟩, ⟨0, 1, 0⟩⟩).pos) ⟨0, 1, 0⟩
      = (List.range sY.toNat).map (fun c : Nat => ⟨a, (c : Int), b⟩) := by
  rw [gend_pos_py]
  have hw := lineVisits_phi (fun t : Int => ⟨a, t, b⟩) ⟨0, 1, 0⟩
    (fun t => by simp [Position.add]) (fun t t2 h => by injection h)
    sY.toNat fuel 0 hfuel
  have he : (0 : Int) + (sY.toNat : Int) = sY := by omega
  rw [he] at hw
  rw [hw]
  refine List.map_congr_left fun t _ => ?_
  show Position.mk a (0 + (t : Int)) b = ⟨a, (t : Int), b⟩
  norm_num

theorem C5_case_py (sX sY sZ : Int) (hX : 1 ≤ sX) (hY : 1 ≤ sY) (hZ : 1 ≤ sZ)
    (fuel : Nat) (hfuel : sY.toNat ≤ fuel) :
    (∀ s ∈ iteratorPositions sX sY sZ ⟨0, 1, 0⟩,
        (lineVisits fuel s ((Giter.gend sX sY sZ ⟨s, ⟨0, 1, 0⟩⟩).pos)
          ⟨0, 1, 0⟩).length = sY.toNat)
    ∧ (sweepVisits sX sY sZ ⟨0, 1, 0⟩ fuel).Nodup
    ∧ (∀ p : Position, p ∈ sweepVisits sX sY sZ ⟨0, 1, 0⟩ fuel ↔
        (0 ≤ p.x ∧ p.x < sX ∧ 0 ≤ p.y ∧ p.y < sY ∧ 0 ≤ p.z ∧ p.z < sZ))
    ∧ (∀ s1 ∈ iteratorPositions sX sY sZ ⟨0, 1, 0⟩,
        ∀ s2 ∈ iteratorPositions sX sY sZ ⟨0, 1, 0⟩, s1 ≠ s2 →
          List.Disjoint
            (lineVisits fuel s1 ((Giter.gend sX sY sZ ⟨s1, ⟨0, 1, 0⟩⟩).pos)
              ⟨0, 1, 0⟩)
            (lineVisits fuel s2 ((Giter.gend sX sY sZ ⟨s2, ⟨0, 1, 0⟩⟩).pos)
              ⟨0, 1, 0⟩)) := by
  have hL : iteratorPositions sX sY sZ ⟨0, 1, 0⟩
      = (List.range sX.toNat).flatMap (fun a : Nat =>
          (List.range sZ.toNat).map (fun b : Nat =>
            Position.mk (a : Int) 0 (b : Int))) := by
    simp [iteratorPositions]
  have hm := sweep_master (iteratorPositions sX sY sZ ⟨0, 1, 0⟩)
    (fun s => lineVisits fuel s ((Giter.gend sX sY sZ ⟨s, ⟨0, 1, 0⟩⟩).pos)
      ⟨0, 1, 0⟩)
    sX.toNat sZ.toNat sY.toNat
    (fun a b => ⟨(a : Int), 0, (b : Int)⟩)
    (fun a b c => ⟨(a : Int), (c : Int), (b : Int)⟩)
    hL
    (fun a b => line_py sX sY sZ hY fuel hfuel a b)
    (fun a b c a2 b2 c2 h => by
      injection h with h1 h2 h3
      exact ⟨by exact_mod_cast h1, by exact_mod_cast h3, by exact_mod_cast h2⟩)
    (fun a b a2 b2 h => by
      injection h with h1 h2 h3
      exact ⟨by exact_mod_cast h1, by exact_mod_cast h3⟩)
    (fun a b c c2 h => by
      injection h with h1 h2 h3
      exact_mod_cast h2)
  refine ⟨hm.1, hm.2.1, ?_, hm.2.2.2⟩
  intro p
  constructor
  · intro hp
    obtain ⟨a, ha, b, hb, c, hc, rfl⟩ := (hm.2.2.1 p).mp hp
    refine ⟨?_, ?_, ?_, ?_, ?_, ?_⟩ <;> simp <;> omega
  · rintro ⟨h1, h2, h3, h4, h5, h6⟩
    refine (hm.2.2.1 p).mpr
      ⟨p.x.toNat, by omega, p.z.toNat, by omega, p.y.toNat, by omega, ?_⟩
    cases p with
    | mk px py pz =>
      simp only [Position.mk.injEq] at h1 h2 h3 h4 h5 h6 ⊢
      refine ⟨by omega, by omega, by omega⟩

theorem gend_pos_my (sX sY sZ x z : Int) :
    (Giter.gend sX sY sZ ⟨⟨x, sY - 1, z⟩, ⟨0, -1, 0⟩⟩).pos = ⟨x, -1, z⟩ := by
  show Position.mk (x + ⌊gendU sX sY sZ ⟨⟨x, sY - 1, z⟩, ⟨0, -1, 0⟩⟩⌋ * 0)
      (sY - 1 + ⌊gendU sX sY sZ ⟨⟨x, sY - 1, z⟩, ⟨0, -1, 0⟩⟩⌋ * -1)
      (z + ⌊gendU sX sY sZ ⟨⟨x, sY - 1, z⟩, ⟨0, -1, 0⟩⟩⌋ * 0) = _
  rw [gendU_floor_my]
  simp only [Position.mk.injEq]
  omega

theorem line_my (sX sY sZ : Int) (hY : 1 ≤ sY) (fuel : Nat)
    (hfuel : sY.toNat ≤ fuel) (a b : Int) :
    lineVisits fuel ⟨a, sY - 1, b⟩
        ((Giter.gend sX sY sZ ⟨⟨a, sY - 1, b⟩, ⟨0, -1, 0⟩⟩).pos) ⟨0, -1, 0⟩
      = (List.range sY.toNat).map (fun c : Nat => ⟨a, sY - 1 - (c : Int), b⟩) := by
  rw [gend_pos_my]
  have hw := lineVisits_phi (fun t : Int => ⟨a, sY - 1 - t, b⟩) ⟨0, -1, 0⟩
    (fun t => by
      simp only [Position.add, Position.mk.injEq]
      refine ⟨by ring, by ring, by ring⟩)
    (fun t t2 h => by injection h with h1 h2 h3; omega)
    sY.toNat fuel 0 hfuel
  have e0 : (0 : Int) + (sY.toNat : Int) = sY := by omega
  rw [e0] at hw
  simp only [] at hw
  have e1 : sY - 1 - (0 : Int) = sY - 1 := by ring
  have e2 : sY - 1 - sY = (-1 : Int) := by ring
  rw [e1, e2] at hw
  rw [hw]
  refine List.map_congr_left fun t _ => ?_
  show Position.mk a (sY - 1 - (0 + (t : Int))) b = ⟨a, sY - 1 - (t : Int), b⟩
  norm_num

theorem C5_case_my (sX sY sZ : Int) (hX : 1 ≤ sX) (hY : 1 ≤ sY) (hZ : 1 ≤ sZ)
    (fuel : Nat) (hfuel : sY.toNat ≤ fuel) :
    (∀ s ∈ iteratorPositions sX sY sZ ⟨0, -1, 0⟩,
        (lineVisits fuel s ((Giter.gend sX sY sZ ⟨s, ⟨0, -1, 0⟩⟩).pos)
          ⟨0, -1, 0⟩).length = sY.toNat)
    ∧ (sweepVisits sX sY sZ ⟨0, -1, 0⟩ fuel).Nodup
    ∧ (∀ p : Position, p ∈ sweepVisits sX sY sZ ⟨0, -1, 0⟩ fuel ↔
        (0 ≤ p.x ∧ p.x < sX ∧ 0 ≤ p.y ∧ p.y < sY ∧ 0 ≤ p.z ∧ p.z < sZ))
    ∧ (∀ s1 ∈ iteratorPositions sX sY sZ ⟨0, -1, 0⟩,
        ∀ s2 ∈ iteratorPositions sX sY sZ ⟨0, -1, 0⟩, s1 ≠ s2 →
          List.Disjoint
            (lineVisits fuel s1 ((Giter.gend sX sY sZ ⟨s1, ⟨0, -1, 0⟩⟩).pos)
              ⟨0, -1, 0⟩)
            (lineVisits fuel s2 ((Giter.gend sX sY sZ ⟨s2, ⟨0, -1, 0⟩⟩).pos)
              ⟨0, -1, 0⟩)) := by
  have hL : iteratorPositions sX sY sZ ⟨0, -1, 0⟩
      = (List.range sX.toNat).flatMap (fun a : Nat =>
          (List.range sZ.toNat).map (fun b : Nat =>
            Position.mk (a : Int) (sY - 1) (b : Int))) := by
    simp [iteratorPositions]
  have hm := sweep_master (iteratorPositions sX sY sZ ⟨0, -1, 0⟩)
    (fun s => lineVisits fuel s ((Giter.gend sX sY sZ ⟨s, ⟨0, -1, 0⟩⟩).pos)
      ⟨0, -1, 0⟩)
    sX.toNat sZ.toNat sY.toNat
    (fun a b => ⟨(a : Int), sY - 1, (b : Int)⟩)
    (fun a b c => ⟨(a : Int), sY - 1 - (c : Int), (b : Int)⟩)
    hL
    (fun a b => line_my sX sY sZ hY fuel hfuel a b)
    (fun a b c a2 b2 c2 h => by
      injection h with h1 h2 h3
      refine ⟨by exact_mod_cast h1, by exact_mod_cast h3, by omega⟩)
    (fun a b a2 b2 h => by
      injection h with h1 h2 h3
      exact ⟨by exact_mod_cast h1, by exact_mod_cast h3⟩)
    (fun a b c c2 h => by
      injection h with h1 h2 h3
      omega)
  refine ⟨hm.1, hm.2.1, ?_, hm.2.2.2⟩
  intro p
  constructor
  · intro hp
    obtain ⟨a, ha, b, hb, c, hc, rfl⟩ := (hm.2.2.1 p).mp hp
    refine ⟨?_, ?_, ?_, ?_, ?_, ?_⟩ <;> simp <;> omega
  · rintro ⟨h1, h2, h3, h4, h5, h6⟩
    refine (hm.2.2.1 p).mpr
      ⟨p.x.toNat, by omega, p.z.toNat, by omega, (sY - 1 - p.y).toNat, by omega, ?_⟩
    cases p with
    | mk px py pz =>
      simp only [Position.mk.injEq] at h1 h2 h3 h4 h5 h6 ⊢
      refine ⟨by omega, by omega, by omega⟩

theorem gend_pos_pz (sX sY sZ x y : Int) :
    (Giter.gend sX sY sZ ⟨⟨x, y, 0⟩, ⟨0, 0, 1⟩⟩).pos = ⟨x, y, sZ⟩ := by
  show Position.mk (x + ⌊gendU sX sY sZ ⟨⟨x, y, 0⟩, ⟨0, 0, 1⟩⟩⌋ * 0)
      (y + ⌊gendU sX sY sZ ⟨⟨x, y, 0⟩, ⟨0, 0, 1⟩⟩⌋ * 0)
      (0 + ⌊gendU sX sY sZ ⟨⟨x, y, 0⟩, ⟨0, 0, 1⟩⟩⌋ * 1) = _
  rw [gendU_floor_pz]
  norm_num

theorem line_pz (sX sY sZ : Int) (hZ : 1 ≤ sZ) (fuel : Nat)
    (hfuel : sZ.toNat ≤ fuel) (a b : Int) :
    lineVisits fuel ⟨a, b, 0⟩
        ((Giter.gend sX sY sZ ⟨⟨a, b, 0⟩, ⟨0, 0, 1⟩⟩).pos) ⟨0, 0, 1⟩
      = (List.range sZ.toNat).map (fun c : Nat => ⟨a, b, (c : Int)⟩) := by
  rw [gend_pos_pz]
  have hw := lineVisits_phi (fun t : Int => ⟨a, b, t⟩) ⟨0, 0, 1⟩
    (fun t => by simp [Position.add]) (fun t t2 h => by injection h)
    sZ.toNat fuel 0 hfuel
  have he : (0 : Int) + (sZ.toNat : Int) = sZ := by omega
  rw [he] at hw
  rw [hw]
  refine List.map_congr_left fun t _ => ?_
  show Position.mk a b (0 + (t : Int)) = ⟨a, b, (t : Int)⟩
  norm_num

theorem C5_case_pz (sX sY sZ : Int) (hX : 1 ≤ sX) (hY : 1 ≤ sY) (hZ : 1 ≤ sZ)
    (fuel : Nat) (hfuel : sZ.toNat ≤ fuel) :
    (∀ s ∈ iteratorPositions sX sY sZ ⟨0, 0, 1⟩,
        (lineVisits fuel s ((Giter.gend sX sY sZ ⟨s, ⟨0, 0, 1⟩⟩).pos)
          ⟨0, 0, 1⟩).length = sZ.toNat)
    ∧ (sweepVisits sX sY sZ ⟨0, 0, 1⟩ fuel).Nodup
    ∧ (∀ p : Position, p ∈ sweepVisits sX sY sZ ⟨0, 0, 1⟩ fuel ↔
        (0 ≤ p.x ∧ p.x < sX ∧ 0 ≤ p.y ∧ p.y < sY ∧ 0 ≤ p.z ∧ p.z < sZ))
    ∧ (∀ s1 ∈ iteratorPositions sX sY sZ ⟨0, 0, 1⟩,
        ∀ s2 ∈ iteratorPositions sX sY sZ ⟨0, 0, 1⟩, s1 ≠ s2 →
          List.Disjoint
            (lineVisits fuel s1 ((Giter.gend sX sY sZ ⟨s1, ⟨0, 0, 1⟩⟩).pos)
              ⟨0, 0, 1⟩)
            (lineVisits fuel s2 ((Giter.gend sX sY sZ ⟨s2, ⟨0, 0, 1⟩⟩).pos)
              ⟨0, 0, 1⟩)) := by
  have hL : iteratorPositions sX sY sZ ⟨0, 0, 1⟩
      = (List.range sX.toNat).flatMap (fun a : Nat =>
          (List.range sY.toNat).map (fun b : Nat =>
            Position.mk (a : Int) (b : Int) 0)) := by
    simp [iteratorPositions]
  have hm := sweep_master (iteratorPositions sX sY sZ ⟨0, 0, 1⟩)
    (fun s => lineVisits fuel s ((Giter.gend sX sY sZ ⟨s, ⟨0, 0, 1⟩⟩).pos)
      ⟨0, 0, 1⟩)
    sX.toNat sY.toNat sZ.toNat
    (fun a b => ⟨(a : Int), (b : Int), 0⟩)
    (fun a b c => ⟨(a : Int), (b : Int), (c : Int)⟩)
    hL
    (fun a b => line_pz sX sY sZ hZ fuel hfuel a b)
    (fun a b c a2 b2 c2 h => by
      injection h with h1 h2 h3
      exact ⟨by exact_mod_cast h1, by exact_mod_cast h2, by exact_mod_cast h3⟩)
    (fun a b a2 b2 h => by
      injection h with h1 h2 h3
      exact ⟨by exact_mod_cast h1, by exact_mod_cast h2⟩)
    (fun a b c c2 h => by
      injection h with h1 h2 h3
      exact_mod_cast h3)
  refine ⟨hm.1, hm.2.1, ?_, hm.2.2.2⟩
  intro p
  constructor
  · intro hp
    obtain ⟨a, ha, b, hb, c, hc, rfl⟩ := (hm.2.2.1 p).mp hp
    refine ⟨?_, ?_, ?_, ?_, ?_, ?_⟩ <;> simp <;> omega
  · rintro ⟨h1, h2, h3, h4, h5, h6⟩
    refine (hm.2.2.1 p).mpr
      ⟨p.x.toNat, by omega, p.y.toNat, by omega, p.z.toNat, by omega, ?_⟩
    cases p with
    | mk px py pz =>
      simp only [Position.mk.injEq] at h1 h2 h3 h4 h5 h6 ⊢
      refine ⟨by omega, by omega, by omega⟩

theorem gend_pos_mz (sX sY sZ x y : Int) :
    (Giter.gend sX sY sZ ⟨⟨x, y, sZ - 1⟩, ⟨0, 0, -1⟩⟩).pos = ⟨x, y, -1⟩ := by
  show Position.mk (x + ⌊gendU sX sY sZ ⟨⟨x, y, sZ - 1⟩, ⟨0, 0, -1⟩⟩⌋ * 0)
      (y + ⌊gendU sX sY sZ ⟨⟨x, y, sZ - 1⟩, ⟨0, 0, -1⟩⟩⌋ * 0)
      (sZ - 1 + ⌊gendU sX sY sZ ⟨⟨x, y, sZ - 1⟩, ⟨0, 0, -1⟩⟩⌋ * -1) = _
  rw [gendU_floor_mz]
  simp only [Position.mk.injEq]
  omega

theorem line_mz (sX sY sZ : Int) (hZ : 1 ≤ sZ) (fuel : Nat)
    (hfuel : sZ.toNat ≤ fuel) (a b : Int) :
    lineVisits fuel ⟨a, b, sZ - 1⟩
        ((Giter.gend sX sY sZ ⟨⟨a, b, sZ - 1⟩, ⟨0, 0, -1⟩⟩).pos) ⟨0, 0, -1⟩
      = (List.range sZ.toNat).map (fun c : Nat => ⟨a, b, sZ - 1 - (c : Int)⟩) := by
  rw [gend_pos_mz]
  have hw := lineVisits_phi (fun t : Int => ⟨a, b, sZ - 1 - t⟩) ⟨0, 0, -1⟩
    (fun t => by
      simp only [Position.add, Position.mk.injEq]
      refine ⟨by ring, by ring, by ring⟩)
    (fun t t2 h => by injection h with h1 h2 h3; omega)
    sZ.toNat fuel 0 hfuel
  have e0 : (0 : Int) + (sZ.toNat : Int) = sZ := by omega
  rw [e0] at hw
  simp only [] at hw
  have e1 : sZ - 1 - (0 : Int) = sZ - 1 := by ring
  have e2 : sZ - 1 - sZ = (-1 : Int) := by ring
  rw [e1, e2] at hw
  rw [hw]
  refine List.map_congr_left fun t _ => ?_
  show Position.mk a b (sZ - 1 - (0 + (t : Int))) = ⟨a, b, sZ - 1 - (t : Int)⟩
  norm_num

theorem C5_case_mz (sX sY sZ : Int) (hX : 1 ≤ sX) (hY : 1 ≤ sY) (hZ : 1 ≤ sZ)
    (fuel : Nat) (hfuel : sZ.toNat ≤ fuel) :
    (∀ s ∈ iteratorPositions sX sY sZ ⟨0, 0, -1⟩,
        (lineVisits fuel s ((Giter.gend sX sY sZ ⟨s, ⟨0, 0, -1⟩⟩).pos)
          ⟨0, 0, -1⟩).length = sZ.toNat)
    ∧ (sweepVisits sX sY sZ ⟨0, 0, -1⟩ fuel).Nodup
    ∧ (∀ p : Position, p ∈ sweepVisits sX sY sZ ⟨0, 0, -1⟩ fuel ↔
        (0 ≤ p.x ∧ p.x < sX ∧ 0 ≤ p.y ∧ p.y < sY ∧ 0 ≤ p.z ∧ p.z < sZ))
    ∧ (∀ s1 ∈ iteratorPositions sX sY sZ ⟨0, 0, -1⟩,
        ∀ s2 ∈ iteratorPositions sX sY sZ ⟨0, 0, -1⟩, s1 ≠ s2 →
          List.Disjoint
            (lineVisits fuel s1 ((Giter.gend sX sY sZ ⟨s1, ⟨0, 0, -1⟩⟩).pos)
              ⟨0, 0, -1⟩)
            (lineVisits fuel s2 ((Giter.gend sX sY sZ ⟨s2, ⟨0, 0, -1⟩⟩).pos)
              ⟨0, 0, -1⟩)) := by
  have hL : iteratorPositions sX sY sZ ⟨0, 0, -1⟩
      = (List.range sX.toNat).flatMap (fun a : Nat =>
          (List.range sY.toNat).map (fun b : Nat =>
            Position.mk (a : Int) (b : Int) (sZ - 1))) := by
    simp [iteratorPositions]
  have hm := sweep_master (iteratorPositions sX sY sZ ⟨0, 0, -1⟩)
    (fun s => lineVisits fuel s ((Giter.gend sX sY sZ ⟨s, ⟨0, 0, -1⟩⟩).pos)
      ⟨0, 0, -1⟩)
    sX.toNat sY.toNat sZ.toNat
    (fun a b => ⟨(a : Int), (b : Int), sZ - 1⟩)
    (fun a b c => ⟨(a : Int), (b : Int), sZ - 1 - (c : Int)⟩)
    hL
    (fun a b => line_mz sX sY sZ hZ fuel hfuel a b)
    (fun a b c a2 b2 c2 h => by
      injection h with h1 h2 h3
      refine ⟨by exact_mod_cast h1, by exact_mod_cast h2, by omega⟩)
    (fun a b a2 b2 h => by
      injection h with h1 h2 h3
      exact ⟨by exact_mod_cast h1, by exact_mod_cast h2⟩)
    (fun a b c c2 h => by
      injection h with h1 h2 h3
      omega)
  refine ⟨hm.1, hm.2.1, ?_, hm.2.2.2⟩
  intro p
  constructor
  · intro hp
    obtain ⟨a, ha, b, hb, c, hc, rfl⟩ := (hm.2.2.1 p).mp hp
    refine ⟨?_, ?_, ?_, ?_, ?_, ?_⟩ <;> simp <;> omega
  · rintro ⟨h1, h2, h3, h4, h5, h6⟩
    refine (hm.2.2.1 p).mpr
      ⟨p.x.toNat, by omega, p.y.toNat, by omega, (sZ - 1 - p.z).toNat, by omega, ?_⟩
    cases p with
    | mk px py pz =>
      simp only [Position.mk.injEq] at h1 h2 h3 h4 h5 h6 ⊢
      refine ⟨by omega, by omega, by omega⟩

/-- The volume extent along the (single) nonzero axis of a displacement. -/
def axisExtent (sX sY sZ : Int) (d : Displacement) : Int :=
  if d.x ≠ 0 then sX else if d.y ≠ 0 then sY else sZ

/-- C5: for positive extents and a unit displacement along exactly one
axis, the starts produced by `iteratorPositions` are on pairwise distinct
lines, each swept line (stepped until it reaches `gend`, a half-open
exclusive bound) visits exactly the axis-extent number of voxels, and all
lines together visit every in-range voxel exactly once — no voxel twice,
none missed. -/
theorem C5_line_coverage (sX sY sZ : Int) (d : Displacement)
    (hX : 1 ≤ sX) (hY : 1 ≤ sY) (hZ : 1 ≤ sZ) (hd : unitAxisDisp d) :
    (∀ s ∈ iteratorPositions sX sY sZ d,
        (lineVisits (sX + sY + sZ).toNat s
          ((Giter.gend sX sY sZ ⟨s, d⟩).pos) d).length
          = (axisExtent sX sY sZ d).toNat)
    ∧ (sweepVisits sX sY sZ d (sX + sY + sZ).toNat).Nodup
    ∧ (∀ p : Position, p ∈ sweepVisits sX sY sZ d (sX + sY + sZ).toNat ↔
        (0 ≤ p.x ∧ p.x < sX ∧ 0 ≤ p.y ∧ p.y < sY ∧ 0 ≤ p.z ∧ p.z < sZ))
    ∧ (∀ s1 ∈ iteratorPositions sX sY sZ d,
        ∀ s2 ∈ iteratorPositions sX sY sZ d, s1 ≠ s2 →
          List.Disjoint
            (lineVisits (sX + sY + sZ).toNat s1
              ((Giter.gend sX sY sZ ⟨s1, d⟩).pos) d)
            (lineVisits (sX + sY + sZ).toNat s2
              ((Giter.gend sX sY sZ ⟨s2, d⟩).pos) d)) := by
  rcases hd with rfl | rfl | rfl | rfl | rfl | rfl
  · have he : axisExtent sX sY sZ ⟨1, 0, 0⟩ = sX := by simp [axisExtent]
    rw [he]
    exact C5_case_px sX sY sZ hX hY hZ (sX + sY + sZ).toNat (by omega)
  · have he : axisExtent sX sY sZ ⟨-1, 0, 0⟩ = sX := by simp [axisExtent]
    rw [he]
    exact C5_case_mx sX sY sZ hX hY hZ (sX + sY + sZ).toNat (by omega)
  · have he : axisExtent sX sY sZ ⟨0, 1, 0⟩ = sY := by simp [axisExtent]
    rw [he]
    exact C5_case_py sX sY sZ hX hY hZ (sX + sY + sZ).toNat (by omega)
  · have he : axisExtent sX sY sZ ⟨0, -1, 0⟩ = sY := by simp [axisExtent]
    rw [he]
    exact C5_case_my sX sY sZ hX hY hZ (sX + sY + sZ).toNat (by omega)
  · have he : axisExtent sX sY sZ ⟨0, 0, 1⟩ = sZ := by simp [axisExtent]
    rw [he]
    exact C5_case_pz sX sY sZ hX hY hZ (sX + sY + sZ).toNat (by omega)
  · have he : axisExtent sX sY sZ ⟨0, 0, -1⟩ = sZ := by simp [axisExtent]
    rw [he]
    exact C5_case_mz sX sY sZ hX hY hZ (sX + sY + sZ).toNat (by omega)

/-- Witness for `C5_line_coverage` on a 2×1×1 volume along +X. -/
theorem C5_line_coverage_witness :
    (1 : Int) ≤ 2
      ∧ (sweepVisits 2 1 1 ⟨1, 0, 0⟩ ((2 : Int) + 1 + 1).toNat).Nodup
      ∧ (∀ p : Position, p ∈ sweepVisits 2 1 1 ⟨1, 0, 0⟩ ((2 : Int) + 1 + 1).toNat ↔
          (0 ≤ p.x ∧ p.x < 2 ∧ 0 ≤ p.y ∧ p.y < 1 ∧ 0 ≤ p.z ∧ p.z < 1)) :=
  ⟨by decide,
    (C5_line_coverage 2 1 1 ⟨1, 0, 0⟩ (by decide) (by decide) (by decide)
      (Or.inl rfl)).2.1,
    (C5_line_coverage 2 1 1 ⟨1, 0, 0⟩ (by decide) (by decide) (by decide)
      (Or.inl rfl)).2.2.1⟩

/-! ### Scalar field quad extraction (`ScalarField_t::getQuads`, volume.hpp:1309) -/

/-- `ScalarField_t::SurfaceOrientation_t` (volume.hpp:405). -/
inductive SurfaceOrientation where
  | toMin
  | toMax
deriving DecidableEq, Repr

/-- The 6-face body of the `getQuads` triple loop at one voxel
(volume.hpp:1322-1449): for each face neighbor, on a threshold crossing
emit the 4 world-space corners of the separating quad, in the source's
winding order. -/
def quadsAt {C : Type} {α : Type} [VolumeContainer C α] [LinearOrder α]
    (g : GeoVolume C) (threshold : α) (orientation : SurfaceOrientation)
    (i j k : Int) : List FPosition :=
  (if (GeoVolume.get (α := α) g i j k > threshold
        ∧ GeoVolume.get (α := α) g (i - 1) j k ≤ threshold
        ∧ orientation = .toMin)
      ∨ (GeoVolume.get (α := α) g i j k < threshold
        ∧ GeoVolume.get (α := α) g (i - 1) j k ≥ threshold
        ∧ orientation = .toMax) then
    [GeoVolume.grid2geoF (α := α) g ⟨(i : ℚ) - 1/2, (j : ℚ) - 1/2, (k : ℚ) - 1/2⟩,
      GeoVolume.grid2geoF (α := α) g ⟨(i : ℚ) - 1/2, (j : ℚ) - 1/2, (k : ℚ) + 1/2⟩,
      GeoVolume.grid2geoF (α := α) g ⟨(i : ℚ) - 1/2, (j : ℚ) + 1/2, (k : ℚ) + 1/2⟩,
      GeoVolume.grid2geoF (α := α) g ⟨(i : ℚ) - 1/2, (j : ℚ) + 1/2, (k : ℚ) - 1/2⟩]
    else [])
  ++ (if (GeoVolume.get (α := α) g i j k > threshold
        ∧ GeoVolume.get (α := α) g (i + 1) j k ≤ threshold
        ∧ orientation = .toMin)
      ∨ (GeoVolume.get (α := α) g i j k < threshold
        ∧ GeoVolume.get (α := α) g (i + 1) j k ≥ threshold
        ∧ orientation = .toMax) then
    [GeoVolume.grid2geoF (α := α) g ⟨(i : ℚ) + 1/2, (j : ℚ) + 1/2, (k : ℚ) - 1/2⟩,
      GeoVolume.grid2geoF (α := α) g ⟨(i : ℚ) + 1/2, (j : ℚ) + 1/2, (k : ℚ) + 1/2⟩,
      GeoVolume.grid2geoF (α := α) g ⟨(i : ℚ) + 1/2, (j : ℚ) - 1/2, (k : ℚ) + 1/2⟩,
      GeoVolume.grid2geoF (α := α) g ⟨(i : ℚ) + 1/2, (j : ℚ) - 1/2, (k : ℚ) - 1/2⟩]
    else [])
  ++ (if (GeoVolume.get (α := α) g i j k > threshold
        ∧ GeoVolume.get (α := α) g i (j - 1) k ≤ threshold
        ∧ orientation = .toMin)
      ∨ (GeoVolume.get (α := α) g i j k < threshold
        ∧ GeoVolume.get (α := α) g i (j - 1) k ≥ threshold
        ∧ orientation = .toMax) then
    [GeoVolume.grid2geoF (α := α) g ⟨(i : ℚ) - 1/2, (j : ℚ) - 1/2, (k : ℚ) - 1/2⟩,
      GeoVolume.grid2geoF (α := α) g ⟨(i : ℚ) + 1/2, (j : ℚ) - 1/2, (k : ℚ) - 1/2⟩,
      GeoVolume.grid2geoF (α := α) g ⟨(i : ℚ) + 1/2, (j : ℚ) - 1/2, (k : ℚ) + 1/2⟩,
      GeoVolume.grid2geoF (α := α) g ⟨(i : ℚ) - 1/2, (j : ℚ) - 1/2, (k : ℚ) + 1/2⟩]
    else [])
  ++ (if (GeoVolume.get (α := α) g i j k > threshold
        ∧ GeoVolume.get (α := α) g i (j + 1) k ≤ threshold
        ∧ orientation = .toMin)
      ∨ (GeoVolume.get (α := α) g i j k < threshold
        ∧ GeoVolume.get (α := α) g i (j + 1) k ≥ threshold
        ∧ orientation = .toMax) then
    [GeoVolume.grid2geoF (α := α) g ⟨(i : ℚ) - 1/2, (j : ℚ) + 1/2, (k : ℚ) + 1/2⟩,
      GeoVolume.grid2geoF (α := α) g ⟨(i : ℚ) + 1/2, (j : ℚ) + 1/2, (k : ℚ) + 1/2⟩,
      GeoVolume.grid2geoF (α := α) g ⟨(i : ℚ) + 1/2, (j : ℚ) + 1/2, (k : ℚ) - 1/2⟩,
      GeoVolume.grid2geoF (α := α) g ⟨(i : ℚ) - 1/2, (j : ℚ) + 1/2, (k : ℚ) - 1/2⟩]
    else [])
  ++ (if (GeoVolume.get (α := α) g i j k > threshold
        ∧ GeoVolume.get (α := α) g i j (k - 1) ≤ threshold
        ∧ orientation = .toMin)
      ∨ (GeoVolume.get (α := α) g i j k < threshold
        ∧ GeoVolume.get (α := α) g i j (k - 1) ≥ threshold
        ∧ orientation = .toMax) then
    [GeoVolume.grid2geoF (α := α) g ⟨(i : ℚ) - 1/2, (j : ℚ) - 1/2, (k : ℚ) - 1/2⟩,
      GeoVolume.grid2geoF (α := α) g ⟨(i : ℚ) - 1/2, (j : ℚ) + 1/2, (k : ℚ) - 1/2⟩,
      GeoVolume.grid2geoF (α := α) g ⟨(i : ℚ) + 1/2, (j : ℚ) + 1/2, (k : ℚ) - 1/2⟩,
      GeoVolume.grid2geoF (α := α) g ⟨(i : ℚ) + 1/2, (j : ℚ) - 1/2, (k : ℚ) - 1/2⟩]
    else [])
  ++ (if (GeoVolume.get (α := α) g i j k > threshold
        ∧ GeoVolume.get (α := α) g i j (k + 1) ≤ threshold
        ∧ orientation = .toMin)
      ∨ (GeoVolume.get (α := α) g i j k < threshold
        ∧ GeoVolume.get (α := α) g i j (k + 1) ≥ threshold
        ∧ orientation = .toMax) then
    [GeoVolume.grid2geoF (α := α) g ⟨(i : ℚ) + 1/2, (j : ℚ) - 1/2, (k : ℚ) + 1/2⟩,
      GeoVolume.grid2geoF (α := α) g ⟨(i : ℚ) + 1/2, (j : ℚ) + 1/2, (k : ℚ) + 1/2⟩,
      GeoVolume.grid2geoF (α := α) g ⟨(i : ℚ) - 1/2, (j : ℚ) + 1/2, (k : ℚ) + 1/2⟩,
      GeoVolume.grid2geoF (α := α) g ⟨(i : ℚ) - 1/2, (j : ℚ) - 1/2, (k : ℚ) + 1/2⟩]
    else [])

/-- `ScalarField_t::getQuads` (volume.hpp:1309): the triple loop over all
voxels, appending the per-voxel face quads. -/
def getQuads {C : Type} {α : Type} [VolumeContainer C α] [LinearOrder α]
    (g : GeoVolume C) (threshold : α) (orientation : SurfaceOrientation) :
    List FPosition :=
  (List.range (VolumeContainer.csizeX (α := α) g.container).toNat).flatMap
    (fun i : Nat =>
      (List.range (VolumeContainer.csizeY (α := α) g.container).toNat).flatMap
        (fun j : Nat =>
          (List.range (VolumeContainer.csizeZ (α := α) g.container).toNat).flatMap
            (fun k : Nat =>
              quadsAt (α := α) g threshold orientation (i : Int) (j : Int)
                (k : Int))))

theorem flatMap_range_single {β : Type} (n : Nat) (f : Nat → List β) (a : Nat)
    (ha : a < n) (hz : ∀ x, x < n → x ≠ a → f x = []) :
    (List.range n).flatMap f = f a := by
  induction n with
  | zero => omega
  | succ n ih =>
    rw [List.range_succ, List.flatMap_append, List.flatMap_cons, List.flatMap_nil,
      List.append_nil]
    by_cases han : a = n
    · subst han
      have hnil : (List.range a).flatMap f = [] := by
        rw [List.flatMap_eq_nil_iff]
        intro x hx
        have := List.mem_range.mp hx
        exact hz x (by omega) (by omega)
      rw [hnil, List.nil_append]
    · rw [hz n (by omega) (fun h => han h.symm), List.append_nil]
      exact ih (by omega) (fun x hx hxa => hz x (by omega) hxa)

theorem quad_cond_off {α : Type} [LinearOrder α] (main nb thr : α)
    (h : main ≤ thr) :
    ¬ ((main > thr ∧ nb ≤ thr ∧ SurfaceOrientation.toMin = SurfaceOrientation.toMin)
      ∨ (main < thr ∧ nb ≥ thr
          ∧ SurfaceOrientation.toMin = SurfaceOrientation.toMax)) := by
  rintro (⟨hc, -, -⟩ | ⟨-, -, hor⟩)
  · exact absurd hc (not_lt.mpr h)
  · exact absurd hor (by decide)

/-- A voxel at or below the threshold emits no quads under `TO_MIN`. -/
theorem quadsAt_off {C : Type} {α : Type} [VolumeContainer C α] [LinearOrder α]
    (g : GeoVolume C) (threshold : α) (i j k : Int)
    (h : GeoVolume.get (α := α) g i j k ≤ threshold) :
    quadsAt (α := α) g threshold .toMin i j k = [] := by
  unfold quadsAt
  rw [if_neg (quad_cond_off _ _ _ h), if_neg (quad_cond_off _ _ _ h),
    if_neg (quad_cond_off _ _ _ h), if_neg (quad_cond_off _ _ _ h),
    if_neg (quad_cond_off _ _ _ h), if_neg (quad_cond_off _ _ _ h)]
  rfl

/-- A voxel above the threshold whose 6 face neighbors are all at or below
it emits exactly its 6 face quads under `TO_MIN`. -/
theorem quadsAt_on {C : Type} {α : Type} [VolumeContainer C α] [LinearOrder α]
    (g : GeoVolume C) (threshold : α) (i j k : Int)
    (hmain : GeoVolume.get (α := α) g i j k > threshold)
    (hxm : GeoVolume.get (α := α) g (i - 1) j k ≤ threshold)
    (hxp : GeoVolume.get (α := α) g (i + 1) j k ≤ threshold)
    (hym : GeoVolume.get (α := α) g i (j - 1) k ≤ threshold)
    (hyp2 : GeoVolume.get (α := α) g i (j + 1) k ≤ threshold)
    (hzm : GeoVolume.get (α := α) g i j (k - 1) ≤ threshold)
    (hzp : GeoVolume.get (α := α) g i j (k + 1) ≤ threshold) :
    quadsAt (α := α) g threshold .toMin i j k =
      [GeoVolume.grid2geoF (α := α) g ⟨(i : ℚ) - 1/2, (j : ℚ) - 1/2, (k : ℚ) - 1/2⟩,
        GeoVolume.grid2geoF (α := α) g ⟨(i : ℚ) - 1/2, (j : ℚ) - 1/2, (k : ℚ) + 1/2⟩,
        GeoVolume.grid2geoF (α := α) g ⟨(i : ℚ) - 1/2, (j : ℚ) + 1/2, (k : ℚ) + 1/2⟩,
        GeoVolume.grid2geoF (α := α) g ⟨(i : ℚ) - 1/2, (j : ℚ) + 1/2, (k : ℚ) - 1/2⟩,
        GeoVolume.grid2geoF (α := α) g ⟨(i : ℚ) + 1/2, (j : ℚ) + 1/2, (k : ℚ) - 1/2⟩,
        GeoVolume.grid2geoF (α := α) g ⟨(i : ℚ) + 1/2, (j : ℚ) + 1/2, (k : ℚ) + 1/2⟩,
        GeoVolume.grid2geoF (α := α) g ⟨(i : ℚ) + 1/2, (j : ℚ) - 1/2, (k : ℚ) + 1/2⟩,
        GeoVolume.grid2geoF (α := α) g ⟨(i : ℚ) + 1/2, (j : ℚ) - 1/2, (k : ℚ) - 1/2⟩,
        GeoVolume.grid2geoF (α := α) g ⟨(i : ℚ) - 1/2, (j : ℚ) - 1/2, (k : ℚ) - 1/2⟩,
        GeoVolume.grid2geoF (α := α) g ⟨(i : ℚ) + 1/2, (j : ℚ) - 1/2, (k : ℚ) - 1/2⟩,
        GeoVolume.grid2geoF (α := α) g ⟨(i : ℚ) + 1/2, (j : ℚ) - 1/2, (k : ℚ) + 1/2⟩,
        GeoVolume.grid2geoF (α := α) g ⟨(i : ℚ) - 1/2, (j : ℚ) - 1/2, (k : ℚ) + 1/2⟩,
        GeoVolume.grid2geoF (α := α) g ⟨(i : ℚ) - 1/2, (j : ℚ) + 1/2, (k : ℚ) + 1/2⟩,
        GeoVolume.grid2geoF (α := α) g ⟨(i : ℚ) + 1/2, (j : ℚ) + 1/2, (k : ℚ) + 1/2⟩,
        GeoVolume.grid2geoF (α := α) g ⟨(i : ℚ) + 1/2, (j : ℚ) + 1/2, (k : ℚ) - 1/2⟩,
        GeoVolume.grid2geoF (α := α) g ⟨(i : ℚ) - 1/2, (j : ℚ) + 1/2, (k : ℚ) - 1/2⟩,
        GeoVolume.grid2geoF (α := α) g ⟨(i : ℚ) - 1/2, (j : ℚ) - 1/2, (k : ℚ) - 1/2⟩,
        GeoVolume.grid2geoF (α := α) g ⟨(i : ℚ) - 1/2, (j : ℚ) + 1/2, (k : ℚ) - 1/2⟩,
        GeoVolume.grid2geoF (α := α) g ⟨(i : ℚ) + 1/2, (j : ℚ) + 1/2, (k : ℚ) - 1/2⟩,
        GeoVolume.grid2geoF (α := α) g ⟨(i : ℚ) + 1/2, (j : ℚ) - 1/2, (k : ℚ) - 1/2⟩,
        GeoVolume.grid2geoF (α := α) g ⟨(i : ℚ) + 1/2, (j : ℚ) - 1/2, (k : ℚ) + 1/2⟩,
        GeoVolume.grid2geoF (α := α) g ⟨(i : ℚ) + 1/2, (j : ℚ) + 1/2, (k : ℚ) + 1/2⟩,
        GeoVolume.grid2geoF (α := α) g ⟨(i : ℚ) - 1/2, (j : ℚ) + 1/2, (k : ℚ) + 1/2⟩,
        GeoVolume.grid2geoF (α := α) g ⟨(i : ℚ) - 1/2, (j : ℚ) - 1/2, (k : ℚ) + 1/2⟩] := by
  unfold quadsAt
  rw [if_pos (Or.inl ⟨hmain, hxm, rfl⟩), if_pos (Or.inl ⟨hmain, hxp, rfl⟩),
    if_pos (Or.inl ⟨hmain, hym, rfl⟩), if_pos (Or.inl ⟨hmain, hyp2, rfl⟩),
    if_pos (Or.inl ⟨hmain, hzm, rfl⟩), if_pos (Or.inl ⟨hmain, hzp, rfl⟩)]
  rfl

theorem grid2geoF_inj_x {C : Type} {α : Type} [VolumeContainer C α]
    (g : GeoVolume C)
    (hN : VolumeContainer.csizeX (α := α) g.container ≠ 0)
    (hU : g.upper.x ≠ g.lower.x) {p q : FPosition}
    (h : GeoVolume.grid2geoF (α := α) g p = GeoVolume.grid2geoF (α := α) g q) :
    p.x = q.x := by
  have hx := congrArg FPosition.x h
  show _ = _
  have hNQ : ((VolumeContainer.csizeX (α := α) g.container : Int) : ℚ) ≠ 0 :=
    Int.cast_ne_zero.mpr hN
  have hUL : g.upper.x - g.lower.x ≠ 0 := sub_ne_zero.mpr hU
  have h1 : (p.x + 1/2) / ((VolumeContainer.csizeX (α := α) g.container : Int) : ℚ)
        * (g.upper.x - g.lower.x)
      = (q.x + 1/2) / ((VolumeContainer.csizeX (α := α) g.container : Int) : ℚ)
        * (g.upper.x - g.lower.x) := by
    have := hx
    simp only [GeoVolume.grid2geoF] at this
    exact add_left_cancel this
  have h2 := mul_right_cancel₀ hUL h1
  field_simp at h2
  linarith

theorem grid2geoF_inj_y {C : Type} {α : Type} [VolumeContainer C α]
    (g : GeoVolume C)
    (hN : VolumeContainer.csizeY (α := α) g.container ≠ 0)
    (hU : g.upper.y ≠ g.lower.y) {p q : FPosition}
    (h : GeoVolume.grid2geoF (α := α) g p = GeoVolume.grid2geoF (α := α) g q) :
    p.y = q.y := by
  have hx := congrArg FPosition.y h
  have hNQ : ((VolumeContainer.csizeY (α := α) g.container : Int) : ℚ) ≠ 0 :=
    Int.cast_ne_zero.mpr hN
  have hUL : g.upper.y - g.lower.y ≠ 0 := sub_ne_zero.mpr hU
  have h1 : (p.y + 1/2) / ((VolumeContainer.csizeY (α := α) g.container : Int) : ℚ)
        * (g.upper.y - g.lower.y)
      = (q.y + 1/2) / ((VolumeContainer.csizeY (α := α) g.container : Int) : ℚ)
        * (g.upper.y - g.lower.y) := by
    have := hx
    simp only [GeoVolume.grid2geoF] at this
    exact add_left_cancel this
  have h2 := mul_right_cancel₀ hUL h1
  field_simp at h2
  linarith

theorem grid2geoF_inj_z {C : Type} {α : Type} [VolumeContainer C α]
    (g : GeoVolume C)
    (hN : VolumeContainer.csizeZ (α := α) g.container ≠ 0)
    (hU : g.upper.z ≠ g.lower.z) {p q : FPosition}
    (h : GeoVolume.grid2geoF (α := α) g p = GeoVolume.grid2geoF (α := α) g q) :
    p.z = q.z := by
  have hx := congrArg FPosition.z h
  have hNQ : ((VolumeContainer.csizeZ (α := α) g.container : Int) : ℚ) ≠ 0 :=
    Int.cast_ne_zero.mpr hN
  have hUL : g.upper.z - g.lower.z ≠ 0 := sub_ne_zero.mpr hU
  have h1 : (p.z + 1/2) / ((VolumeContainer.csizeZ (α := α) g.container : Int) : ℚ)
        * (g.upper.z - g.lower.z)
      = (q.z + 1/2) / ((VolumeContainer.csizeZ (α := α) g.container : Int) : ℚ)
        * (g.upper.z - g.lower.z) := by
    have := hx
    simp only [GeoVolume.grid2geoF] at this
    exact add_left_cancel this
  have h2 := mul_right_cancel₀ hUL h1
  field_simp at h2
  linarith

theorem pairwise4 {β : Type} (a b c d : β) (h1 : a ≠ b) (h2 : a ≠ c)
    (h3 : a ≠ d) (h4 : b ≠ c) (h5 : b ≠ d) (h6 : c ≠ d) :
    ([a, b, c, d] : List β).Pairwise (· ≠ ·) := by
  refine List.Pairwise.cons ?_ (List.Pairwise.cons ?_
    (List.Pairwise.cons ?_ (List.pairwise_singleton _ _)))
  · intro x hx
    rcases List.mem_cons.mp hx with rfl | hx
    · exact h1
    rcases List.mem_cons.mp hx with rfl | hx
    · exact h2
    rcases List.mem_cons.mp hx with rfl | hx
    · exact h3
    · cases hx
  · intro x hx
    rcases List.mem_cons.mp hx with rfl | hx
    · exact h4
    rcases List.mem_cons.mp hx with rfl | hx
    · exact h5
    · cases hx
  · intro x hx
    rcases List.mem_cons.mp hx with rfl | hx
    · exact h6
    · cases hx

theorem grid2geoF_ne_x {C : Type} {α : Type} [VolumeContainer C α]
    (g : GeoVolume C)
    (hN : VolumeContainer.csizeX (α := α) g.container ≠ 0)
    (hU : g.upper.x ≠ g.lower.x) {p q : FPosition} (h : p.x ≠ q.x) :
    GeoVolume.grid2geoF (α := α) g p ≠ GeoVolume.grid2geoF (α := α) g q :=
  fun he => h (grid2geoF_inj_x g hN hU he)

theorem grid2geoF_ne_y {C : Type} {α : Type} [VolumeContainer C α]
    (g : GeoVolume C)
    (hN : VolumeContainer.csizeY (α := α) g.container ≠ 0)
    (hU : g.upper.y ≠ g.lower.y) {p q : FPosition} (h : p.y ≠ q.y) :
    GeoVolume.grid2geoF (α := α) g p ≠ GeoVolume.grid2geoF (α := α) g q :=
  fun he => h (grid2geoF_inj_y g hN hU he)

theorem grid2geoF_ne_z {C : Type} {α : Type} [VolumeContainer C α]
    (g : GeoVolume C)
    (hN : VolumeContainer.csizeZ (α := α) g.container ≠ 0)
    (hU : g.upper.z ≠ g.lower.z) {p q : FPosition} (h : p.z ≠ q.z) :
    GeoVolume.grid2geoF (α := α) g p ≠ GeoVolume.grid2geoF (α := α) g q :=
  fun he => h (grid2geoF_inj_z g hN hU he)

/-- C8: Quad extraction boundary count: for every scalar field in which
exactly one in-range voxel `(a,b,c)` holds a value strictly above the
threshold and all other voxels (including everything out of range, i.e. the
initValue) are at or below the threshold, `getQuads threshold TO_MIN`
returns exactly the 24 corner points of that voxel's 6 face quads — one
quad per face, in the source's emission order — and each quad's 4 corner
points are pairwise distinct. -/
theorem C8_single_voxel_quads {C : Type} {α : Type} [VolumeContainer C α]
    [LinearOrder α] (g : GeoVolume C) (threshold : α) (a b c : Int)
    (hux : g.upper.x ≠ g.lower.x) (huy : g.upper.y ≠ g.lower.y)
    (huz : g.upper.z ≠ g.lower.z)
    (ha0 : 0 ≤ a) (ha1 : a < VolumeContainer.csizeX (α := α) g.container)
    (hb0 : 0 ≤ b) (hb1 : b < VolumeContainer.csizeY (α := α) g.container)
    (hc0 : 0 ≤ c) (hc1 : c < VolumeContainer.csizeZ (α := α) g.container)
    (hon : GeoVolume.get (α := α) g a b c > threshold)
    (hoff : ∀ i j k : Int, ¬(i = a ∧ j = b ∧ k = c) →
      GeoVolume.get (α := α) g i j k ≤ threshold) :
    getQuads (α := α) g threshold .toMin =
      [GeoVolume.grid2geoF (α := α) g ⟨(a : ℚ) - 1/2, (b : ℚ) - 1/2, (c : ℚ) - 1/2⟩,
        GeoVolume.grid2geoF (α := α) g ⟨(a : ℚ) - 1/2, (b : ℚ) - 1/2, (c : ℚ) + 1/2⟩,
        GeoVolume.grid2geoF (α := α) g ⟨(a : ℚ) - 1/2, (b : ℚ) + 1/2, (c : ℚ) + 1/2⟩,
        GeoVolume.grid2geoF (α := α) g ⟨(a : ℚ) - 1/2, (b : ℚ) + 1/2, (c : ℚ) - 1/2⟩,
        GeoVolume.grid2geoF (α := α) g ⟨(a : ℚ) + 1/2, (b : ℚ) + 1/2, (c : ℚ) - 1/2⟩,
        GeoVolume.grid2geoF (α := α) g ⟨(a : ℚ) + 1/2, (b : ℚ) + 1/2, (c : ℚ) + 1/2⟩,
        GeoVolume.grid2geoF (α := α) g ⟨(a : ℚ) + 1/2, (b : ℚ) - 1/2, (c : ℚ) + 1/2⟩,
        GeoVolume.grid2geoF (α := α) g ⟨(a : ℚ) + 1/2, (b : ℚ) - 1/2, (c : ℚ) - 1/2⟩,
        GeoVolume.grid2geoF (α := α) g ⟨(a : ℚ) - 1/2, (b : ℚ) - 1/2, (c : ℚ) - 1/2⟩,
        GeoVolume.grid2geoF (α := α) g ⟨(a : ℚ) + 1/2, (b : ℚ) - 1/2, (c : ℚ) - 1/2⟩,
        GeoVolume.grid2geoF (α := α) g ⟨(a : ℚ) + 1/2, (b : ℚ) - 1/2, (c : ℚ) + 1/2⟩,
        GeoVolume.grid2geoF (α := α) g ⟨(a : ℚ) - 1/2, (b : ℚ) - 1/2, (c : ℚ) + 1/2⟩,
        GeoVolume.grid2geoF (α := α) g ⟨(a : ℚ) - 1/2, (b : ℚ) + 1/2, (c : ℚ) + 1/2⟩,
        GeoVolume.grid2geoF (α := α) g ⟨(a : ℚ) + 1/2, (b : ℚ) + 1/2, (c : ℚ) + 1/2⟩,
        GeoVolume.grid2geoF (α := α) g ⟨(a : ℚ) + 1/2, (b : ℚ) + 1/2, (c : ℚ) - 1/2⟩,
        GeoVolume.grid2geoF (α := α) g ⟨(a : ℚ) - 1/2, (b : ℚ) + 1/2, (c : ℚ) - 1/2⟩,
        GeoVolume.grid2geoF (α := α) g ⟨(a : ℚ) - 1/2, (b : ℚ) - 1/2, (c : ℚ) - 1/2⟩,
        GeoVolume.grid2geoF (α := α) g ⟨(a : ℚ) - 1/2, (b : ℚ) + 1/2, (c : ℚ) - 1/2⟩,
        GeoVolume.grid2geoF (α := α) g ⟨(a : ℚ) + 1/2, (b : ℚ) + 1/2, (c : ℚ) - 1/2⟩,
        GeoVolume.grid2geoF (α := α) g ⟨(a : ℚ) + 1/2, (b : ℚ) - 1/2, (c : ℚ) - 1/2⟩,
        GeoVolume.grid2geoF (α := α) g ⟨(a : ℚ) + 1/2, (b : ℚ) - 1/2, (c : ℚ) + 1/2⟩,
        GeoVolume.grid2geoF (α := α) g ⟨(a : ℚ) + 1/2, (b : ℚ) + 1/2, (c : ℚ) + 1/2⟩,
        GeoVolume.grid2geoF (α := α) g ⟨(a : ℚ) - 1/2, (b : ℚ) + 1/2, (c : ℚ) + 1/2⟩,
        GeoVolume.grid2geoF (α := α) g ⟨(a : ℚ) - 1/2, (b : ℚ) - 1/2, (c : ℚ) + 1/2⟩]
    ∧ (getQuads (α := α) g threshold .toMin).length = 24
    ∧ ([GeoVolume.grid2geoF (α := α) g ⟨(a : ℚ) - 1/2, (b : ℚ) - 1/2, (c : ℚ) - 1/2⟩,
        GeoVolume.grid2geoF (α := α) g ⟨(a : ℚ) - 1/2, (b : ℚ) - 1/2, (c : ℚ) + 1/2⟩,
        GeoVolume.grid2geoF (α := α) g ⟨(a : ℚ) - 1/2, (b : ℚ) + 1/2, (c : ℚ) + 1/2⟩,
        GeoVolume.grid2geoF (α := α) g ⟨(a : ℚ) - 1/2, (b : ℚ) + 1/2, (c : ℚ) - 1/2⟩] :
          List FPosition).Pairwise (· ≠ ·)
    ∧ ([GeoVolume.grid2geoF (α := α) g ⟨(a : ℚ) + 1/2, (b : ℚ) + 1/2, (c : ℚ) - 1/2⟩,
        GeoVolume.grid2geoF (α := α) g ⟨(a : ℚ) + 1/2, (b : ℚ) + 1/2, (c : ℚ) + 1/2⟩,
        GeoVolume.grid2geoF (α := α) g ⟨(a : ℚ) + 1/2, (b : ℚ) - 1/2, (c : ℚ) + 1/2⟩,
        GeoVolume.grid2geoF (α := α) g ⟨(a : ℚ) + 1/2, (b : ℚ) - 1/2, (c : ℚ) - 1/2⟩] :
          List FPosition).Pairwise (· ≠ ·)
    ∧ ([GeoVolume.grid2geoF (α := α) g ⟨(a : ℚ) - 1/2, (b : ℚ) - 1/2, (c : ℚ) - 1/2⟩,
        GeoVolume.grid2geoF (α := α) g ⟨(a : ℚ) + 1/2, (b : ℚ) - 1/2, (c : ℚ) - 1/2⟩,
        GeoVolume.grid2geoF (α := α) g ⟨(a : ℚ) + 1/2, (b : ℚ) - 1/2, (c : ℚ) + 1/2⟩,
        GeoVolume.grid2geoF (α := α) g ⟨(a : ℚ) - 1/2, (b : ℚ) - 1/2, (c : ℚ) + 1/2⟩] :
          List FPosition).Pairwise (· ≠ ·)
    ∧ ([GeoVolume.grid2geoF (α := α) g ⟨(a : ℚ) - 1/2, (b : ℚ) + 1/2, (c : ℚ) + 1/2⟩,
        GeoVolume.grid2geoF (α := α) g ⟨(a : ℚ) + 1/2, (b : ℚ) + 1/2, (c : ℚ) + 1/2⟩,
        GeoVolume.grid2geoF (α := α) g ⟨(a : ℚ) + 1/2, (b : ℚ) + 1/2, (c : ℚ) - 1/2⟩,
        GeoVolume.grid2geoF (α := α) g ⟨(a : ℚ) - 1/2, (b : ℚ) + 1/2, (c : ℚ) - 1/2⟩] :
          List FPosition).Pairwise (· ≠ ·)
    ∧ ([GeoVolume.grid2geoF (α := α) g ⟨(a : ℚ) - 1/2, (b : ℚ) - 1/2, (c : ℚ) - 1/2⟩,
        GeoVolume.grid2geoF (α := α) g ⟨(a : ℚ) - 1/2, (b : ℚ) + 1/2, (c : ℚ) - 1/2⟩,
        GeoVolume.grid2geoF (α := α) g ⟨(a : ℚ) + 1/2, (b : ℚ) + 1/2, (c : ℚ) - 1/2⟩,
        GeoVolume.grid2geoF (α := α) g ⟨(a : ℚ) + 1/2, (b : ℚ) - 1/2, (c : ℚ) - 1/2⟩] :
          List FPosition).Pairwise (· ≠ ·)
    ∧ ([GeoVolume.grid2geoF (α := α) g ⟨(a : ℚ) + 1/2, (b : ℚ) - 1/2, (c : ℚ) + 1/2⟩,
        GeoVolume.grid2geoF (α := α) g ⟨(a : ℚ) + 1/2, (b : ℚ) + 1/2, (c : ℚ) + 1/2⟩,
        GeoVolume.grid2geoF (α := α) g ⟨(a : ℚ) - 1/2, (b : ℚ) + 1/2, (c : ℚ) + 1/2⟩,
        GeoVolume.grid2geoF (α := α) g ⟨(a : ℚ) - 1/2, (b : ℚ) - 1/2, (c : ℚ) + 1/2⟩] :
          List FPosition).Pairwise (· ≠ ·) := by
  have ea : ((a.toNat : Nat) : Int) = a := Int.toNat_of_nonneg ha0
  have eb : ((b.toNat : Nat) : Int) = b := Int.toNat_of_nonneg hb0
  have ec : ((c.toNat : Nat) : Int) = c := Int.toNat_of_nonneg hc0
  have hax : a.toNat < (VolumeContainer.csizeX (α := α) g.container).toNat := by
    omega
  have hby : b.toNat < (VolumeContainer.csizeY (α := α) g.container).toNat := by
    omega
  have hcz : c.toNat < (VolumeContainer.csizeZ (α := α) g.container).toNat := by
    omega
  have houter : ∀ x : Nat,
      x < (VolumeContainer.csizeX (α := α) g.container).toNat → x ≠ a.toNat →
      (List.range (VolumeContainer.csizeY (α := α) g.container).toNat).flatMap
        (fun j : Nat =>
          (List.range
              (VolumeContainer.csizeZ (α := α) g.container).toNat).flatMap
            (fun k : Nat =>
              quadsAt (α := α) g threshold .toMin (x : Int) (j : Int)
                (k : Int))) = [] := by
    intro x hx hxa
    rw [List.flatMap_eq_nil_iff]
    intro j hj
    rw [List.flatMap_eq_nil_iff]
    intro k hk
    exact quadsAt_off (α := α) g threshold _ _ _ (hoff _ _ _ (by omega))
  have hmid : ∀ y : Nat,
      y < (VolumeContainer.csizeY (α := α) g.container).toNat → y ≠ b.toNat →
      (List.range (VolumeContainer.csizeZ (α := α) g.container).toNat).flatMap
        (fun k : Nat =>
          quadsAt (α := α) g threshold .toMin ((a.toNat : Int)) (y : Int)
            (k : Int)) = [] := by
    intro y hy hyb
    rw [List.flatMap_eq_nil_iff]
    intro k hk
    exact quadsAt_off (α := α) g threshold _ _ _ (hoff _ _ _ (by omega))
  have hinn : ∀ z : Nat,
      z < (VolumeContainer.csizeZ (α := α) g.container).toNat → z ≠ c.toNat →
      quadsAt (α := α) g threshold .toMin ((a.toNat : Int)) ((b.toNat : Int))
        (z : Int) = [] := by
    intro z hz hzc
    exact quadsAt_off (α := α) g threshold _ _ _ (hoff _ _ _ (by omega))
  have step1 : getQuads (α := α) g threshold .toMin
      = (List.range (VolumeContainer.csizeY (α := α) g.container).toNat).flatMap
          (fun j : Nat =>
            (List.range
                (VolumeContainer.csizeZ (α := α) g.container).toNat).flatMap
              (fun k : Nat =>
                quadsAt (α := α) g threshold .toMin ((a.toNat : Int)) (j : Int)
                  (k : Int))) :=
    flatMap_range_single _ _ a.toNat hax houter
  have step2 : (List.range
          (VolumeContainer.csizeY (α := α) g.container).toNat).flatMap
        (fun j : Nat =>
          (List.range
              (VolumeContainer.csizeZ (α := α) g.container).toNat).flatMap
            (fun k : Nat =>
              quadsAt (α := α) g threshold .toMin ((a.toNat : Int)) (j : Int)
                (k : Int)))
      = (List.range (VolumeContainer.csizeZ (α := α) g.container).toNat).flatMap
          (fun k : Nat =>
            quadsAt (α := α) g threshold .toMin ((a.toNat : Int))
              ((b.toNat : Int)) (k : Int)) :=
    flatMap_range_single _ _ b.toNat hby hmid
  have step3 : (List.range
          (VolumeContainer.csizeZ (α := α) g.container).toNat).flatMap
        (fun k : Nat =>
          quadsAt (α := α) g threshold .toMin ((a.toNat : Int))
            ((b.toNat : Int)) (k : Int))
      = quadsAt (α := α) g threshold .toMin ((a.toNat : Int)) ((b.toNat : Int))
          ((c.toNat : Int)) :=
    flatMap_range_single _ _ c.toNat hcz hinn
  have hq := quadsAt_on (α := α) g threshold a b c hon
    (hoff (a - 1) b c (by omega)) (hoff (a + 1) b c (by omega))
    (hoff a (b - 1) c (by omega)) (hoff a (b + 1) c (by omega))
    (hoff a b (c - 1) (by omega)) (hoff a b (c + 1) (by omega))
  have hmain0 := step1.trans (step2.trans step3)
  rw [ea, eb, ec] at hmain0
  have hmain := hmain0.trans hq
  refine ⟨hmain, ?_, ?_, ?_, ?_, ?_, ?_, ?_⟩
  · rw [hmain]
    rfl
  all_goals refine pairwise4 _ _ _ _ ?_ ?_ ?_ ?_ ?_ ?_
  all_goals first
  | (refine grid2geoF_ne_x (α := α) g (ne_of_gt (lt_of_le_of_lt ha0 ha1)) hux ?_;
     intro hcon; simp at hcon; all_goals linarith)
  | (refine grid2geoF_ne_y (α := α) g (ne_of_gt (lt_of_le_of_lt hb0 hb1)) huy ?_;
     intro hcon; simp at hcon; all_goals linarith)
  | (refine grid2geoF_ne_z (α := α) g (ne_of_gt (lt_of_le_of_lt hc0 hc1)) huz ?_;
     intro hcon; simp at hcon; all_goals linarith)

theorem C8_single_voxel_quads_witness :
    GeoVolume.get (α := ℚ)
        (⟨⟨Node.solid 1, 1, 1, 1, 1, 0⟩, ⟨0, 0, 0⟩, ⟨1, 1, 1⟩, 1⟩ :
          GeoVolume (Volume ℚ)) 0 0 0 > 0
    ∧ (getQuads (α := ℚ)
        (⟨⟨Node.solid 1, 1, 1, 1, 1, 0⟩, ⟨0, 0, 0⟩, ⟨1, 1, 1⟩, 1⟩ :
          GeoVolume (Volume ℚ)) 0 .toMin).length = 24 :=
  ⟨by decide,
    (C8_single_voxel_quads
      (⟨⟨Node.solid 1, 1, 1, 1, 1, 0⟩, ⟨0, 0, 0⟩, ⟨1, 1, 1⟩, 1⟩ :
        GeoVolume (Volume ℚ)) 0 0 0 0
      (by decide) (by decide) (by decide)
      (by decide) (by decide) (by decide) (by decide) (by decide) (by decide)
      (by decide)
      (fun i j k hne => by
        have hor : i < 0 ∨ (1 : Int) ≤ i ∨ j < 0 ∨ (1 : Int) ≤ j ∨ k < 0
            ∨ (1 : Int) ≤ k := by omega
        show Volume.get (⟨Node.solid 1, 1, 1, 1, 1, 0⟩ : Volume ℚ) i j k ≤ 0
        unfold Volume.get
        rw [if_pos hor])).2.1⟩

/-! ### Claim C9: mesh deduplication and degenerate-face drop
(`ScalarField_t::isosurfaceAsMesh`, volume.hpp:1967). -/

/-- `geometry::Mesh`, restricted to the two members the loop touches:
the vertex buffer and the face list (`addFace` triples). -/
structure Mesh where
  vertices : List FPosition
  faces : List (Nat × Nat × Nat)

/-- `Mesh::addFace` (meshop interface): append one indexed triangle. -/
def Mesh.addFace (m : Mesh) (i0 i1 i2 : Nat) : Mesh :=
  { m with faces := m.faces ++ [(i0, i1, i2)] }

/-- `std::map<math::Point3,uint>::find` on the vidMap: exact-coordinate
lookup. -/
def vidFind : List (FPosition × Nat) → FPosition → Option Nat
  | [], _ => none
  | (q, n) :: rest, p => if p = q then some n else vidFind rest p

/-- One inner iteration of the vertex loop (volume.hpp:1991-2005): look the
coordinate up in the vidMap; if absent, insert it with index
`ret.vertices.size()` and push the vertex; the third component is the index
assigned to this corner. -/
def addVertex (ret : Mesh) (m : List (FPosition × Nat)) (p : FPosition) :
    Mesh × List (FPosition × Nat) × Nat :=
  match vidFind m p with
  | none => ({ ret with vertices := ret.vertices ++ [p] },
      (p, ret.vertices.length) :: m, ret.vertices.length)
  | some n => (ret, m, n)

/-- One iteration of the face loop (volume.hpp:1989-2013): dedup the three
corners, then drop the face if any two deduplicated indices coincide,
otherwise `addFace`. -/
def meshFaceStep (st : Mesh × List (FPosition × Nat))
    (tri : FPosition × FPosition × FPosition) : Mesh × List (FPosition × Nat) :=
  let r0 := addVertex st.1 st.2 tri.1
  let r1 := addVertex r0.1 r0.2.1 tri.2.1
  let r2 := addVertex r1.1 r1.2.1 tri.2.2
  if r0.2.2 = r1.2.2 ∨ r0.2.2 = r2.2.2 ∨ r1.2.2 = r2.2.2 then (r2.1, r2.2.1)
  else ((r2.1).addFace r0.2.2 r1.2.2 r2.2.2, r2.2.1)

/-- The `face*3+vertex` indexing (volume.hpp:1989): consecutive triples of
the emitted vertex stream; a trailing partial triple is never visited
(`face < vertices.size()/3`). -/
def triples {β : Type} : List β → List (β × β × β)
  | v0 :: v1 :: v2 :: rest => (v0, v1, v2) :: triples rest
  | _ => []

/-- `ScalarField_t::isosurfaceAsMesh` (volume.hpp:1967), parameterized by
the vertex stream the marching algorithm emitted (`isosurfaceCubes` /
`isosurfaceTetrahedrons`): fold the face loop over the stream's triples,
starting from an empty mesh and an empty vidMap. -/
def isosurfaceAsMesh (vertices : List FPosition) : Mesh :=
  ((triples vertices).foldl meshFaceStep (⟨⟨[], []⟩, []⟩ :
    Mesh × List (FPosition × Nat))).1

def MeshInv (st : Mesh × List (FPosition × Nat)) : Prop :=
  st.1.vertices.Nodup
  ∧ (∀ q : FPosition, vidFind st.2 q = none → q ∉ st.1.vertices)
  ∧ (∀ f ∈ st.1.faces, f.1 ≠ f.2.1 ∧ f.1 ≠ f.2.2 ∧ f.2.1 ≠ f.2.2)

theorem addVertex_inv (ret : Mesh) (m : List (FPosition × Nat)) (p : FPosition)
    (hnd : ret.vertices.Nodup)
    (hmap : ∀ q : FPosition, vidFind m q = none → q ∉ ret.vertices) :
    (addVertex ret m p).1.vertices.Nodup
    ∧ (∀ q : FPosition, vidFind (addVertex ret m p).2.1 q = none →
        q ∉ (addVertex ret m p).1.vertices)
    ∧ (addVertex ret m p).1.faces = ret.faces := by
  unfold addVertex
  cases hf : vidFind m p with
  | none =>
    simp only []
    refine ⟨?_, ?_, trivial⟩
    · rw [List.nodup_append]
      exact ⟨hnd, List.nodup_singleton p,
        fun q hq hq2 => (hmap p hf) ((List.mem_singleton.mp hq2) ▸ hq)⟩
    · intro q hq
      unfold vidFind at hq
      rw [List.mem_append]
      rintro (hmem | hmem)
      · by_cases h2 : q = p
        · rw [if_pos h2] at hq
          cases hq
        · rw [if_neg h2] at hq
          exact hmap q hq hmem
      · rcases List.mem_singleton.mp hmem with rfl
        rw [if_pos rfl] at hq
        cases hq
  | some n =>
    simp only []
    exact ⟨hnd, hmap, trivial⟩

theorem meshFaceStep_inv (st : Mesh × List (FPosition × Nat))
    (tri : FPosition × FPosition × FPosition) (h : MeshInv st) :
    MeshInv (meshFaceStep st tri) := by
  obtain ⟨h1, h2, h3⟩ := h
  obtain ⟨a0, b0, f0⟩ := addVertex_inv st.1 st.2 tri.1 h1 h2
  obtain ⟨a1, b1, f1⟩ := addVertex_inv _ _ tri.2.1 a0 b0
  obtain ⟨a2, b2, f2⟩ := addVertex_inv _ _ tri.2.2 a1 b1
  simp only [meshFaceStep]
  split
  · exact ⟨a2, b2, by rw [f2, f1, f0]; exact h3⟩
  · rename_i hne
    push_neg at hne
    refine ⟨a2, b2, ?_⟩
    intro f hfm
    unfold Mesh.addFace at hfm
    simp only [List.mem_append] at hfm
    rcases hfm with hfm | hfm
    · rw [f2, f1, f0] at hfm
      exact h3 f hfm
    · rcases List.mem_singleton.mp hfm with rfl
      exact ⟨hne.1, hne.2.1, hne.2.2⟩

theorem foldl_meshInv (tris : List (FPosition × FPosition × FPosition)) :
    ∀ st : Mesh × List (FPosition × Nat), MeshInv st →
      MeshInv (tris.foldl meshFaceStep st) := by
  induction tris with
  | nil => intro st h; exact h
  | cons t ts ih => intro st h; exact ih _ (meshFaceStep_inv st t h)

/-- C9: Mesh deduplication and degenerate-triangle drop: for every vertex
stream the marching algorithm emits (hence for every threshold, orientation
and algorithm), the mesh built by `isosurfaceAsMesh` lists each distinct
vertex coordinate triple at most once (coincident vertices share one index
via the exact-coordinate vidMap lookup), and every face kept has three
pairwise-distinct vertex indices (degenerate triangles are dropped). -/
theorem C9_mesh_dedup_degenerate (vertices : List FPosition) :
    (isosurfaceAsMesh vertices).vertices.Nodup
    ∧ ∀ f ∈ (isosurfaceAsMesh vertices).faces,
        f.1 ≠ f.2.1 ∧ f.1 ≠ f.2.2 ∧ f.2.1 ≠ f.2.2 := by
  have h := foldl_meshInv (triples vertices)
    (⟨⟨[], []⟩, []⟩ : Mesh × List (FPosition × Nat))
    ⟨List.nodup_nil, fun q _ hq => (List.not_mem_nil q) hq,
      fun f hf => absurd hf (List.not_mem_nil f)⟩
  exact ⟨h.1, h.2.2⟩

/-! ### Claim C6: downscale size law (`ScalarField_t::downscale`,
volume.hpp:1236). -/

/-- The innermost copy loop of `downscale` (volume.hpp:1299-1302):
`while (zitN != zendN && zitO != zendO) { zitN.setValue(zitO.value());
++zitN; ++zitO; }`.  The fuel stands for the dynamic termination of the
`while` loop. -/
def copyZ {C : Type} {α : Type} [VolumeContainer C α] (fuel : Nat)
    (src : C) (dst : C) (zN zO zendN zendO : Giter) : C :=
  match fuel with
  | 0 => dst
  | f + 1 =>
    if ¬zN.pos = zendN.pos ∧ ¬zO.pos = zendO.pos then
      copyZ f src
        (VolumeContainer.cset dst zN.pos.x zN.pos.y zN.pos.z
          (VolumeContainer.cget src zO.pos.x zO.pos.y zO.pos.z))
        ⟨zN.pos.add zN.diff, zN.diff⟩ ⟨zO.pos.add zO.diff, zO.diff⟩ zendN zendO
    else dst

/-- The middle copy loop of `downscale` (volume.hpp:1292-1304): build the
z iterator pair at the current y positions, run the inner loop, advance. -/
def copyY {C : Type} {α : Type} [VolumeContainer C α] (fuelY fuelZ : Nat)
    (src : C) (dst : C) (yN yO yendN yendO : Giter) (dNZ dOZ : Displacement) :
    C :=
  match fuelY with
  | 0 => dst
  | f + 1 =>
    if ¬yN.pos = yendN.pos ∧ ¬yO.pos = yendO.pos then
      copyY f fuelZ src
        (copyZ fuelZ src dst ⟨yN.pos, dNZ⟩ ⟨yO.pos, dOZ⟩
          (Giter.gend (VolumeContainer.csizeX (α := α) dst)
            (VolumeContainer.csizeY (α := α) dst)
            (VolumeContainer.csizeZ (α := α) dst) ⟨yN.pos, dNZ⟩)
          (Giter.gend (VolumeContainer.csizeX (α := α) src)
            (VolumeContainer.csizeY (α := α) src)
            (VolumeContainer.csizeZ (α := α) src) ⟨yO.pos, dOZ⟩))
        ⟨yN.pos.add yN.diff, yN.diff⟩ ⟨yO.pos.add yO.diff, yO.diff⟩
        yendN yendO dNZ dOZ
    else dst

/-- The outer copy loop of `downscale` (volume.hpp:1287-1306). -/
def copyX {C : Type} {α : Type} [VolumeContainer C α] (fuelX fuelY fuelZ : Nat)
    (src : C) (dst : C) (xN xO xendN xendO : Giter)
    (dNY dOY dNZ dOZ : Displacement) : C :=
  match fuelX with
  | 0 => dst
  | f + 1 =>
    if ¬xN.pos = xendN.pos ∧ ¬xO.pos = xendO.pos then
      copyX f fuelY fuelZ src
        (copyY fuelY fuelZ src dst ⟨xN.pos, dNY⟩ ⟨xO.pos, dOY⟩
          (Giter.gend (VolumeContainer.csizeX (α := α) dst)
            (VolumeContainer.csizeY (α := α) dst)
            (VolumeContainer.csizeZ (α := α) dst) ⟨xN.pos, dNY⟩)
          (Giter.gend (VolumeContainer.csizeX (α := α) src)
            (VolumeContainer.csizeY (α := α) src)
            (VolumeContainer.csizeZ (α := α) src) ⟨xO.pos, dOY⟩) dNZ dOZ)
        ⟨xN.pos.add xN.diff, xN.diff⟩ ⟨xO.pos.add xO.diff, xO.diff⟩
        xendN xendO dNY dOY dNZ dOZ
    else dst

/-- `ScalarField_t::downscale` (volume.hpp:1236): filter the container
along the three axes (the FIR filter itself lives in the external `math`
library, so the three `filterInplace` calls are a parameter `filterStage`
that can only touch the old container), then build `tmp` on the shifted
lower corner `ll = lower - ((factor-1)*voxelSize)/2`, the current
(corrected) `upper` and voxel size `voxelSize*factor`, copy the filtered
data through the nested iterator walk, and replace `*this` with `tmp`. -/
def downscale {C : Type} {α : Type} [VolumeContainer C α]
    (filterStage : C → C) (g : GeoVolume C) (factor : Int) (z0 : α) :
    GeoVolume C :=
  let fc := filterStage g.container
  let shift : ℚ := ((factor : ℚ) - 1) * g.voxelSize / 2
  let ll : FPosition :=
    ⟨g.lower.x - shift, g.lower.y - shift, g.lower.z - shift⟩
  let tmp : GeoVolume C :=
    GeoVolume.make C ll g.upper (g.voxelSize * (factor : ℚ)) z0
  let fuel : Nat := ((VolumeContainer.csizeX (α := α) tmp.container)
    + (VolumeContainer.csizeY (α := α) tmp.container)
    + (VolumeContainer.csizeZ (α := α) tmp.container)
    + (VolumeContainer.csizeX (α := α) fc)
    + (VolumeContainer.csizeY (α := α) fc)
    + (VolumeContainer.csizeZ (α := α) fc)).toNat + 2
  let newCont : C := copyX fuel fuel fuel fc tmp.container
    ⟨⟨0, 0, 0⟩, ⟨1, 0, 0⟩⟩ ⟨⟨0, 0, 0⟩, ⟨factor, 0, 0⟩⟩
    (Giter.gend (VolumeContainer.csizeX (α := α) tmp.container)
      (VolumeContainer.csizeY (α := α) tmp.container)
      (VolumeContainer.csizeZ (α := α) tmp.container)
      ⟨⟨0, 0, 0⟩, ⟨1, 0, 0⟩⟩)
    (Giter.gend (VolumeContainer.csizeX (α := α) fc)
      (VolumeContainer.csizeY (α := α) fc)
      (VolumeContainer.csizeZ (α := α) fc) ⟨⟨0, 0, 0⟩, ⟨factor, 0, 0⟩⟩)
    ⟨0, 1, 0⟩ ⟨0, factor, 0⟩ ⟨0, 0, 1⟩ ⟨0, 0, factor⟩
  { tmp with container := newCont }

def SetPreservesSizes (C : Type) (α : Type) [VolumeContainer C α] : Prop :=
  ∀ (cn : C) (i j k : Int) (v : α),
    VolumeContainer.csizeX (α := α) (VolumeContainer.cset cn i j k v)
      = VolumeContainer.csizeX (α := α) cn
    ∧ VolumeContainer.csizeY (α := α) (VolumeContainer.cset cn i j k v)
      = VolumeContainer.csizeY (α := α) cn
    ∧ VolumeContainer.csizeZ (α := α) (VolumeContainer.cset cn i j k v)
      = VolumeContainer.csizeZ (α := α) cn

def MakeHasSizes (C : Type) (α : Type) [VolumeContainer C α] : Prop :=
  ∀ (X Y Z : Int) (v : α),
    VolumeContainer.csizeX (α := α)
      (VolumeContainer.cmake (C := C) X Y Z v) = X
    ∧ VolumeContainer.csizeY (α := α)
      (VolumeContainer.cmake (C := C) X Y Z v) = Y
    ∧ VolumeContainer.csizeZ (α := α)
      (VolumeContainer.cmake (C := C) X Y Z v) = Z

theorem copyZ_sizes {C : Type} {α : Type} [VolumeContainer C α]
    (hset : SetPreservesSizes C α) :
    ∀ (fuel : Nat) (src dst : C) (zN zO zendN zendO : Giter),
      VolumeContainer.csizeX (α := α) (copyZ fuel src dst zN zO zendN zendO)
        = VolumeContainer.csizeX (α := α) dst
      ∧ VolumeContainer.csizeY (α := α) (copyZ fuel src dst zN zO zendN zendO)
        = VolumeContainer.csizeY (α := α) dst
      ∧ VolumeContainer.csizeZ (α := α) (copyZ fuel src dst zN zO zendN zendO)
        = VolumeContainer.csizeZ (α := α) dst := by
  intro fuel
  induction fuel with
  | zero => intro src dst zN zO zendN zendO; exact ⟨rfl, rfl, rfl⟩
  | succ f ih =>
    intro src dst zN zO zendN zendO
    simp only [copyZ]
    split
    · have h := ih src (VolumeContainer.cset dst zN.pos.x zN.pos.y zN.pos.z
        (VolumeContainer.cget (α := α) src zO.pos.x zO.pos.y zO.pos.z))
        ⟨zN.pos.add zN.diff, zN.diff⟩ ⟨zO.pos.add zO.diff, zO.diff⟩
        zendN zendO
      have hs := hset dst zN.pos.x zN.pos.y zN.pos.z
        (VolumeContainer.cget (α := α) src zO.pos.x zO.pos.y zO.pos.z)
      exact ⟨h.1.trans hs.1, h.2.1.trans hs.2.1, h.2.2.trans hs.2.2⟩
    · exact ⟨rfl, rfl, rfl⟩

theorem copyY_sizes {C : Type} {α : Type} [VolumeContainer C α]
    (hset : SetPreservesSizes C α) :
    ∀ (fuelY fuelZ : Nat) (src dst : C) (yN yO yendN yendO : Giter)
      (dNZ dOZ : Displacement),
      VolumeContainer.csizeX (α := α)
          (copyY fuelY fuelZ src dst yN yO yendN yendO dNZ dOZ)
        = VolumeContainer.csizeX (α := α) dst
      ∧ VolumeContainer.csizeY (α := α)
          (copyY fuelY fuelZ src dst yN yO yendN yendO dNZ dOZ)
        = VolumeContainer.csizeY (α := α) dst
      ∧ VolumeContainer.csizeZ (α := α)
          (copyY fuelY fuelZ src dst yN yO yendN yendO dNZ dOZ)
        = VolumeContainer.csizeZ (α := α) dst := by
  intro fuelY
  induction fuelY with
  | zero => intro fuelZ src dst yN yO yendN yendO dNZ dOZ; exact ⟨rfl, rfl, rfl⟩
  | succ f ih =>
    intro fuelZ src dst yN yO yendN yendO dNZ dOZ
    simp only [copyY]
    split
    · have hz := copyZ_sizes hset fuelZ src dst ⟨yN.pos, dNZ⟩ ⟨yO.pos, dOZ⟩
        (Giter.gend (VolumeContainer.csizeX (α := α) dst)
          (VolumeContainer.csizeY (α := α) dst)
          (VolumeContainer.csizeZ (α := α) dst) ⟨yN.pos, dNZ⟩)
        (Giter.gend (VolumeContainer.csizeX (α := α) src)
          (VolumeContainer.csizeY (α := α) src)
          (VolumeContainer.csizeZ (α := α) src) ⟨yO.pos, dOZ⟩)
      have h := ih fuelZ src (copyZ fuelZ src dst ⟨yN.pos, dNZ⟩ ⟨yO.pos, dOZ⟩
          (Giter.gend (VolumeContainer.csizeX (α := α) dst)
            (VolumeContainer.csizeY (α := α) dst)
            (VolumeContainer.csizeZ (α := α) dst) ⟨yN.pos, dNZ⟩)
          (Giter.gend (VolumeContainer.csizeX (α := α) src)
            (VolumeContainer.csizeY (α := α) src)
            (VolumeContainer.csizeZ (α := α) src) ⟨yO.pos, dOZ⟩))
        ⟨yN.pos.add yN.diff, yN.diff⟩
        ⟨yO.pos.add yO.diff, yO.diff⟩ yendN yendO dNZ dOZ
      exact ⟨h.1.trans hz.1, h.2.1.trans hz.2.1, h.2.2.trans hz.2.2⟩
    · exact ⟨rfl, rfl, rfl⟩

theorem copyX_sizes {C : Type} {α : Type} [VolumeContainer C α]
    (hset : SetPreservesSizes C α) :
    ∀ (fuelX fuelY fuelZ : Nat) (src dst : C) (xN xO xendN xendO : Giter)
      (dNY dOY dNZ dOZ : Displacement),
      VolumeContainer.csizeX (α := α)
          (copyX fuelX fuelY fuelZ src dst xN xO xendN xendO dNY dOY dNZ dOZ)
        = VolumeContainer.csizeX (α := α) dst
      ∧ VolumeContainer.csizeY (α := α)
          (copyX fuelX fuelY fuelZ src dst xN xO xendN xendO dNY dOY dNZ dOZ)
        = VolumeContainer.csizeY (α := α) dst
      ∧ VolumeContainer.csizeZ (α := α)
          (copyX fuelX fuelY fuelZ src dst xN xO xendN xendO dNY dOY dNZ dOZ)
        = VolumeContainer.csizeZ (α := α) dst := by
  intro fuelX
  induction fuelX with
  | zero =>
    intro fuelY fuelZ src dst xN xO xendN xendO dNY dOY dNZ dOZ
    exact ⟨rfl, rfl, rfl⟩
  | succ f ih =>
    intro fuelY fuelZ src dst xN xO xendN xendO dNY dOY dNZ dOZ
    simp only [copyX]
    split
    · have hy := copyY_sizes hset fuelY fuelZ src dst ⟨xN.pos, dNY⟩
        ⟨xO.pos, dOY⟩
        (Giter.gend (VolumeContainer.csizeX (α := α) dst)
          (VolumeContainer.csizeY (α := α) dst)
          (VolumeContainer.csizeZ (α := α) dst) ⟨xN.pos, dNY⟩)
        (Giter.gend (VolumeContainer.csizeX (α := α) src)
          (VolumeContainer.csizeY (α := α) src)
          (VolumeContainer.csizeZ (α := α) src) ⟨xO.pos, dOY⟩) dNZ dOZ
      have h := ih fuelY fuelZ src (copyY fuelY fuelZ src dst ⟨xN.pos, dNY⟩
          ⟨xO.pos, dOY⟩
          (Giter.gend (VolumeContainer.csizeX (α := α) dst)
            (VolumeContainer.csizeY (α := α) dst)
            (VolumeContainer.csizeZ (α := α) dst) ⟨xN.pos, dNY⟩)
          (Giter.gend (VolumeContainer.csizeX (α := α) src)
            (VolumeContainer.csizeY (α := α) src)
            (VolumeContainer.csizeZ (α := α) src) ⟨xO.pos, dOY⟩) dNZ dOZ)
        ⟨xN.pos.add xN.diff, xN.diff⟩
        ⟨xO.pos.add xO.diff, xO.diff⟩ xendN xendO dNY dOY dNZ dOZ
      exact ⟨h.1.trans hy.1, h.2.1.trans hy.2.1, h.2.2.trans hy.2.2⟩
    · exact ⟨rfl, rfl, rfl⟩

/-- The raw size formula of `downscale`: the new container is sized by the
`GeoVolume` constructor from the shifted lower corner, the corrected upper
corner and the enlarged voxel, and the copy loop does not touch sizes. -/
theorem downscale_sizes {C : Type} {α : Type} [VolumeContainer C α]
    (filterStage : C → C) (g : GeoVolume C) (factor : Int) (z0 : α)
    (hmk : MakeHasSizes C α) (hset : SetPreservesSizes C α) :
    VolumeContainer.csizeX (α := α) (downscale filterStage g factor z0).container
      = ⌈(g.upper.x - (g.lower.x - ((factor : ℚ) - 1) * g.voxelSize / 2))
          / (g.voxelSize * (factor : ℚ))⌉
    ∧ VolumeContainer.csizeY (α := α)
        (downscale filterStage g factor z0).container
      = ⌈(g.upper.y - (g.lower.y - ((factor : ℚ) - 1) * g.voxelSize / 2))
          / (g.voxelSize * (factor : ℚ))⌉
    ∧ VolumeContainer.csizeZ (α := α)
        (downscale filterStage g factor z0).container
      = ⌈(g.upper.z - (g.lower.z - ((factor : ℚ) - 1) * g.voxelSize / 2))
          / (g.voxelSize * (factor : ℚ))⌉
    ∧ (downscale filterStage g factor z0).voxelSize
      = g.voxelSize * (factor : ℚ)
    ∧ (downscale filterStage g factor z0).lower
      = ⟨g.lower.x - ((factor : ℚ) - 1) * g.voxelSize / 2,
          g.lower.y - ((factor : ℚ) - 1) * g.voxelSize / 2,
          g.lower.z - ((factor : ℚ) - 1) * g.voxelSize / 2⟩ := by
  simp only [downscale]
  have hc := copyX_sizes (α := α) hset
  have hm := hmk ⌈(g.upper.x - (g.lower.x - ((factor : ℚ) - 1)
      * g.voxelSize / 2)) / (g.voxelSize * (factor : ℚ))⌉
    ⌈(g.upper.y - (g.lower.y - ((factor : ℚ) - 1) * g.voxelSize / 2))
      / (g.voxelSize * (factor : ℚ))⌉
    ⌈(g.upper.z - (g.lower.z - ((factor : ℚ) - 1) * g.voxelSize / 2))
      / (g.voxelSize * (factor : ℚ))⌉ z0
  simp only [GeoVolume.make]
  refine ⟨?_, ?_, ?_, trivial, trivial⟩
  · exact ((hc _ _ _ _ _ _ _ _ _ _ _ _ _).1).trans hm.1
  · exact ((hc _ _ _ _ _ _ _ _ _ _ _ _ _).2.1).trans hm.2.1
  · exact ((hc _ _ _ _ _ _ _ _ _ _ _ _ _).2.2).trans hm.2.2

/-- C6 (corrected): after `downscale(factor)` the voxel size is
`voxelSize*factor`, but the per-axis count is `ceil((2N+factor-1)/(2*factor))`
rather than the claimed `ceil(N/factor)`: `tmp` is built on the shifted
lower corner `lower - ((factor-1)*voxelSize)/2`, which enlarges the extents
by half of `(factor-1)` voxels.  `N` is the per-axis count of a field whose
(corrected) upper corner satisfies `upper = lower + N*voxelSize`. -/
theorem C6_downscale_size_law {C : Type} {α : Type} [VolumeContainer C α]
    (filterStage : C → C) (g : GeoVolume C) (factor : Int) (z0 : α)
    (hmk : MakeHasSizes C α) (hset : SetPreservesSizes C α)
    (hvs : 0 < g.voxelSize) (hf : 1 ≤ factor)
    (hupx : g.upper.x = g.lower.x
      + ((VolumeContainer.csizeX (α := α) g.container : Int) : ℚ) * g.voxelSize)
    (hupy : g.upper.y = g.lower.y
      + ((VolumeContainer.csizeY (α := α) g.container : Int) : ℚ) * g.voxelSize)
    (hupz : g.upper.z = g.lower.z
      + ((VolumeContainer.csizeZ (α := α) g.container : Int) : ℚ)
        * g.voxelSize) :
    VolumeContainer.csizeX (α := α) (downscale filterStage g factor z0).container
      = ⌈((2 * VolumeContainer.csizeX (α := α) g.container + factor - 1 :
            Int) : ℚ) / ((2 * factor : Int) : ℚ)⌉
    ∧ VolumeContainer.csizeY (α := α)
        (downscale filterStage g factor z0).container
      = ⌈((2 * VolumeContainer.csizeY (α := α) g.container + factor - 1 :
            Int) : ℚ) / ((2 * factor : Int) : ℚ)⌉
    ∧ VolumeContainer.csizeZ (α := α)
        (downscale filterStage g factor z0).container
      = ⌈((2 * VolumeContainer.csizeZ (α := α) g.container + factor - 1 :
            Int) : ℚ) / ((2 * factor : Int) : ℚ)⌉
    ∧ (downscale filterStage g factor z0).voxelSize
      = g.voxelSize * (factor : ℚ) := by
  obtain ⟨e1, e2, e3, e4, -⟩ := downscale_sizes filterStage g factor z0 hmk hset
  have hvs' : g.voxelSize ≠ 0 := ne_of_gt hvs
  have hfQ : (factor : ℚ) ≠ 0 := Int.cast_ne_zero.mpr (by omega)
  refine ⟨?_, ?_, ?_, e4⟩
  · rw [e1, hupx]
    congr 1
    push_cast
    field_simp
    ring
  · rw [e2, hupy]
    congr 1
    push_cast
    field_simp
    ring
  · rw [e3, hupz]
    congr 1
    push_cast
    field_simp
    ring

theorem C6_downscale_size_law_witness :
    0 < (⟨VolumeArray.make ℚ 2 2 2 0, ⟨0, 0, 0⟩, ⟨2, 2, 2⟩, 1⟩ :
        GeoVolume (VolumeArray ℚ)).voxelSize
    ∧ (downscale (fun c : VolumeArray ℚ => c)
        (⟨VolumeArray.make ℚ 2 2 2 0, ⟨0, 0, 0⟩, ⟨2, 2, 2⟩, 1⟩ :
          GeoVolume (VolumeArray ℚ)) 2 0).voxelSize
      = (⟨VolumeArray.make ℚ 2 2 2 0, ⟨0, 0, 0⟩, ⟨2, 2, 2⟩, 1⟩ :
          GeoVolume (VolumeArray ℚ)).voxelSize * ((2 : Int) : ℚ) :=
  ⟨by decide,
    (C6_downscale_size_law (fun c : VolumeArray ℚ => c)
      (⟨VolumeArray.make ℚ 2 2 2 0, ⟨0, 0, 0⟩, ⟨2, 2, 2⟩, 1⟩ :
        GeoVolume (VolumeArray ℚ)) 2 0
      (fun X Y Z v => ⟨rfl, rfl, rfl⟩)
      (fun cn i j k v => ⟨(VolumeArray.set_sizes cn i j k v).1,
        (VolumeArray.set_sizes cn i j k v).2.1,
        (VolumeArray.set_sizes cn i j k v).2.2.1⟩)
      (by decide) (by decide)
      (by norm_num [VolumeContainer.csizeX, volumeContainerArray,
        VolumeArray.make])
      (by norm_num [VolumeContainer.csizeY, volumeContainerArray,
        VolumeArray.make])
      (by norm_num [VolumeContainer.csizeZ, volumeContainerArray,
        VolumeArray.make])).2.2.2⟩

/-- C6 counterexample to the original size law: a 2×2×2 field with voxel
size 1 downscaled by factor 2 has per-axis count 2, not
`ceil(N/factor) = ceil(2/2) = 1`. -/
theorem C6_downscale_size_law_counterexample :
    VolumeContainer.csizeX (α := ℚ)
        (downscale (fun c : VolumeArray ℚ => c)
          (⟨VolumeArray.make ℚ 2 2 2 0, ⟨0, 0, 0⟩, ⟨2, 2, 2⟩, 1⟩ :
            GeoVolume (VolumeArray ℚ)) 2 0).container = 2
    ∧ ¬VolumeContainer.csizeX (α := ℚ)
        (downscale (fun c : VolumeArray ℚ => c)
          (⟨VolumeArray.make ℚ 2 2 2 0, ⟨0, 0, 0⟩, ⟨2, 2, 2⟩, 1⟩ :
            GeoVolume (VolumeArray ℚ)) 2 0).container
      = ⌈((VolumeContainer.csizeX (α := ℚ)
            (VolumeArray.make ℚ 2 2 2 (0 : ℚ)) : Int) : ℚ)
          / ((2 : Int) : ℚ)⌉ := by
  have hmk : MakeHasSizes (VolumeArray ℚ) ℚ := fun X Y Z v => ⟨rfl, rfl, rfl⟩
  have hset : SetPreservesSizes (VolumeArray ℚ) ℚ := fun cn i j k v =>
    ⟨(VolumeArray.set_sizes cn i j k v).1,
      (VolumeArray.set_sizes cn i j k v).2.1,
      (VolumeArray.set_sizes cn i j k v).2.2.1⟩
  obtain ⟨e1, -, -, -, -⟩ := downscale_sizes (fun c : VolumeArray ℚ => c)
    (⟨VolumeArray.make ℚ 2 2 2 0, ⟨0, 0, 0⟩, ⟨2, 2, 2⟩, 1⟩ :
      GeoVolume (VolumeArray ℚ)) 2 0 hmk hset
  have h2 : VolumeContainer.csizeX (α := ℚ)
      (downscale (fun c : VolumeArray ℚ => c)
        (⟨VolumeArray.make ℚ 2 2 2 0, ⟨0, 0, 0⟩, ⟨2, 2, 2⟩, 1⟩ :
          GeoVolume (VolumeArray ℚ)) 2 0).container = 2 := by
    rw [e1]
    rw [Int.ceil_eq_iff]
    constructor <;> norm_num
  refine ⟨h2, ?_⟩
  rw [h2]
  have hm : ⌈((VolumeContainer.csizeX (α := ℚ)
        (VolumeArray.make ℚ 2 2 2 (0 : ℚ)) : Int) : ℚ)
      / ((2 : Int) : ℚ)⌉ = 1 := by
    rw [Int.ceil_eq_iff]
    constructor <;>
      norm_num [VolumeContainer.csizeX, volumeContainerArray, VolumeArray.make]
  rw [hm]
  decide

/-! ### Claim C7: Danielsson 4SED distance transform
(`DistanceMap_t`, volume.hpp:2042-2207). -/

/-- `DistanceMap_t::DistVector_s` (volume.hpp:528): per-axis voxel distances
(floats, embedded as exact rationals). -/
structure DistVector where
  distX : ℚ
  distY : ℚ
  distZ : ℚ
deriving DecidableEq, Repr

/-- `DistVector_s::operator+` (volume.hpp:538). -/
def DistVector.add (a b : DistVector) : DistVector :=
  ⟨a.distX + b.distX, a.distY + b.distY, a.distZ + b.distZ⟩

/-- `math::sqr(distX) + math::sqr(distY) + math::sqr(distZ)`, the squared
norm both `DistanceMap_t::min` and the final distance computation use. -/
def DistVector.sqn (v : DistVector) : ℚ :=
  v.distX * v.distX + v.distY * v.distY + v.distZ * v.distZ

/-- `DistanceMap_t::min` (volume.hpp:558): keep `op1` on ties. -/
def dvMin (op1 op2 : DistVector) : DistVector :=
  if op1.sqn ≤ op2.sqn then op1 else op2

/-- `DistanceMap_t::Scandir_t` (volume.hpp:586). -/
inductive Scandir
  | ASC
  | DESC
deriving DecidableEq, Repr

/-- `for (i = 0; i < n; i++)` index list. -/
def intRange (n : Int) : List Int :=
  (List.range n.toNat).map (fun t : Nat => (t : Int))

/-- `for (i = 1; i < n; i++)` index list. -/
def intRange1 (n : Int) : List Int :=
  (List.range (n - 1).toNat).map (fun t : Nat => (t : Int) + 1)

/-- `for (i = hi; i >= 0; i--)` index list. -/
def intRangeDesc (hi : Int) : List Int :=
  (List.range (hi + 1).toNat).map (fun t : Nat => hi - (t : Int))

/-- One `dvField.set(p, min(dvField.get(p), dvField.get(n) + u))`
propagation step, the shape of every loop body in `scanXLine` and
`scanXYPlane`. -/
def propStep (d : Volume DistVector) (i j k ni nj nk : Int) (u : DistVector) :
    Volume DistVector :=
  d.set i j k (dvMin (d.get i j k) ((d.get ni nj nk).add u))

/-- `DistanceMap_t::scanXLine` (volume.hpp:2182): y propagation over the
whole line, then x propagation in both directions. -/
def scanXLine (d : Volume DistVector) (j k : Int) (dir : Scandir) :
    Volume DistVector :=
  let d1 := (intRange d.sizeX).foldl (fun d2 i =>
    if dir = .ASC then propStep d2 i j k i (j - 1) k ⟨0, 1, 0⟩
    else propStep d2 i j k i (j + 1) k ⟨0, 1, 0⟩) d
  let d2 := (intRange1 d1.sizeX).foldl
    (fun d3 i => propStep d3 i j k (i - 1) j k ⟨1, 0, 0⟩) d1
  (intRangeDesc (d2.sizeX - 2)).foldl
    (fun d3 i => propStep d3 i j k (i + 1) j k ⟨1, 0, 0⟩) d2

/-- `DistanceMap_t::scanXYPlane` (volume.hpp:2150): z propagation over the
whole plane, then an ascending and a descending sweep of `scanXLine`. -/
def scanXYPlane (d : Volume DistVector) (k : Int) (dir : Scandir) :
    Volume DistVector :=
  let d1 := (intRange d.sizeX).foldl (fun da i =>
    (intRange da.sizeY).foldl (fun db j =>
      if dir = .ASC then propStep db i j k i j (k - 1) ⟨0, 0, 1⟩
      else propStep db i j k i j (k + 1) ⟨0, 0, 1⟩) da) d
  let d2 := (intRange1 d1.sizeY).foldl (fun da j => scanXLine da j k .ASC) d1
  (intRangeDesc (d2.sizeY - 2)).foldl
    (fun da j => scanXLine da j k .DESC) d2

/-- The per-axis container size the `ScalarField_t` base of `DistanceMap_t`
receives from the `GeoVolume_t` constructor (volume.hpp:989):
`int(ceil((upper - lower)/voxelSize))`. -/
def baseSizeX (bf : GeoVolume (Volume Bool)) : Int :=
  ⌈(bf.upper.x - bf.lower.x) / bf.voxelSize⌉

def baseSizeY (bf : GeoVolume (Volume Bool)) : Int :=
  ⌈(bf.upper.y - bf.lower.y) / bf.voxelSize⌉

def baseSizeZ (bf : GeoVolume (Volume Bool)) : Int :=
  ⌈(bf.upper.z - bf.lower.z) / bf.voxelSize⌉

/-- The seeded 4SED vector field of `DistanceMap_t::DistanceMap_t(Bitfield_t)`
(volume.hpp:2049-2057): a `Volume_t<DistVector_s>` sized like the base
scalar field, filled with `initValue/voxelSize` per component, then a zero
vector written at every set bitfield voxel. -/
def dvFieldInit (bf : GeoVolume (Volume Bool)) (initValue : ℚ) :
    Volume DistVector :=
  let infty : ℚ := initValue / bf.voxelSize
  (intRange (baseSizeX bf)).foldl (fun da i =>
    (intRange (baseSizeY bf)).foldl (fun db j =>
      (intRange (baseSizeZ bf)).foldl (fun dc k =>
        if GeoVolume.get (α := Bool) bf i j k = true then
          dc.set i j k ⟨0, 0, 0⟩
        else dc) db) da)
    (Volume.make DistVector (baseSizeX bf) (baseSizeY bf) (baseSizeZ bf)
      ⟨infty, infty, infty⟩)

/-- The scanned vector field (volume.hpp:2060-2065): ascending z planes
`1..Z-1`, then descending z planes `Z-2..0`. -/
def dvFieldScanned (bf : GeoVolume (Volume Bool)) (initValue : ℚ) :
    Volume DistVector :=
  let d0 := dvFieldInit bf initValue
  let d1 := (intRange1 d0.sizeZ).foldl (fun da k => scanXYPlane da k .ASC) d0
  (intRangeDesc (d1.sizeZ - 2)).foldl
    (fun da k => scanXYPlane da k .DESC) d1

/-- The value the distance map stores at a voxel after the final loop
(volume.hpp:2067-2078).  The base scalar field holds `initValue` everywhere,
the loop visits every voxel exactly once and writes
`voxelSize*sqrt(sqr(dv.distX)+sqr(dv.distY)+sqr(dv.distZ))` there exactly
when that value is below `initValue`, so this is the value `get` returns
afterwards. -/
noncomputable def DistanceMap.storedDist (bf : GeoVolume (Volume Bool))
    (initValue : ℚ) (i j k : Int) : ℝ :=
  let dist : ℝ := (bf.voxelSize : ℝ)
    * Real.sqrt ((((dvFieldScanned bf initValue).get i j k).sqn : ℝ))
  if dist < (initValue : ℝ) then dist else (initValue : ℝ)

/-- `Volume_t` filled by the constructor reads the fill value everywhere. -/
theorem Volume.make_get {α : Type} (X Y Z : Int) (v : α) (i j k : Int) :
    (Volume.make α X Y Z v).get i j k = v := by
  rw [Volume.make, Volume.get]
  split
  · rfl
  · exact Node.get_solid v _ _

/-- Bookkeeping invariant of the vector field: well-formed with the base
sizes. -/
def DvGood (X Y Z : Int) (d : Volume DistVector) : Prop :=
  d.WF ∧ d.sizeX = X ∧ d.sizeY = Y ∧ d.sizeZ = Z

/-- 4SED soundness: every stored vector dominates the true per-axis
distances to the single feature at the origin, componentwise. -/
def dvSound (d : Volume DistVector) : Prop :=
  ∀ i j k : Int, 0 ≤ i → i < d.sizeX → 0 ≤ j → j < d.sizeY → 0 ≤ k →
    k < d.sizeZ →
    ((i : ℚ) ≤ (d.get i j k).distX ∧ (j : ℚ) ≤ (d.get i j k).distY
      ∧ (k : ℚ) ≤ (d.get i j k).distZ)

/-- The stored vector at a voxel is the exact offset from the origin. -/
def dvExact (d : Volume DistVector) (i j k : Int) : Prop :=
  d.get i j k = ⟨(i : ℚ), (j : ℚ), (k : ℚ)⟩

theorem comp_squeeze (x y z a b c : ℚ) (hx : 0 ≤ x) (hy : 0 ≤ y) (hz : 0 ≤ z)
    (ha : x ≤ a) (hb : y ≤ b) (hc : z ≤ c)
    (hsq : a * a + b * b + c * c ≤ x * x + y * y + z * z) :
    a = x ∧ b = y ∧ c = z := by
  have h1 : x * x ≤ a * a := mul_self_le_mul_self hx ha
  have h2 : y * y ≤ b * b := mul_self_le_mul_self hy hb
  have h3 : z * z ≤ c * c := mul_self_le_mul_self hz hc
  refine ⟨?_, ?_, ?_⟩
  · nlinarith [sq_nonneg (a - x), sq_nonneg (a + x)]
  · nlinarith [sq_nonneg (b - y), sq_nonneg (b + y)]
  · nlinarith [sq_nonneg (c - z), sq_nonneg (c + z)]

theorem propStep_master (X Y Z : Int) (d : Volume DistVector)
    (i j k ni nj nk : Int) (u : DistVector)
    (hg : DvGood X Y Z d) (hs : dvSound d)
    (hi : 0 ≤ i ∧ i < X ∧ 0 ≤ j ∧ j < Y ∧ 0 ≤ k ∧ k < Z)
    (hn : 0 ≤ ni ∧ ni < X ∧ 0 ≤ nj ∧ nj < Y ∧ 0 ≤ nk ∧ nk < Z)
    (hu : (i : ℚ) ≤ (ni : ℚ) + u.distX ∧ (j : ℚ) ≤ (nj : ℚ) + u.distY
      ∧ (k : ℚ) ≤ (nk : ℚ) + u.distZ) :
    DvGood X Y Z (propStep d i j k ni nj nk u)
    ∧ dvSound (propStep d i j k ni nj nk u)
    ∧ (∀ p q r : Int, ¬(p = i ∧ q = j ∧ r = k) →
        (propStep d i j k ni nj nk u).get p q r = d.get p q r)
    ∧ (dvExact d i j k → dvExact (propStep d i j k ni nj nk u) i j k)
    ∧ ((ni : ℚ) + u.distX = (i : ℚ) → (nj : ℚ) + u.distY = (j : ℚ) →
        (nk : ℚ) + u.distZ = (k : ℚ) → dvExact d ni nj nk →
        dvExact (propStep d i j k ni nj nk u) i j k) := by
  obtain ⟨hWF, hsx, hsy, hsz⟩ := hg
  obtain ⟨hi0, hi1, hj0, hj1, hk0, hk1⟩ := hi
  obtain ⟨hn0, hn1, hn2, hn3, hn4, hn5⟩ := hn
  have hiQ : (0 : ℚ) ≤ (i : ℚ) := by exact_mod_cast hi0
  have hjQ : (0 : ℚ) ≤ (j : ℚ) := by exact_mod_cast hj0
  have hkQ : (0 : ℚ) ≤ (k : ℚ) := by exact_mod_cast hk0
  have hcur := hs i j k hi0 (by omega) hj0 (by omega) hk0 (by omega)
  have hnb := hs ni nj nk hn0 (by omega) hn2 (by omega) hn4 (by omega)
  have hcand : (i : ℚ) ≤ ((d.get ni nj nk).add u).distX
      ∧ (j : ℚ) ≤ ((d.get ni nj nk).add u).distY
      ∧ (k : ℚ) ≤ ((d.get ni nj nk).add u).distZ := by
    refine ⟨?_, ?_, ?_⟩
    · exact le_trans hu.1 (by
        simp only [DistVector.add]
        exact add_le_add_right hnb.1 u.distX)
    · exact le_trans hu.2.1 (by
        simp only [DistVector.add]
        exact add_le_add_right hnb.2.1 u.distY)
    · exact le_trans hu.2.2 (by
        simp only [DistVector.add]
        exact add_le_add_right hnb.2.2 u.distZ)
  have hw : (i : ℚ) ≤ (dvMin (d.get i j k) ((d.get ni nj nk).add u)).distX
      ∧ (j : ℚ) ≤ (dvMin (d.get i j k) ((d.get ni nj nk).add u)).distY
      ∧ (k : ℚ) ≤ (dvMin (d.get i j k) ((d.get ni nj nk).add u)).distZ := by
    rw [dvMin]
    split
    · exact hcur
    · exact hcand
  have hget : ∀ p q r : Int, (propStep d i j k ni nj nk u).get p q r
      = if ((0 ≤ i ∧ i < d.sizeX ∧ 0 ≤ j ∧ j < d.sizeY ∧ 0 ≤ k ∧ k < d.sizeZ)
          ∧ p = i ∧ q = j ∧ r = k)
        then dvMin (d.get i j k) ((d.get ni nj nk).add u) else d.get p q r :=
    fun p q r => Volume.get_set_eq d hWF i j k p q r _
  have hinr : 0 ≤ i ∧ i < d.sizeX ∧ 0 ≤ j ∧ j < d.sizeY ∧ 0 ≤ k
      ∧ k < d.sizeZ := by rw [hsx, hsy, hsz]; exact ⟨hi0, hi1, hj0, hj1, hk0, hk1⟩
  refine ⟨⟨Volume.WF_set d hWF i j k _, (Volume.set_sizeX d i j k _).trans hsx,
      (Volume.set_sizeY d i j k _).trans hsy,
      (Volume.set_sizeZ d i j k _).trans hsz⟩, ?_, ?_, ?_, ?_⟩
  · intro p q r hp0 hp1 hq0 hq1 hr0 hr1
    rw [show (propStep d i j k ni nj nk u).sizeX = d.sizeX from
        Volume.set_sizeX d i j k _] at hp1
    rw [show (propStep d i j k ni nj nk u).sizeY = d.sizeY from
        Volume.set_sizeY d i j k _] at hq1
    rw [show (propStep d i j k ni nj nk u).sizeZ = d.sizeZ from
        Volume.set_sizeZ d i j k _] at hr1
    rw [hget p q r]
    by_cases hc : p = i ∧ q = j ∧ r = k
    · rw [if_pos ⟨hinr, hc⟩]
      obtain ⟨rfl, rfl, rfl⟩ := hc
      exact hw
    · rw [if_neg (fun hcc => hc hcc.2)]
      exact hs p q r hp0 hp1 hq0 hq1 hr0 hr1
  · intro p q r hne
    rw [hget p q r, if_neg (fun hcc => hne hcc.2)]
  · intro hex
    show (propStep d i j k ni nj nk u).get i j k = _
    rw [hget i j k, if_pos ⟨hinr, rfl, rfl, rfl⟩, dvMin]
    have hcsq : (d.get i j k).sqn
        ≤ ((d.get ni nj nk).add u).sqn := by
      rw [hex]
      simp only [DistVector.sqn]
      have e1 := mul_self_le_mul_self hiQ hcand.1
      have e2 := mul_self_le_mul_self hjQ hcand.2.1
      have e3 := mul_self_le_mul_self hkQ hcand.2.2
      linarith
    rw [if_pos hcsq]
    exact hex
  · intro he1 he2 he3 hnex
    show (propStep d i j k ni nj nk u).get i j k = _
    rw [hget i j k, if_pos ⟨hinr, rfl, rfl, rfl⟩]
    have hcandv : (d.get ni nj nk).add u = ⟨(i : ℚ), (j : ℚ), (k : ℚ)⟩ := by
      rw [hnex]
      simp only [DistVector.add]
      rw [he1, he2, he3]
    rw [dvMin, hcandv]
    split
    · rename_i hle
      have := comp_squeeze (i : ℚ) (j : ℚ) (k : ℚ) (d.get i j k).distX
        (d.get i j k).distY (d.get i j k).distZ hiQ hjQ hkQ
        hcur.1 hcur.2.1 hcur.2.2 (by
          simp only [DistVector.sqn] at hle
          linarith)
      cases hv : d.get i j k with
      | mk a b c =>
        rw [hv] at this
        simp only at this
        rw [this.1, this.2.1, this.2.2]
    · rfl

theorem foldl_keep {σ β : Type} (l : List β) (f : σ → β → σ) (P : σ → Prop)
    (h : ∀ s b, b ∈ l → P s → P (f s b)) : ∀ s, P s → P (l.foldl f s) := by
  induction l with
  | nil => intro s hs; exact hs
  | cons b bs ih =>
    intro s hs
    exact ih (fun s2 b2 hb2 hp => h s2 b2 (List.mem_cons_of_mem b hb2) hp) _
      (h s b (List.mem_cons_self b bs) hs)

theorem foldl_range_inv {σ : Type} (n : Nat) (f : σ → Nat → σ)
    (Q : Nat → σ → Prop)
    (h : ∀ t s, t < n → Q t s → Q (t + 1) (f s t)) :
    ∀ s, Q 0 s → Q n ((List.range n).foldl f s) := by
  induction n with
  | zero => intro s h0; exact h0
  | succ m ih =>
    intro s h0
    rw [List.range_succ, List.foldl_append, List.foldl_cons, List.foldl_nil]
    exact h m _ (Nat.lt_succ_self m)
      (ih (fun t s2 ht hq => h t s2 (by omega) hq) s h0)

/-- Stage A of `scanXLine` in the ascending direction: y propagation from
row `j-1` creates the exact vector at `(0,j,k)` and touches only row
`(·,j,k)`. -/
theorem yprop_asc (X Y Z : Int) (d : Volume DistVector) (j k : Int)
    (hg : DvGood X Y Z d) (hs : dvSound d) (hX : 1 ≤ X)
    (hj1 : 1 ≤ j) (hjY : j < Y) (hk0 : 0 ≤ k) (hkZ : k < Z)
    (hstart : dvExact d 0 (j - 1) k) :
    DvGood X Y Z ((intRange d.sizeX).foldl
        (fun d2 i => propStep d2 i j k i (j - 1) k ⟨0, 1, 0⟩) d)
    ∧ dvSound ((intRange d.sizeX).foldl
        (fun d2 i => propStep d2 i j k i (j - 1) k ⟨0, 1, 0⟩) d)
    ∧ (∀ p q r, ¬(q = j ∧ r = k) →
        ((intRange d.sizeX).foldl
          (fun d2 i => propStep d2 i j k i (j - 1) k ⟨0, 1, 0⟩) d).get p q r
          = d.get p q r)
    ∧ dvExact ((intRange d.sizeX).foldl
        (fun d2 i => propStep d2 i j k i (j - 1) k ⟨0, 1, 0⟩) d) 0 j k := by
  rw [show d.sizeX = X from hg.2.1, intRange, List.foldl_map]
  have key := foldl_range_inv X.toNat
    (fun db t => propStep db (t : Int) j k (t : Int) (j - 1) k ⟨0, 1, 0⟩)
    (fun t db => DvGood X Y Z db ∧ dvSound db
      ∧ (∀ p q r, ¬(q = j ∧ r = k) → db.get p q r = d.get p q r)
      ∧ (1 ≤ t → dvExact db 0 j k))
    (fun t db ht hq => by
      obtain ⟨g1, g2, g3, g4⟩ := hq
      have hm := propStep_master X Y Z db (t : Int) j k (t : Int) (j - 1) k
        ⟨0, 1, 0⟩ g1 g2
        ⟨by omega, by omega, by omega, hjY, hk0, hkZ⟩
        ⟨by omega, by omega, by omega, by omega, hk0, hkZ⟩
        ⟨by simp, by push_cast; simp, by simp⟩
      refine ⟨hm.1, hm.2.1, ?_, ?_⟩
      · intro p q r hpq
        exact (hm.2.2.1 p q r (fun hc => hpq ⟨hc.2.1, hc.2.2⟩)).trans
          (g3 p q r hpq)
      · intro h1
        by_cases ht0 : t = 0
        · subst ht0
          apply hm.2.2.2.2 (by push_cast; ring) (by push_cast; ring)
            (by push_cast; ring)
          show db.get _ _ _ = _
          rw [show ((0 : Nat) : Int) = (0 : Int) from rfl]
          rw [g3 0 (j - 1) k (fun hc => by omega)]
          exact hstart
        · have hex := g4 (by omega)
          show _ = _
          rw [hm.2.2.1 0 j k (fun hc => by
            have := hc.1
            omega)]
          exact hex)
    d ⟨hg, hs, fun p q r _ => rfl, by omega⟩
  exact ⟨key.1, key.2.1, key.2.2.1, key.2.2.2 (by omega)⟩

/-- Stage A of `scanXLine` in the descending direction: y propagation from
row `j+1` preserves the exact vector at `(0,j,k)`. -/
theorem yprop_desc (X Y Z : Int) (d : Volume DistVector) (j k : Int)
    (hg : DvGood X Y Z d) (hs : dvSound d) (hX : 1 ≤ X)
    (hj0 : 0 ≤ j) (hjY : j + 1 < Y) (hk0 : 0 ≤ k) (hkZ : k < Z)
    (hstart : dvExact d 0 j k) :
    DvGood X Y Z ((intRange d.sizeX).foldl
        (fun d2 i => propStep d2 i j k i (j + 1) k ⟨0, 1, 0⟩) d)
    ∧ dvSound ((intRange d.sizeX).foldl
        (fun d2 i => propStep d2 i j k i (j + 1) k ⟨0, 1, 0⟩) d)
    ∧ (∀ p q r, ¬(q = j ∧ r = k) →
        ((intRange d.sizeX).foldl
          (fun d2 i => propStep d2 i j k i (j + 1) k ⟨0, 1, 0⟩) d).get p q r
          = d.get p q r)
    ∧ dvExact ((intRange d.sizeX).foldl
        (fun d2 i => propStep d2 i j k i (j + 1) k ⟨0, 1, 0⟩) d) 0 j k := by
  rw [show d.sizeX = X from hg.2.1, intRange, List.foldl_map]
  have key := foldl_range_inv X.toNat
    (fun db t => propStep db (t : Int) j k (t : Int) (j + 1) k ⟨0, 1, 0⟩)
    (fun t db => DvGood X Y Z db ∧ dvSound db
      ∧ (∀ p q r, ¬(q = j ∧ r = k) → db.get p q r = d.get p q r)
      ∧ dvExact db 0 j k)
    (fun t db ht hq => by
      obtain ⟨g1, g2, g3, g4⟩ := hq
      have hm := propStep_master X Y Z db (t : Int) j k (t : Int) (j + 1) k
        ⟨0, 1, 0⟩ g1 g2
        ⟨by omega, by omega, hj0, by omega, hk0, hkZ⟩
        ⟨by omega, by omega, by omega, hjY, hk0, hkZ⟩
        ⟨by simp, by push_cast; linarith, by simp⟩
      refine ⟨hm.1, hm.2.1, ?_, ?_⟩
      · intro p q r hpq
        exact (hm.2.2.1 p q r (fun hc => hpq ⟨hc.2.1, hc.2.2⟩)).trans
          (g3 p q r hpq)
      · by_cases ht0 : t = 0
        · subst ht0
          exact hm.2.2.2.1 g4
        · show _ = _
          rw [hm.2.2.1 0 j k (fun hc => by
            have := hc.1
            omega)]
          exact g4)
    d ⟨hg, hs, fun p q r _ => rfl, hstart⟩
  exact ⟨key.1, key.2.1, key.2.2.1, key.2.2.2⟩

/-- Stage B of `scanXLine`: ascending x propagation spreads exactness from
`(0,j,k)` across the whole row. -/
theorem xasc_fold (X Y Z : Int) (d : Volume DistVector) (j k : Int)
    (hg : DvGood X Y Z d) (hs : dvSound d) (hX : 1 ≤ X)
    (hj0 : 0 ≤ j) (hjY : j < Y) (hk0 : 0 ≤ k) (hkZ : k < Z)
    (hstart : dvExact d 0 j k) :
    DvGood X Y Z ((intRange1 d.sizeX).foldl
        (fun d3 i => propStep d3 i j k (i - 1) j k ⟨1, 0, 0⟩) d)
    ∧ dvSound ((intRange1 d.sizeX).foldl
        (fun d3 i => propStep d3 i j k (i - 1) j k ⟨1, 0, 0⟩) d)
    ∧ (∀ p q r, ¬(q = j ∧ r = k) →
        ((intRange1 d.sizeX).foldl
          (fun d3 i => propStep d3 i j k (i - 1) j k ⟨1, 0, 0⟩) d).get p q r
          = d.get p q r)
    ∧ (∀ i, 0 ≤ i → i < X → dvExact ((intRange1 d.sizeX).foldl
        (fun d3 i => propStep d3 i j k (i - 1) j k ⟨1, 0, 0⟩) d) i j k) := by
  rw [show d.sizeX = X from hg.2.1, intRange1, List.foldl_map]
  have key := foldl_range_inv (X - 1).toNat
    (fun db t => propStep db ((t : Int) + 1) j k ((t : Int) + 1 - 1) j k
      ⟨1, 0, 0⟩)
    (fun t db => DvGood X Y Z db ∧ dvSound db
      ∧ (∀ p q r, ¬(q = j ∧ r = k) → db.get p q r = d.get p q r)
      ∧ (∀ i, 0 ≤ i → i ≤ (t : Int) → dvExact db i j k))
    (fun t db ht hq => by
      obtain ⟨g1, g2, g3, g4⟩ := hq
      have hm := propStep_master X Y Z db ((t : Int) + 1) j k
        ((t : Int) + 1 - 1) j k ⟨1, 0, 0⟩ g1 g2
        ⟨by omega, by omega, hj0, hjY, hk0, hkZ⟩
        ⟨by omega, by omega, hj0, hjY, hk0, hkZ⟩
        ⟨by push_cast; linarith, by simp, by simp⟩
      refine ⟨hm.1, hm.2.1, ?_, ?_⟩
      · intro p q r hpq
        exact (hm.2.2.1 p q r (fun hc => hpq ⟨hc.2.1, hc.2.2⟩)).trans
          (g3 p q r hpq)
      · intro i hi0 hit
        by_cases hie : i = (t : Int) + 1
        · subst hie
          apply hm.2.2.2.2 (by push_cast; ring) (by push_cast; ring)
            (by push_cast; ring)
          have := g4 ((t : Int) + 1 - 1) (by omega) (by omega)
          exact this
        · show _ = _
          rw [hm.2.2.1 i j k (fun hc => hie hc.1)]
          exact g4 i hi0 (by omega))
    d ⟨hg, hs, fun p q r _ => rfl, fun i hi0 hit => by
      rw [show i = 0 from by omega]
      exact hstart⟩
  exact ⟨key.1, key.2.1, key.2.2.1, fun i hi0 hiX =>
    key.2.2.2 i hi0 (by omega)⟩

/-- Stage C of `scanXLine`: descending x propagation keeps the whole row
exact. -/
theorem xdesc_fold (X Y Z : Int) (d : Volume DistVector) (j k : Int)
    (hg : DvGood X Y Z d) (hs : dvSound d)
    (hj0 : 0 ≤ j) (hjY : j < Y) (hk0 : 0 ≤ k) (hkZ : k < Z)
    (hall : ∀ i, 0 ≤ i → i < X → dvExact d i j k) :
    DvGood X Y Z ((intRangeDesc (d.sizeX - 2)).foldl
        (fun d3 i => propStep d3 i j k (i + 1) j k ⟨1, 0, 0⟩) d)
    ∧ dvSound ((intRangeDesc (d.sizeX - 2)).foldl
        (fun d3 i => propStep d3 i j k (i + 1) j k ⟨1, 0, 0⟩) d)
    ∧ (∀ p q r, ¬(q = j ∧ r = k) →
        ((intRangeDesc (d.sizeX - 2)).foldl
          (fun d3 i => propStep d3 i j k (i + 1) j k ⟨1, 0, 0⟩) d).get p q r
          = d.get p q r)
    ∧ (∀ i, 0 ≤ i → i < X → dvExact ((intRangeDesc (d.sizeX - 2)).foldl
        (fun d3 i => propStep d3 i j k (i + 1) j k ⟨1, 0, 0⟩) d) i j k) := by
  rw [show d.sizeX = X from hg.2.1]
  have key := foldl_keep (intRangeDesc (X - 2))
    (fun d3 i => propStep d3 i j k (i + 1) j k ⟨1, 0, 0⟩)
    (fun db => DvGood X Y Z db ∧ dvSound db
      ∧ (∀ p q r, ¬(q = j ∧ r = k) → db.get p q r = d.get p q r)
      ∧ (∀ i, 0 ≤ i → i < X → dvExact db i j k))
    (fun db b hb hq => by
      obtain ⟨g1, g2, g3, g4⟩ := hq
      have hbb : 0 ≤ b ∧ b ≤ X - 2 := by
        rw [intRangeDesc] at hb
        obtain ⟨t, htm, hteq⟩ := List.mem_map.mp hb
        have := List.mem_range.mp htm
        omega
      have hm := propStep_master X Y Z db b j k (b + 1) j k ⟨1, 0, 0⟩ g1 g2
        ⟨by omega, by omega, hj0, hjY, hk0, hkZ⟩
        ⟨by omega, by omega, hj0, hjY, hk0, hkZ⟩
        ⟨by push_cast; linarith, by simp, by simp⟩
      refine ⟨hm.1, hm.2.1, ?_, ?_⟩
      · intro p q r hpq
        exact (hm.2.2.1 p q r (fun hc => hpq ⟨hc.2.1, hc.2.2⟩)).trans
          (g3 p q r hpq)
      · intro i hi0 hiX
        by_cases hie : i = b
        · subst hie
          exact hm.2.2.2.1 (g4 i hi0 hiX)
        · show _ = _
          rw [hm.2.2.1 i j k (fun hc => hie hc.1)]
          exact g4 i hi0 hiX)
    d ⟨hg, hs, fun p q r _ => rfl, hall⟩
  exact key

/-- `scanXLine` in the ascending sweep: given the exact vector one row
below, the whole row `(·,j,k)` becomes exact and nothing outside the row
changes. -/
theorem scanXLine_asc (X Y Z : Int) (d : Volume DistVector) (j k : Int)
    (hg : DvGood X Y Z d) (hs : dvSound d) (hX : 1 ≤ X)
    (hj1 : 1 ≤ j) (hjY : j < Y) (hk0 : 0 ≤ k) (hkZ : k < Z)
    (hstart : dvExact d 0 (j - 1) k) :
    DvGood X Y Z (scanXLine d j k .ASC) ∧ dvSound (scanXLine d j k .ASC)
    ∧ (∀ p q r, ¬(q = j ∧ r = k) →
        (scanXLine d j k .ASC).get p q r = d.get p q r)
    ∧ (∀ i, 0 ≤ i → i < X → dvExact (scanXLine d j k .ASC) i j k) := by
  obtain ⟨a1, a2, a3, a4⟩ := yprop_asc X Y Z d j k hg hs hX hj1 hjY hk0 hkZ
    hstart
  obtain ⟨b1, b2, b3, b4⟩ := xasc_fold X Y Z _ j k a1 a2 hX (by omega) hjY
    hk0 hkZ a4
  obtain ⟨c1, c2, c3, c4⟩ := xdesc_fold X Y Z _ j k b1 b2 (by omega) hjY
    hk0 hkZ b4
  have hrw : scanXLine d j k .ASC
      = (intRangeDesc (((intRange1 ((intRange d.sizeX).foldl
            (fun d2 i => propStep d2 i j k i (j - 1) k ⟨0, 1, 0⟩) d).sizeX).foldl
          (fun d3 i => propStep d3 i j k (i - 1) j k ⟨1, 0, 0⟩)
          ((intRange d.sizeX).foldl
            (fun d2 i => propStep d2 i j k i (j - 1) k ⟨0, 1, 0⟩) d)).sizeX
            - 2)).foldl
        (fun d3 i => propStep d3 i j k (i + 1) j k ⟨1, 0, 0⟩)
        ((intRange1 ((intRange d.sizeX).foldl
            (fun d2 i => propStep d2 i j k i (j - 1) k ⟨0, 1, 0⟩) d).sizeX).foldl
          (fun d3 i => propStep d3 i j k (i - 1) j k ⟨1, 0, 0⟩)
          ((intRange d.sizeX).foldl
            (fun d2 i => propStep d2 i j k i (j - 1) k ⟨0, 1, 0⟩) d)) := rfl
  rw [hrw]
  exact ⟨c1, c2, fun p q r hpq =>
    ((c3 p q r hpq).trans (b3 p q r hpq)).trans (a3 p q r hpq), c4⟩

/-- `scanXLine` in the descending sweep: given the exact vector at
`(0,j,k)`, the whole row becomes exact and nothing outside the row
changes. -/
theorem scanXLine_desc (X Y Z : Int) (d : Volume DistVector) (j k : Int)
    (hg : DvGood X Y Z d) (hs : dvSound d) (hX : 1 ≤ X)
    (hj0 : 0 ≤ j) (hjY : j + 1 < Y) (hk0 : 0 ≤ k) (hkZ : k < Z)
    (hstart : dvExact d 0 j k) :
    DvGood X Y Z (scanXLine d j k .DESC) ∧ dvSound (scanXLine d j k .DESC)
    ∧ (∀ p q r, ¬(q = j ∧ r = k) →
        (scanXLine d j k .DESC).get p q r = d.get p q r)
    ∧ (∀ i, 0 ≤ i → i < X → dvExact (scanXLine d j k .DESC) i j k) := by
  obtain ⟨a1, a2, a3, a4⟩ := yprop_desc X Y Z d j k hg hs hX hj0 hjY hk0 hkZ
    hstart
  obtain ⟨b1, b2, b3, b4⟩ := xasc_fold X Y Z _ j k a1 a2 hX hj0 (by omega)
    hk0 hkZ a4
  obtain ⟨c1, c2, c3, c4⟩ := xdesc_fold X Y Z _ j k b1 b2 hj0 (by omega)
    hk0 hkZ b4
  have hrw : scanXLine d j k .DESC
      = (intRangeDesc (((intRange1 ((intRange d.sizeX).foldl
            (fun d2 i => propStep d2 i j k i (j + 1) k ⟨0, 1, 0⟩) d).sizeX).foldl
          (fun d3 i => propStep d3 i j k (i - 1) j k ⟨1, 0, 0⟩)
          ((intRange d.sizeX).foldl
            (fun d2 i => propStep d2 i j k i (j + 1) k ⟨0, 1, 0⟩) d)).sizeX
            - 2)).foldl
        (fun d3 i => propStep d3 i j k (i + 1) j k ⟨1, 0, 0⟩)
        ((intRange1 ((intRange d.sizeX).foldl
            (fun d2 i => propStep d2 i j k i (j + 1) k ⟨0, 1, 0⟩) d).sizeX).foldl
          (fun d3 i => propStep d3 i j k (i - 1) j k ⟨1, 0, 0⟩)
          ((intRange d.sizeX).foldl
            (fun d2 i => propStep d2 i j k i (j + 1) k ⟨0, 1, 0⟩) d)) := rfl
  rw [hrw]
  exact ⟨c1, c2, fun p q r hpq =>
    ((c3 p q r hpq).trans (b3 p q r hpq)).trans (a3 p q r hpq), c4⟩

/-- The z-propagation stage of `scanXYPlane` in the ascending direction:
creates the exact vector at `(0,0,k)` from plane `k-1` and touches only
plane `k`. -/
theorem zprop_asc (X Y Z : Int) (d : Volume DistVector) (k : Int)
    (hg : DvGood X Y Z d) (hs : dvSound d) (hX : 1 ≤ X) (hY : 1 ≤ Y)
    (hk1 : 1 ≤ k) (hkZ : k < Z) (hprev : dvExact d 0 0 (k - 1)) :
    DvGood X Y Z ((intRange d.sizeX).foldl (fun da i =>
        (intRange da.sizeY).foldl
          (fun db j => propStep db i j k i j (k - 1) ⟨0, 0, 1⟩) da) d)
    ∧ dvSound ((intRange d.sizeX).foldl (fun da i =>
        (intRange da.sizeY).foldl
          (fun db j => propStep db i j k i j (k - 1) ⟨0, 0, 1⟩) da) d)
    ∧ (∀ p q r, r ≠ k →
        ((intRange d.sizeX).foldl (fun da i =>
          (intRange da.sizeY).foldl
            (fun db j => propStep db i j k i j (k - 1) ⟨0, 0, 1⟩) da) d).get
          p q r = d.get p q r)
    ∧ dvExact ((intRange d.sizeX).foldl (fun da i =>
        (intRange da.sizeY).foldl
          (fun db j => propStep db i j k i j (k - 1) ⟨0, 0, 1⟩) da) d)
        0 0 k := by
  rw [show d.sizeX = X from hg.2.1, intRange, List.foldl_map]
  have key := foldl_range_inv X.toNat
    (fun da t => (intRange da.sizeY).foldl
      (fun db j => propStep db (t : Int) j k (t : Int) j (k - 1) ⟨0, 0, 1⟩) da)
    (fun t da => DvGood X Y Z da ∧ dvSound da
      ∧ (∀ p q r, r ≠ k → da.get p q r = d.get p q r)
      ∧ (1 ≤ t → dvExact da 0 0 k))
    (fun t da ht hq => by
      obtain ⟨g1, g2, g3, g4⟩ := hq
      simp only []
      rw [show da.sizeY = Y from g1.2.2.1, intRange, List.foldl_map]
      have inner := foldl_range_inv Y.toNat
        (fun db s => propStep db (t : Int) (s : Int) k (t : Int) (s : Int)
          (k - 1) ⟨0, 0, 1⟩)
        (fun s db => DvGood X Y Z db ∧ dvSound db
          ∧ (∀ p q r, r ≠ k → db.get p q r = d.get p q r)
          ∧ ((1 ≤ t ∨ 1 ≤ s) → dvExact db 0 0 k))
        (fun s db hst hq2 => by
          obtain ⟨f1, f2, f3, f4⟩ := hq2
          have hm := propStep_master X Y Z db (t : Int) (s : Int) k
            (t : Int) (s : Int) (k - 1) ⟨0, 0, 1⟩ f1 f2
            ⟨by omega, by omega, by omega, by omega, by omega, hkZ⟩
            ⟨by omega, by omega, by omega, by omega, by omega, by omega⟩
            ⟨by simp, by simp, by push_cast; ring_nf; exact le_refl _⟩
          refine ⟨hm.1, hm.2.1, ?_, ?_⟩
          · intro p q r hr
            exact (hm.2.2.1 p q r (fun hc => hr (by
              rw [hc.2.2]))).trans (f3 p q r hr)
          · intro h1
            by_cases hts : t = 0 ∧ s = 0
            · obtain ⟨ht0, hs0⟩ := hts
              subst ht0
              subst hs0
              apply hm.2.2.2.2 (by push_cast; ring) (by push_cast; ring)
                (by push_cast; ring)
              exact (f3 0 0 (k - 1) (by omega)).trans hprev
            · have hex := f4 (by omega)
              show _ = _
              rw [hm.2.2.1 0 0 k (fun hc => hts ⟨by omega, by omega⟩)]
              exact hex)
        da ⟨g1, g2, g3, fun hd => g4 (by omega)⟩
      exact ⟨inner.1, inner.2.1, inner.2.2.1,
        fun _ => inner.2.2.2 (by omega)⟩)
    d ⟨hg, hs, fun p q r _ => rfl, by omega⟩
  exact ⟨key.1, key.2.1, key.2.2.1, key.2.2.2 (by omega)⟩

/-- The z-propagation stage of `scanXYPlane` in the descending direction:
preserves the exact vector at `(0,0,k)` and touches only plane `k`. -/
theorem zprop_desc (X Y Z : Int) (d : Volume DistVector) (k : Int)
    (hg : DvGood X Y Z d) (hs : dvSound d) (hX : 1 ≤ X) (hY : 1 ≤ Y)
    (hk0 : 0 ≤ k) (hkZ : k + 1 < Z) (hprev : dvExact d 0 0 k) :
    DvGood X Y Z ((intRange d.sizeX).foldl (fun da i =>
        (intRange da.sizeY).foldl
          (fun db j => propStep db i j k i j (k + 1) ⟨0, 0, 1⟩) da) d)
    ∧ dvSound ((intRange d.sizeX).foldl (fun da i =>
        (intRange da.sizeY).foldl
          (fun db j => propStep db i j k i j (k + 1) ⟨0, 0, 1⟩) da) d)
    ∧ (∀ p q r, r ≠ k →
        ((intRange d.sizeX).foldl (fun da i =>
          (intRange da.sizeY).foldl
            (fun db j => propStep db i j k i j (k + 1) ⟨0, 0, 1⟩) da) d).get
          p q r = d.get p q r)
    ∧ dvExact ((intRange d.sizeX).foldl (fun da i =>
        (intRange da.sizeY).foldl
          (fun db j => propStep db i j k i j (k + 1) ⟨0, 0, 1⟩) da) d)
        0 0 k := by
  rw [show d.sizeX = X from hg.2.1, intRange, List.foldl_map]
  have key := foldl_range_inv X.toNat
    (fun da t => (intRange da.sizeY).foldl
      (fun db j => propStep db (t : Int) j k (t : Int) j (k + 1) ⟨0, 0, 1⟩) da)
    (fun t da => DvGood X Y Z da ∧ dvSound da
      ∧ (∀ p q r, r ≠ k → da.get p q r = d.get p q r)
      ∧ dvExact da 0 0 k)
    (fun t da ht hq => by
      obtain ⟨g1, g2, g3, g4⟩ := hq
      simp only []
      rw [show da.sizeY = Y from g1.2.2.1, intRange, List.foldl_map]
      have inner := foldl_range_inv Y.toNat
        (fun db s => propStep db (t : Int) (s : Int) k (t : Int) (s : Int)
          (k + 1) ⟨0, 0, 1⟩)
        (fun s db => DvGood X Y Z db ∧ dvSound db
          ∧ (∀ p q r, r ≠ k → db.get p q r = d.get p q r)
          ∧ dvExact db 0 0 k)
        (fun s db hst hq2 => by
          obtain ⟨f1, f2, f3, f4⟩ := hq2
          have hm := propStep_master X Y Z db (t : Int) (s : Int) k
            (t : Int) (s : Int) (k + 1) ⟨0, 0, 1⟩ f1 f2
            ⟨by omega, by omega, by omega, by omega, hk0, by omega⟩
            ⟨by omega, by omega, by omega, by omega, by omega, hkZ⟩
            ⟨by simp, by simp, by push_cast; linarith⟩
          refine ⟨hm.1, hm.2.1, ?_, ?_⟩
          · intro p q r hr
            exact (hm.2.2.1 p q r (fun hc => hr (by
              rw [hc.2.2]))).trans (f3 p q r hr)
          · by_cases hts : t = 0 ∧ s = 0
            · obtain ⟨ht0, hs0⟩ := hts
              subst ht0
              subst hs0
              exact hm.2.2.2.1 f4
            · show _ = _
              rw [hm.2.2.1 0 0 k (fun hc => hts ⟨by omega, by omega⟩)]
              exact f4)
        da ⟨g1, g2, g3, g4⟩
      exact ⟨inner.1, inner.2.1, inner.2.2.1, inner.2.2.2⟩)
    d ⟨hg, hs, fun p q r _ => rfl, hprev⟩
  exact ⟨key.1, key.2.1, key.2.2.1, key.2.2.2⟩

/-- The ascending `scanXLine` sweep of `scanXYPlane`: rows `1..Y-1` of
plane `k` become exact. -/
theorem jsweep_asc (X Y Z : Int) (d : Volume DistVector) (k : Int)
    (hg : DvGood X Y Z d) (hs : dvSound d) (hX : 1 ≤ X)
    (hk0 : 0 ≤ k) (hkZ : k < Z) (h00 : dvExact d 0 0 k) :
    DvGood X Y Z ((intRange1 d.sizeY).foldl
        (fun da j => scanXLine da j k .ASC) d)
    ∧ dvSound ((intRange1 d.sizeY).foldl
        (fun da j => scanXLine da j k .ASC) d)
    ∧ (∀ p q r, r ≠ k → ((intRange1 d.sizeY).foldl
        (fun da j => scanXLine da j k .ASC) d).get p q r = d.get p q r)
    ∧ dvExact ((intRange1 d.sizeY).foldl
        (fun da j => scanXLine da j k .ASC) d) 0 0 k
    ∧ (∀ j i, 1 ≤ j → j < Y → 0 ≤ i → i < X →
        dvExact ((intRange1 d.sizeY).foldl
          (fun da j => scanXLine da j k .ASC) d) i j k) := by
  rw [show d.sizeY = Y from hg.2.2.1, intRange1, List.foldl_map]
  have key := foldl_range_inv (Y - 1).toNat
    (fun da t => scanXLine da ((t : Int) + 1) k .ASC)
    (fun t da => DvGood X Y Z da ∧ dvSound da
      ∧ (∀ p q r, r ≠ k → da.get p q r = d.get p q r)
      ∧ dvExact da 0 0 k
      ∧ (∀ j i, 1 ≤ j → j ≤ (t : Int) → 0 ≤ i → i < X → dvExact da i j k))
    (fun t da ht hq => by
      obtain ⟨g1, g2, g3, g4, g5⟩ := hq
      simp only []
      have hrow := scanXLine_asc X Y Z da ((t : Int) + 1) k g1 g2 hX
        (by omega) (by omega) hk0 hkZ (by
          by_cases ht0 : t = 0
          · subst ht0
            show da.get _ _ _ = _
            have e : ((0 : Nat) : Int) + 1 - 1 = 0 := by norm_num
            rw [e]
            exact g4
          · have h5 := g5 ((t : Int) + 1 - 1) 0 (by omega) (by omega)
              (by omega) (by omega)
            exact h5)
      obtain ⟨r1, r2, r3, r4⟩ := hrow
      refine ⟨r1, r2, ?_, ?_, ?_⟩
      · intro p q r hr
        exact (r3 p q r (fun hc => hr hc.2)).trans (g3 p q r hr)
      · show _ = _
        rw [r3 0 0 k (fun hc => by omega)]
        exact g4
      · intro j i hj1 hjt hi0 hiX
        by_cases hje : j = (t : Int) + 1
        · subst hje
          exact r4 i hi0 hiX
        · show _ = _
          rw [r3 i j k (fun hc => hje hc.1)]
          exact g5 j i hj1 (by omega) hi0 hiX)
    d ⟨hg, hs, fun p q r _ => rfl, h00, fun j i hj1 hjt hi0 hiX => by omega⟩
  exact ⟨key.1, key.2.1, key.2.2.1, key.2.2.2.1,
    fun j i hj1 hjY hi0 hiX => key.2.2.2.2 j i hj1 (by omega) hi0 hiX⟩

/-- The descending `scanXLine` sweep of `scanXYPlane`: row `0` becomes
exact as well, and the whole plane `k` is exact. -/
theorem jsweep_desc (X Y Z : Int) (d : Volume DistVector) (k : Int)
    (hg : DvGood X Y Z d) (hs : dvSound d) (hX : 1 ≤ X) (hY : 2 ≤ Y)
    (hk0 : 0 ≤ k) (hkZ : k < Z) (h00 : dvExact d 0 0 k)
    (hrows : ∀ j i, 1 ≤ j → j < Y → 0 ≤ i → i < X → dvExact d i j k) :
    DvGood X Y Z ((intRangeDesc (d.sizeY - 2)).foldl
        (fun da j => scanXLine da j k .DESC) d)
    ∧ dvSound ((intRangeDesc (d.sizeY - 2)).foldl
        (fun da j => scanXLine da j k .DESC) d)
    ∧ (∀ p q r, r ≠ k → ((intRangeDesc (d.sizeY - 2)).foldl
        (fun da j => scanXLine da j k .DESC) d).get p q r = d.get p q r)
    ∧ (∀ i j, 0 ≤ i → i < X → 0 ≤ j → j < Y →
        dvExact ((intRangeDesc (d.sizeY - 2)).foldl
          (fun da j => scanXLine da j k .DESC) d) i j k) := by
  rw [show d.sizeY = Y from hg.2.2.1, intRangeDesc, List.foldl_map]
  have key := foldl_range_inv (Y - 2 + 1).toNat
    (fun da t => scanXLine da (Y - 2 - (t : Int)) k .DESC)
    (fun t da => DvGood X Y Z da ∧ dvSound da
      ∧ (∀ p q r, r ≠ k → da.get p q r = d.get p q r)
      ∧ dvExact da 0 0 k
      ∧ (∀ j i, 1 ≤ j → j < Y → 0 ≤ i → i < X → dvExact da i j k)
      ∧ (∀ j i, Y - 2 - (t : Int) < j → 0 ≤ j → j < Y → 0 ≤ i → i < X →
          dvExact da i j k))
    (fun t da ht hq => by
      obtain ⟨g1, g2, g3, g4, g5, g6⟩ := hq
      simp only []
      have hrow := scanXLine_desc X Y Z da (Y - 2 - (t : Int)) k g1 g2 hX
        (by omega) (by omega) hk0 hkZ (by
          by_cases hj0 : Y - 2 - (t : Int) = 0
          · rw [hj0]
            exact g4
          · exact g5 (Y - 2 - (t : Int)) 0 (by omega) (by omega) (by omega)
              (by omega))
      obtain ⟨r1, r2, r3, r4⟩ := hrow
      refine ⟨r1, r2, ?_, ?_, ?_, ?_⟩
      · intro p q r hr
        exact (r3 p q r (fun hc => hr hc.2)).trans (g3 p q r hr)
      · by_cases hj0 : Y - 2 - (t : Int) = 0
        · have h4 := r4 0 (by omega) (by omega)
          nth_rewrite 2 [hj0] at h4
          exact h4
        · show _ = _
          rw [r3 0 0 k (fun hc => hj0 hc.1.symm)]
          exact g4
      · intro j i hj1 hjY hi0 hiX
        by_cases hje : j = Y - 2 - (t : Int)
        · subst hje
          exact r4 i hi0 hiX
        · show _ = _
          rw [r3 i j k (fun hc => hje hc.1)]
          exact g5 j i hj1 hjY hi0 hiX
      · intro j i hjt hj0 hjY hi0 hiX
        by_cases hje : j = Y - 2 - (t : Int)
        · subst hje
          exact r4 i hi0 hiX
        · show _ = _
          rw [r3 i j k (fun hc => hje hc.1)]
          exact g6 j i (by push_cast; omega) hj0 hjY hi0 hiX)
    d ⟨hg, hs, fun p q r _ => rfl, h00, hrows,
      fun j i hjt hj0 hjY hi0 hiX => hrows j i (by omega) hjY hi0 hiX⟩
  refine ⟨key.1, key.2.1, key.2.2.1, ?_⟩
  intro i j hi0 hiX hj0 hjY
  exact key.2.2.2.2.2 j i (by push_cast; omega) hj0 hjY hi0 hiX

/-- `scanXYPlane` ascending: if `(0,0,k-1)` is exact, plane `k` becomes
entirely exact and no other plane changes. -/
theorem scanXYPlane_asc (X Y Z : Int) (d : Volume DistVector) (k : Int)
    (hg : DvGood X Y Z d) (hs : dvSound d) (hX : 1 ≤ X) (hY : 2 ≤ Y)
    (hk1 : 1 ≤ k) (hkZ : k < Z) (hprev : dvExact d 0 0 (k - 1)) :
    DvGood X Y Z (scanXYPlane d k .ASC) ∧ dvSound (scanXYPlane d k .ASC)
    ∧ (∀ p q r, r ≠ k → (scanXYPlane d k .ASC).get p q r = d.get p q r)
    ∧ (∀ i j, 0 ≤ i → i < X → 0 ≤ j → j < Y →
        dvExact (scanXYPlane d k .ASC) i j k) := by
  obtain ⟨a1, a2, a3, a4⟩ := zprop_asc X Y Z d k hg hs hX (by omega) hk1 hkZ
    hprev
  obtain ⟨b1, b2, b3, b4, b5⟩ := jsweep_asc X Y Z _ k a1 a2 hX (by omega)
    hkZ a4
  obtain ⟨c1, c2, c3, c4⟩ := jsweep_desc X Y Z _ k b1 b2 hX hY (by omega)
    hkZ b4 b5
  exact ⟨c1, c2, fun p q r hr =>
    ((c3 p q r hr).trans (b3 p q r hr)).trans (a3 p q r hr), c4⟩

/-- `scanXYPlane` descending: if `(0,0,k)` is exact, plane `k` becomes
entirely exact and no other plane changes. -/
theorem scanXYPlane_desc (X Y Z : Int) (d : Volume DistVector) (k : Int)
    (hg : DvGood X Y Z d) (hs : dvSound d) (hX : 1 ≤ X) (hY : 2 ≤ Y)
    (hk0 : 0 ≤ k) (hkZ : k + 1 < Z) (hprev : dvExact d 0 0 k) :
    DvGood X Y Z (scanXYPlane d k .DESC) ∧ dvSound (scanXYPlane d k .DESC)
    ∧ (∀ p q r, r ≠ k → (scanXYPlane d k .DESC).get p q r = d.get p q r)
    ∧ (∀ i j, 0 ≤ i → i < X → 0 ≤ j → j < Y →
        dvExact (scanXYPlane d k .DESC) i j k) := by
  obtain ⟨a1, a2, a3, a4⟩ := zprop_desc X Y Z d k hg hs hX (by omega) hk0 hkZ
    hprev
  obtain ⟨b1, b2, b3, b4, b5⟩ := jsweep_asc X Y Z _ k a1 a2 hX hk0
    (by omega) a4
  obtain ⟨c1, c2, c3, c4⟩ := jsweep_desc X Y Z _ k b1 b2 hX hY hk0
    (by omega) b4 b5
  exact ⟨c1, c2, fun p q r hr =>
    ((c3 p q r hr).trans (b3 p q r hr)).trans (a3 p q r hr), c4⟩

/-- Properties of the seeded vector field for a bitfield with a single
feature at the grid origin: well-formed with the base sizes, componentwise
sound, exactly zero at the origin and the infinity vector everywhere
else. -/
theorem dvFieldInit_props (bf : GeoVolume (Volume Bool)) (initValue : ℚ)
    (hX : 1 ≤ baseSizeX bf) (hY : 1 ≤ baseSizeY bf) (hZ : 1 ≤ baseSizeZ bf)
    (hlarge : ((baseSizeX bf + baseSizeY bf + baseSizeZ bf : Int) : ℚ)
      ≤ initValue / bf.voxelSize)
    (horig : GeoVolume.get (α := Bool) bf 0 0 0 = true)
    (hrest : ∀ i j k : Int, ¬(i = 0 ∧ j = 0 ∧ k = 0) →
      GeoVolume.get (α := Bool) bf i j k = false) :
    DvGood (baseSizeX bf) (baseSizeY bf) (baseSizeZ bf)
      (dvFieldInit bf initValue)
    ∧ dvSound (dvFieldInit bf initValue)
    ∧ dvExact (dvFieldInit bf initValue) 0 0 0
    ∧ (∀ p q r : Int, ¬(p = 0 ∧ q = 0 ∧ r = 0) →
        (dvFieldInit bf initValue).get p q r
          = ⟨initValue / bf.voxelSize, initValue / bf.voxelSize,
              initValue / bf.voxelSize⟩) := by
  have hIQ : ∀ W : Int, W < baseSizeX bf + baseSizeY bf + baseSizeZ bf →
      (W : ℚ) ≤ initValue / bf.voxelSize := by
    intro W hW
    calc (W : ℚ) ≤ ((baseSizeX bf + baseSizeY bf + baseSizeZ bf - 1 : Int) : ℚ)
        := by exact_mod_cast (by omega : W ≤ _)
      _ ≤ ((baseSizeX bf + baseSizeY bf + baseSizeZ bf : Int) : ℚ) - 1 := by
          push_cast
          linarith
      _ ≤ initValue / bf.voxelSize := by linarith
  have key := foldl_range_inv (baseSizeX bf).toNat
    (fun da t => (intRange (baseSizeY bf)).foldl (fun db j =>
      (intRange (baseSizeZ bf)).foldl (fun dc k =>
        if GeoVolume.get (α := Bool) bf (t : Int) j k = true then
          dc.set (t : Int) j k ⟨0, 0, 0⟩
        else dc) db) da)
    (fun t da => DvGood (baseSizeX bf) (baseSizeY bf) (baseSizeZ bf) da
      ∧ (∀ p q r : Int, ¬(p = 0 ∧ q = 0 ∧ r = 0) → da.get p q r
          = ⟨initValue / bf.voxelSize, initValue / bf.voxelSize,
              initValue / bf.voxelSize⟩)
      ∧ (1 ≤ t → da.get 0 0 0 = ⟨0, 0, 0⟩)
      ∧ (t = 0 → da.get 0 0 0 = ⟨initValue / bf.voxelSize,
          initValue / bf.voxelSize, initValue / bf.voxelSize⟩))
    (fun t da ht hq => by
      obtain ⟨g1, g2, g3, g4⟩ := hq
      simp only []
      rw [show intRange (baseSizeY bf) = (List.range (baseSizeY bf).toNat).map
        (fun t : Nat => (t : Int)) from rfl, List.foldl_map]
      have inner := foldl_range_inv (baseSizeY bf).toNat
        (fun db s => (intRange (baseSizeZ bf)).foldl (fun dc k =>
          if GeoVolume.get (α := Bool) bf (t : Int) (s : Int) k = true then
            dc.set (t : Int) (s : Int) k ⟨0, 0, 0⟩
          else dc) db)
        (fun s db => DvGood (baseSizeX bf) (baseSizeY bf) (baseSizeZ bf) db
          ∧ (∀ p q r : Int, ¬(p = 0 ∧ q = 0 ∧ r = 0) → db.get p q r
              = ⟨initValue / bf.voxelSize, initValue / bf.voxelSize,
                  initValue / bf.voxelSize⟩)
          ∧ ((1 ≤ t ∨ 1 ≤ s) → db.get 0 0 0 = ⟨0, 0, 0⟩)
          ∧ ((t = 0 ∧ s = 0) → db.get 0 0 0 = ⟨initValue / bf.voxelSize,
              initValue / bf.voxelSize, initValue / bf.voxelSize⟩))
        (fun s db hst hq2 => by
          obtain ⟨f1, f2, f3, f4⟩ := hq2
          simp only []
          rw [show intRange (baseSizeZ bf) = (List.range (baseSizeZ bf).toNat).map
            (fun t : Nat => (t : Int)) from rfl, List.foldl_map]
          have innermost := foldl_range_inv (baseSizeZ bf).toNat
            (fun dc w => if GeoVolume.get (α := Bool) bf (t : Int) (s : Int)
                (w : Int) = true then
                dc.set (t : Int) (s : Int) (w : Int) ⟨0, 0, 0⟩
              else dc)
            (fun w dc => DvGood (baseSizeX bf) (baseSizeY bf) (baseSizeZ bf) dc
              ∧ (∀ p q r : Int, ¬(p = 0 ∧ q = 0 ∧ r = 0) → dc.get p q r
                  = ⟨initValue / bf.voxelSize, initValue / bf.voxelSize,
                      initValue / bf.voxelSize⟩)
              ∧ ((1 ≤ t ∨ 1 ≤ s ∨ 1 ≤ w) → dc.get 0 0 0 = ⟨0, 0, 0⟩)
              ∧ ((t = 0 ∧ s = 0 ∧ w = 0) → dc.get 0 0 0
                  = ⟨initValue / bf.voxelSize, initValue / bf.voxelSize,
                      initValue / bf.voxelSize⟩))
            (fun w dc hwt hq3 => by
              obtain ⟨e1, e2, e3, e4⟩ := hq3
              simp only []
              by_cases horg : t = 0 ∧ s = 0 ∧ w = 0
              · obtain ⟨ht0, hs0, hw0⟩ := horg
                subst ht0
                subst hs0
                subst hw0
                rw [if_pos (by
                  show GeoVolume.get (α := Bool) bf ((0 : Nat) : Int)
                    ((0 : Nat) : Int) ((0 : Nat) : Int) = true
                  simp only [Nat.cast_zero]
                  exact horig)]
                have hgs : ∀ p q r : Int,
                    (dc.set ((0 : Nat) : Int) ((0 : Nat) : Int)
                      ((0 : Nat) : Int) ⟨0, 0, 0⟩).get p q r
                    = if (0 ≤ ((0 : Nat) : Int)
                          ∧ ((0 : Nat) : Int) < dc.sizeX
                          ∧ 0 ≤ ((0 : Nat) : Int)
                          ∧ ((0 : Nat) : Int) < dc.sizeY
                          ∧ 0 ≤ ((0 : Nat) : Int)
                          ∧ ((0 : Nat) : Int) < dc.sizeZ)
                        ∧ p = ((0 : Nat) : Int) ∧ q = ((0 : Nat) : Int)
                        ∧ r = ((0 : Nat) : Int)
                      then ⟨0, 0, 0⟩ else dc.get p q r :=
                  fun p q r => Volume.get_set_eq dc e1.1 _ _ _ p q r _
                have hin : 0 ≤ ((0 : Nat) : Int)
                    ∧ ((0 : Nat) : Int) < dc.sizeX
                    ∧ 0 ≤ ((0 : Nat) : Int) ∧ ((0 : Nat) : Int) < dc.sizeY
                    ∧ 0 ≤ ((0 : Nat) : Int)
                    ∧ ((0 : Nat) : Int) < dc.sizeZ := by
                  rw [e1.2.1, e1.2.2.1, e1.2.2.2]
                  simp only [Nat.cast_zero]
                  omega
                refine ⟨⟨Volume.WF_set dc e1.1 _ _ _ _,
                  (Volume.set_sizeX dc _ _ _ _).trans e1.2.1,
                  (Volume.set_sizeY dc _ _ _ _).trans e1.2.2.1,
                  (Volume.set_sizeZ dc _ _ _ _).trans e1.2.2.2⟩, ?_, ?_, ?_⟩
                · intro p q r hne
                  rw [hgs p q r, if_neg (fun hc => hne (by
                    obtain ⟨-, hp, hq', hr⟩ := hc
                    simp only [Nat.cast_zero] at hp hq' hr
                    exact ⟨hp, hq', hr⟩))]
                  exact e2 p q r hne
                · intro h1
                  rw [hgs 0 0 0, if_pos ⟨hin, by simp, by simp, by simp⟩]
                · intro hzero
                  omega
              · rw [if_neg (by
                  rw [hrest (t : Int) (s : Int) (w : Int) (by
                    intro hc
                    exact horg ⟨by omega, by omega, by omega⟩)]
                  simp)]
                refine ⟨e1, e2, ?_, fun hc => absurd hc.2.2 (by omega)⟩
                intro hc
                exact e3 (by omega))
            db ⟨f1, f2, fun hc => f3 (by omega), fun hc => f4 ⟨hc.1, hc.2.1⟩⟩
          exact ⟨innermost.1, innermost.2.1,
            fun hc => innermost.2.2.1 (by omega),
            fun hc => absurd hc.2 (by omega)⟩)
        da ⟨g1, g2, fun hc => g3 (by omega), fun hc => g4 hc.1⟩
      exact ⟨inner.1, inner.2.1, fun _ => inner.2.2.1 (by omega),
        fun hc => absurd hc (by omega)⟩)
    (Volume.make DistVector (baseSizeX bf) (baseSizeY bf) (baseSizeZ bf)
      ⟨initValue / bf.voxelSize, initValue / bf.voxelSize,
        initValue / bf.voxelSize⟩)
    ⟨⟨Volume.make_WF _ _ _ _, rfl, rfl, rfl⟩,
      fun p q r _ => Volume.make_get _ _ _ _ p q r,
      by omega, fun _ => Volume.make_get _ _ _ _ 0 0 0⟩
  have hfin : DvGood (baseSizeX bf) (baseSizeY bf) (baseSizeZ bf)
        (dvFieldInit bf initValue)
      ∧ (∀ p q r : Int, ¬(p = 0 ∧ q = 0 ∧ r = 0) →
          (dvFieldInit bf initValue).get p q r
            = ⟨initValue / bf.voxelSize, initValue / bf.voxelSize,
                initValue / bf.voxelSize⟩)
      ∧ (dvFieldInit bf initValue).get 0 0 0 = ⟨0, 0, 0⟩ := by
    have hrw : dvFieldInit bf initValue
        = (List.range (baseSizeX bf).toNat).foldl
          (fun da (t : Nat) => (intRange (baseSizeY bf)).foldl (fun db j =>
            (intRange (baseSizeZ bf)).foldl (fun dc k =>
              if GeoVolume.get (α := Bool) bf (t : Int) j k = true then
                dc.set (t : Int) j k ⟨0, 0, 0⟩
              else dc) db) da)
          (Volume.make DistVector (baseSizeX bf) (baseSizeY bf)
            (baseSizeZ bf)
            ⟨initValue / bf.voxelSize, initValue / bf.voxelSize,
              initValue / bf.voxelSize⟩) := by
      simp only [dvFieldInit]
      rw [show intRange (baseSizeX bf) = (List.range (baseSizeX bf).toNat).map
        (fun t : Nat => (t : Int)) from rfl, List.foldl_map]
    rw [hrw]
    exact ⟨key.1, key.2.1, key.2.2.1 (by omega)⟩
  refine ⟨hfin.1, ?_, ?_, hfin.2.1⟩
  · intro i j k hi0 hiX hj0 hjY hk0 hkZ
    rw [hfin.1.2.1] at hiX
    rw [hfin.1.2.2.1] at hjY
    rw [hfin.1.2.2.2] at hkZ
    by_cases ho : i = 0 ∧ j = 0 ∧ k = 0
    · obtain ⟨rfl, rfl, rfl⟩ := ho
      rw [hfin.2.2]
      simp
    · rw [hfin.2.1 i j k ho]
      exact ⟨hIQ i (by omega), hIQ j (by omega), hIQ k (by omega)⟩
  · show _ = _
    rw [hfin.2.2]
    simp

/-- After the full z-ascending and z-descending scans, every in-range voxel
of the vector field holds the exact offset from the origin. -/
theorem dvFieldScanned_exact (bf : GeoVolume (Volume Bool)) (initValue : ℚ)
    (hX : 1 ≤ baseSizeX bf) (hY : 2 ≤ baseSizeY bf) (hZ : 2 ≤ baseSizeZ bf)
    (hlarge : ((baseSizeX bf + baseSizeY bf + baseSizeZ bf : Int) : ℚ)
      ≤ initValue / bf.voxelSize)
    (horig : GeoVolume.get (α := Bool) bf 0 0 0 = true)
    (hrest : ∀ i j k : Int, ¬(i = 0 ∧ j = 0 ∧ k = 0) →
      GeoVolume.get (α := Bool) bf i j k = false) :
    ∀ i j k : Int, 0 ≤ i → i < baseSizeX bf → 0 ≤ j → j < baseSizeY bf →
      0 ≤ k → k < baseSizeZ bf →
      dvExact (dvFieldScanned bf initValue) i j k := by
  obtain ⟨s1, s2, s3, s4⟩ := dvFieldInit_props bf initValue hX (by omega)
    (by omega) hlarge horig hrest
  have hasc := foldl_range_inv (baseSizeZ bf - 1).toNat
    (fun da t => scanXYPlane da ((t : Int) + 1) .ASC)
    (fun t da => DvGood (baseSizeX bf) (baseSizeY bf) (baseSizeZ bf) da
      ∧ dvSound da ∧ dvExact da 0 0 0
      ∧ (∀ w i j, 1 ≤ w → w ≤ (t : Int) → 0 ≤ i → i < baseSizeX bf →
          0 ≤ j → j < baseSizeY bf → dvExact da i j w))
    (fun t da ht hq => by
      obtain ⟨g1, g2, g3, g4⟩ := hq
      simp only []
      have hp := scanXYPlane_asc (baseSizeX bf) (baseSizeY bf) (baseSizeZ bf)
        da ((t : Int) + 1) g1 g2 (by omega) hY (by omega) (by omega) (by
          by_cases ht0 : t = 0
          · subst ht0
            have e : ((0 : Nat) : Int) + 1 - 1 = 0 := by norm_num
            rw [e]
            exact g3
          · have := g4 ((t : Int) + 1 - 1) 0 0 (by omega) (by omega)
              (by omega) (by omega) (by omega) (by omega)
            exact this)
      obtain ⟨r1, r2, r3, r4⟩ := hp
      refine ⟨r1, r2, ?_, ?_⟩
      · show _ = _
        rw [r3 0 0 0 (by omega)]
        exact g3
      · intro w i j hw1 hwt hi0 hiX hj0 hjY
        by_cases hwe : w = (t : Int) + 1
        · subst hwe
          exact r4 i j hi0 hiX hj0 hjY
        · show _ = _
          rw [r3 i j w hwe]
          exact g4 w i j hw1 (by omega) hi0 hiX hj0 hjY)
    (dvFieldInit bf initValue) ⟨s1, s2, s3, by omega⟩
  have hdesc := foldl_range_inv (baseSizeZ bf - 2 + 1).toNat
    (fun da t => scanXYPlane da (baseSizeZ bf - 2 - (t : Int)) .DESC)
    (fun t da => DvGood (baseSizeX bf) (baseSizeY bf) (baseSizeZ bf) da
      ∧ dvSound da ∧ dvExact da 0 0 0
      ∧ (∀ w i j, 1 ≤ w → w < baseSizeZ bf → 0 ≤ i → i < baseSizeX bf →
          0 ≤ j → j < baseSizeY bf → dvExact da i j w)
      ∧ (∀ w i j, baseSizeZ bf - 2 - (t : Int) < w → 0 ≤ w →
          w < baseSizeZ bf → 0 ≤ i → i < baseSizeX bf → 0 ≤ j →
          j < baseSizeY bf → dvExact da i j w))
    (fun t da ht hq => by
      obtain ⟨g1, g2, g3, g4, g5⟩ := hq
      simp only []
      have hp := scanXYPlane_desc (baseSizeX bf) (baseSizeY bf)
        (baseSizeZ bf) da (baseSizeZ bf - 2 - (t : Int)) g1 g2 (by omega) hY
        (by omega) (by omega) (by
          by_cases hk0 : baseSizeZ bf - 2 - (t : Int) = 0
          · rw [hk0]
            exact g3
          · exact g4 (baseSizeZ bf - 2 - (t : Int)) 0 0 (by omega) (by omega)
              (by omega) (by omega) (by omega) (by omega))
      obtain ⟨r1, r2, r3, r4⟩ := hp
      refine ⟨r1, r2, ?_, ?_, ?_⟩
      · by_cases hk0 : baseSizeZ bf - 2 - (t : Int) = 0
        · have h4 := r4 0 0 (by omega) (by omega) (by omega) (by omega)
          nth_rewrite 2 [hk0] at h4
          exact h4
        · show _ = _
          rw [r3 0 0 0 (fun hc => hk0 hc.symm)]
          exact g3
      · intro w i j hw1 hwZ hi0 hiX hj0 hjY
        by_cases hwe : w = baseSizeZ bf - 2 - (t : Int)
        · subst hwe
          exact r4 i j hi0 hiX hj0 hjY
        · show _ = _
          rw [r3 i j w hwe]
          exact g4 w i j hw1 hwZ hi0 hiX hj0 hjY
      · intro w i j hwt hw0 hwZ hi0 hiX hj0 hjY
        by_cases hwe : w = baseSizeZ bf - 2 - (t : Int)
        · subst hwe
          exact r4 i j hi0 hiX hj0 hjY
        · show _ = _
          rw [r3 i j w hwe]
          exact g5 w i j (by push_cast; omega) hw0 hwZ hi0 hiX hj0 hjY)
    _ ⟨hasc.1, hasc.2.1, hasc.2.2.1,
      (fun w i j hw1 hwZ hi0 hiX hj0 hjY =>
        hasc.2.2.2 w i j hw1 (by omega) hi0 hiX hj0 hjY),
      (fun w i j hwt hw0 hwZ hi0 hiX hj0 hjY =>
        hasc.2.2.2 w i j (by omega) (by omega) hi0 hiX hj0 hjY)⟩
  intro i j k hi0 hiX hj0 hjY hk0 hkZ
  have hrw : dvFieldScanned bf initValue
      = (List.range (baseSizeZ bf - 2 + 1).toNat).foldl
        (fun da (t : Nat) => scanXYPlane da (baseSizeZ bf - 2 - (t : Int)) .DESC)
        ((List.range (baseSizeZ bf - 1).toNat).foldl
          (fun da (t : Nat) => scanXYPlane da ((t : Int) + 1) .ASC)
          (dvFieldInit bf initValue)) := by
    simp only [dvFieldScanned]
    rw [show (dvFieldInit bf initValue).sizeZ = baseSizeZ bf from s1.2.2.2]
    rw [intRange1, List.foldl_map]
    rw [show ((List.range (baseSizeZ bf - 1).toNat).foldl
        (fun da (t : Nat) => scanXYPlane da ((t : Int) + 1) .ASC)
        (dvFieldInit bf initValue)).sizeZ = baseSizeZ bf from hasc.1.2.2.2]
    rw [intRangeDesc, List.foldl_map]
  rw [hrw]
  exact hdesc.2.2.2.2 k i j (by push_cast; omega) hk0 hkZ hi0 hiX hj0 hjY

/-- C7 (corrected): distance-transform exactness for a single feature at
the grid origin.  The spec's claim fails on degenerate grids — with
`sizeZ = 1` the two plane-scan loops never run, and with `sizeY = 1` the
x/y propagation inside `scanXYPlane` never runs — so the corrected
statement requires per-axis counts `sizeY ≥ 2` and `sizeZ ≥ 2`, and
"sufficiently large initValue" is made precise as
`sizeX+sizeY+sizeZ ≤ initValue/voxelSize`.  Under these hypotheses the map
stores exactly `voxelSize*sqrt(i²+j²+k²)` at every in-range voxel. -/
theorem C7_distance_transform_exact (bf : GeoVolume (Volume Bool))
    (initValue : ℚ) (hvs : 0 < bf.voxelSize)
    (hX : 1 ≤ baseSizeX bf) (hY : 2 ≤ baseSizeY bf) (hZ : 2 ≤ baseSizeZ bf)
    (hlarge : ((baseSizeX bf + baseSizeY bf + baseSizeZ bf : Int) : ℚ)
      ≤ initValue / bf.voxelSize)
    (horig : GeoVolume.get (α := Bool) bf 0 0 0 = true)
    (hrest : ∀ i j k : Int, ¬(i = 0 ∧ j = 0 ∧ k = 0) →
      GeoVolume.get (α := Bool) bf i j k = false) :
    ∀ i j k : Int, 0 ≤ i → i < baseSizeX bf → 0 ≤ j → j < baseSizeY bf →
      0 ≤ k → k < baseSizeZ bf →
      DistanceMap.storedDist bf initValue i j k
        = (bf.voxelSize : ℝ)
          * Real.sqrt ((i : ℝ) ^ 2 + (j : ℝ) ^ 2 + (k : ℝ) ^ 2) := by
  intro i j k hi0 hiX hj0 hjY hk0 hkZ
  have hex := dvFieldScanned_exact bf initValue hX hY hZ hlarge horig hrest
    i j k hi0 hiX hj0 hjY hk0 hkZ
  have hsqn : ((dvFieldScanned bf initValue).get i j k).sqn
      = (i : ℚ) * i + (j : ℚ) * j + (k : ℚ) * k := by
    rw [hex]
    rfl
  simp only [DistanceMap.storedDist]
  rw [hsqn]
  have harg : (((i : ℚ) * i + (j : ℚ) * j + (k : ℚ) * k : ℚ) : ℝ)
      = (i : ℝ) ^ 2 + (j : ℝ) ^ 2 + (k : ℝ) ^ 2 := by
    push_cast
    ring
  rw [harg]
  have hiR : (0 : ℝ) ≤ (i : ℝ) := by exact_mod_cast hi0
  have hjR : (0 : ℝ) ≤ (j : ℝ) := by exact_mod_cast hj0
  have hkR : (0 : ℝ) ≤ (k : ℝ) := by exact_mod_cast hk0
  have hvsR : (0 : ℝ) < (bf.voxelSize : ℝ) := by exact_mod_cast hvs
  have h1 : Real.sqrt ((i : ℝ) ^ 2 + (j : ℝ) ^ 2 + (k : ℝ) ^ 2)
      ≤ (i : ℝ) + (j : ℝ) + (k : ℝ) := by
    have hb : (i : ℝ) ^ 2 + (j : ℝ) ^ 2 + (k : ℝ) ^ 2
        ≤ ((i : ℝ) + (j : ℝ) + (k : ℝ)) ^ 2 := by
      nlinarith [mul_nonneg hiR hjR, mul_nonneg hiR hkR, mul_nonneg hjR hkR]
    calc Real.sqrt ((i : ℝ) ^ 2 + (j : ℝ) ^ 2 + (k : ℝ) ^ 2)
        ≤ Real.sqrt (((i : ℝ) + (j : ℝ) + (k : ℝ)) ^ 2) :=
          Real.sqrt_le_sqrt hb
      _ = (i : ℝ) + (j : ℝ) + (k : ℝ) :=
          Real.sqrt_sq (by positivity)
  have h2 : (i : ℝ) + (j : ℝ) + (k : ℝ)
      < (initValue : ℝ) / (bf.voxelSize : ℝ) := by
    have hc : ((baseSizeX bf + baseSizeY bf + baseSizeZ bf : Int) : ℝ)
        ≤ (initValue : ℝ) / (bf.voxelSize : ℝ) := by
      have := (Rat.cast_le (K := ℝ)).mpr hlarge
      rw [Rat.cast_div] at this
      exact_mod_cast this
    have hiB : (i : ℝ) ≤ ((baseSizeX bf : Int) : ℝ) - 1 := by
      have : i ≤ baseSizeX bf - 1 := by omega
      exact_mod_cast (by push_cast; exact_mod_cast this :
        (i : ℝ) ≤ ((baseSizeX bf - 1 : Int) : ℝ))
    have hjB : (j : ℝ) ≤ ((baseSizeY bf : Int) : ℝ) - 1 := by
      have : j ≤ baseSizeY bf - 1 := by omega
      exact_mod_cast (by push_cast; exact_mod_cast this :
        (j : ℝ) ≤ ((baseSizeY bf - 1 : Int) : ℝ))
    have hkB : (k : ℝ) ≤ ((baseSizeZ bf : Int) : ℝ) - 1 := by
      have : k ≤ baseSizeZ bf - 1 := by omega
      exact_mod_cast (by push_cast; exact_mod_cast this :
        (k : ℝ) ≤ ((baseSizeZ bf - 1 : Int) : ℝ))
    push_cast at hc
    linarith
  have hlt : (bf.voxelSize : ℝ)
      * Real.sqrt ((i : ℝ) ^ 2 + (j : ℝ) ^ 2 + (k : ℝ) ^ 2)
      < (initValue : ℝ) := by
    have := mul_lt_mul_of_pos_left (lt_of_le_of_lt h1 h2) hvsR
    rwa [mul_div_cancel₀ _ (ne_of_gt hvsR)] at this
  rw [if_pos hlt]

/-- A concrete 1×2×2 bitfield with its single set voxel at the grid
origin, used to instantiate the corrected C7. -/
def c7WitnessField : GeoVolume (Volume Bool) :=
  ⟨⟨Node.gray (fun oct => if oct = (0 : Fin 8) then Node.solid true
      else Node.solid false), 2, 1, 2, 2, false⟩,
    ⟨0, 0, 0⟩, ⟨1, 2, 2⟩, 1⟩

/-- A concrete 2×1×1 bitfield with its single set voxel at the grid
origin: the degenerate grid on which the original claim fails. -/
def c7CounterField : GeoVolume (Volume Bool) :=
  ⟨⟨Node.gray (fun oct => if oct = (0 : Fin 8) then Node.solid true
      else Node.solid false), 2, 2, 1, 1, false⟩,
    ⟨0, 0, 0⟩, ⟨2, 1, 1⟩, 1⟩

theorem C7_distance_transform_exact_witness :
    (0 : ℚ) < c7WitnessField.voxelSize
    ∧ DistanceMap.storedDist c7WitnessField 10 0 1 1
      = (c7WitnessField.voxelSize : ℝ)
        * Real.sqrt (((0 : Int) : ℝ) ^ 2 + ((1 : Int) : ℝ) ^ 2
            + ((1 : Int) : ℝ) ^ 2) := by
  have eX : baseSizeX c7WitnessField = 1 := by
    rw [baseSizeX]
    rw [show (c7WitnessField.upper.x - c7WitnessField.lower.x)
        / c7WitnessField.voxelSize = (1 : ℚ) from by
      norm_num [c7WitnessField]]
    exact Int.ceil_one
  have eY : baseSizeY c7WitnessField = 2 := by
    rw [baseSizeY]
    rw [show (c7WitnessField.upper.y - c7WitnessField.lower.y)
        / c7WitnessField.voxelSize = ((2 : Int) : ℚ) from by
      norm_num [c7WitnessField]]
    exact Int.ceil_intCast 2
  have eZ : baseSizeZ c7WitnessField = 2 := by
    rw [baseSizeZ]
    rw [show (c7WitnessField.upper.z - c7WitnessField.lower.z)
        / c7WitnessField.voxelSize = ((2 : Int) : ℚ) from by
      norm_num [c7WitnessField]]
    exact Int.ceil_intCast 2
  refine ⟨by norm_num [c7WitnessField], ?_⟩
  exact C7_distance_transform_exact c7WitnessField 10
    (by norm_num [c7WitnessField]) (by rw [eX]) (by rw [eY]) (by rw [eZ])
    (by rw [eX, eY, eZ]; norm_num [c7WitnessField])
    (by decide)
    (fun i j k hne => by
      show Volume.get c7WitnessField.container i j k = false
      rw [Volume.get]
      split
      · rfl
      · rename_i hin
        push_neg at hin
        obtain ⟨h1, h2, h3, h4, h5, h6⟩ := hin
        simp only [c7WitnessField] at h2 h4 h6
        interval_cases i <;> interval_cases j <;> interval_cases k <;>
          first
          | decide
          | exact absurd ⟨rfl, rfl, rfl⟩ hne)
    0 1 1 (by omega) (by rw [eX]; omega) (by omega) (by rw [eY]; omega)
    (by omega) (by rw [eZ]; omega)

/-- C7 counterexample to the original claim: on a 2×1×1 single-feature
bitfield no scan ever runs (`sizeZ = 1` empties both z loops), so the
voxel `(1,0,0)` keeps the infinity vector, the guarded write never fires,
and the map stores `initValue = 10` there instead of
`voxelSize*sqrt(1) = 1`, far outside any floating tolerance. -/
theorem C7_distance_transform_exact_counterexample :
    DistanceMap.storedDist c7CounterField 10 1 0 0 = (10 : ℝ)
    ∧ DistanceMap.storedDist c7CounterField 10 1 0 0
      ≠ (c7CounterField.voxelSize : ℝ)
        * Real.sqrt (((1 : Int) : ℝ) ^ 2 + ((0 : Int) : ℝ) ^ 2
            + ((0 : Int) : ℝ) ^ 2) := by
  have eX : baseSizeX c7CounterField = 2 := by
    rw [baseSizeX]
    rw [show (c7CounterField.upper.x - c7CounterField.lower.x)
        / c7CounterField.voxelSize = ((2 : Int) : ℚ) from by
      norm_num [c7CounterField]]
    exact Int.ceil_intCast 2
  have eY : baseSizeY c7CounterField = 1 := by
    rw [baseSizeY]
    rw [show (c7CounterField.upper.y - c7CounterField.lower.y)
        / c7CounterField.voxelSize = (1 : ℚ) from by
      norm_num [c7CounterField]]
    exact Int.ceil_one
  have eZ : baseSizeZ c7CounterField = 1 := by
    rw [baseSizeZ]
    rw [show (c7CounterField.upper.z - c7CounterField.lower.z)
        / c7CounterField.voxelSize = (1 : ℚ) from by
      norm_num [c7CounterField]]
    exact Int.ceil_one
  obtain ⟨s1, s2, s3, s4⟩ := dvFieldInit_props c7CounterField 10
    (by rw [eX]; omega) (by rw [eY]) (by rw [eZ])
    (by rw [eX, eY, eZ]; norm_num [c7CounterField])
    (by decide)
    (fun i j k hne => by
      show Volume.get c7CounterField.container i j k = false
      rw [Volume.get]
      split
      · rfl
      · rename_i hin
        push_neg at hin
        obtain ⟨h1, h2, h3, h4, h5, h6⟩ := hin
        simp only [c7CounterField] at h2 h4 h6
        interval_cases i <;> interval_cases j <;> interval_cases k <;>
          first
          | decide
          | exact absurd ⟨rfl, rfl, rfl⟩ hne)
  have hscan : dvFieldScanned c7CounterField 10 = dvFieldInit c7CounterField 10
      := by
    simp only [dvFieldScanned]
    rw [show (dvFieldInit c7CounterField 10).sizeZ = 1 from by
      rw [s1.2.2.2, eZ]]
    rw [show intRange1 (1 : Int) = [] from rfl]
    simp only [List.foldl_nil]
    rw [show (dvFieldInit c7CounterField 10).sizeZ = 1 from by
      rw [s1.2.2.2, eZ]]
    rw [show intRangeDesc ((1 : Int) - 2) = [] from rfl]
    simp only [List.foldl_nil]
  have hval : (dvFieldScanned c7CounterField 10).get 1 0 0
      = ⟨10, 10, 10⟩ := by
    rw [hscan, s4 1 0 0 (by omega)]
    norm_num [c7CounterField]
  have hsqn : ((dvFieldScanned c7CounterField 10).get 1 0 0).sqn = 300 := by
    rw [hval]
    norm_num [DistVector.sqn]
  have hstored : DistanceMap.storedDist c7CounterField 10 1 0 0 = (10 : ℝ) := by
    simp only [DistanceMap.storedDist]
    rw [hsqn]
    rw [if_neg (by
      rw [show ((300 : ℚ) : ℝ) = 300 from by norm_num]
      rw [show (c7CounterField.voxelSize : ℝ) = 1 from by
        norm_num [c7CounterField]]
      rw [one_mul]
      intro hcon
      have h10 : (10 : ℝ) ≤ Real.sqrt 300 := by
        rw [show (10 : ℝ) = Real.sqrt (10 ^ 2) from
          (Real.sqrt_sq (by norm_num)).symm]
        exact Real.sqrt_le_sqrt (by norm_num)
      rw [show ((10 : ℚ) : ℝ) = 10 from by norm_num] at hcon
      linarith)]
    norm_num
  refine ⟨hstored, ?_⟩
  rw [hstored]
  rw [show (c7CounterField.voxelSize : ℝ) = 1 from by
    norm_num [c7CounterField]]
  rw [show ((1 : Int) : ℝ) ^ 2 + ((0 : Int) : ℝ) ^ 2 + ((0 : Int) : ℝ) ^ 2
      = 1 from by norm_num]
  rw [Real.sqrt_one]
  norm_num

end LibGeometry
